import Mathlib

/-!
# Verification of the glaze color-resolution engine

A shallow embedding of the glaze OKHSL theme generator: the WCAG contrast
solver (`contrast-solver.ts`), the dependency-graph resolver (`glaze.ts`),
and the theme object store, together with theorems settling the frozen
claims about the natural-language specification.

Numbers are modelled as rationals.  The external color-math collaborators
(`okhslToLinearSrgb`, `relativeLuminanceFromLinearRgb`) are not part of the
sources; they are abstracted as a `ColorMath` parameter, while
`contrastRatioFromLuminance` follows the formula given in the spec.
The shared luminance memoization cache is made explicit: every solver and
resolver function is written in state-passing style over an abstract cache
state `σ` with a luminance oracle `lumF : σ → ℚ → ℚ → ℚ → ℚ × σ`; the pure
instantiation uses `σ = Unit`, the memoized one uses `σ = LumCache`.
-/

-- ============================================================================
-- Numeric helpers (JS semantics)
-- ============================================================================

/-- JS truncation toward zero, as used by the `%` operator. -/
def jsTrunc (q : ℚ) : ℤ :=
  if 0 ≤ q then ⌊q⌋ else ⌈q⌉

/-- The JS remainder operator `a % b` (sign follows the dividend). -/
def jsMod (a b : ℚ) : ℚ :=
  a - b * (jsTrunc (a / b) : ℚ)

/-- `Math.max` on rationals (kernel-reducible form). -/
def jsMax (a b : ℚ) : ℚ :=
  if a ≤ b then b else a

/-- `Math.min` on rationals (kernel-reducible form). -/
def jsMin (a b : ℚ) : ℚ :=
  if a ≤ b then a else b

/-- `Math.abs` on rationals (kernel-reducible form). -/
def jsAbs (q : ℚ) : ℚ :=
  if q < 0 then -q else q

/-- `Math.round(l * 10000) / 10000`: JS rounds half toward +∞. -/
def round4 (l : ℚ) : ℚ :=
  (⌊l * 10000 + 1/2⌋ : ℚ) / 10000

/-- `clamp(v, lo, hi) = Math.max(lo, Math.min(hi, v))`. -/
def clampQ (v lo hi : ℚ) : ℚ :=
  jsMax lo (jsMin hi v)

/-- WCAG contrast ratio from two relative luminances:
`(max(Y1,Y2)+0.05)/(min(Y1,Y2)+0.05)` (formula from the spec). -/
def contrastRatioFromLuminance (y1 y2 : ℚ) : ℚ :=
  (jsMax y1 y2 + 1/20) / (jsMin y1 y2 + 1/20)

-- ============================================================================
-- Data model (types.ts)
-- ============================================================================

inductive ContrastPreset
  | AA
  | AAA
  | AALarge
  | AAALarge
deriving DecidableEq

inductive MinContrast
  | num (q : ℚ)
  | preset (p : ContrastPreset)
deriving DecidableEq

/-- A value or a `[normal, high-contrast]` pair. -/
inductive HCPair (α : Type)
  | single (v : α)
  | pair (normal hc : α)
deriving DecidableEq

def pairNormal {α : Type} : HCPair α → α
  | .single v => v
  | .pair n _ => n

def pairHC {α : Type} : HCPair α → α
  | .single v => v
  | .pair _ h => h

/-- A number or a signed relative string such as `'+20'` / `'-15.5'`,
modelled as a tagged rational. -/
inductive NumOrRel
  | abs (q : ℚ)
  | rel (q : ℚ)
deriving DecidableEq

/-- `parseRelativeOrAbsolute`: numeric value plus a relative flag. -/
def parseRA : NumOrRel → ℚ × Bool
  | .abs q => (q, false)
  | .rel q => (q, true)

inductive AdaptationMode
  | auto
  | fixed
  | static
deriving DecidableEq

structure ColorDef where
  lightness : Option (HCPair NumOrRel) := none
  saturation : Option ℚ := none
  hue : Option NumOrRel := none
  base : Option String := none
  contrast : Option (HCPair MinContrast) := none
  mode : Option AdaptationMode := none
deriving DecidableEq

/-- A JS object `Record<string, ColorDef>`: an insertion-ordered
association list with unique keys. -/
abbrev ColorMap := List (String × ColorDef)

/-- Association-list lookup (JS property access / `Map.get`). -/
def alookup {α β : Type} [DecidableEq α] : List (α × β) → α → Option β
  | [], _ => none
  | (k, v) :: rest, x => if x = k then some v else alookup rest x

/-- `Map.set`: replace in place if the key exists, else append. -/
def upsert {α β : Type} [DecidableEq α] : List (α × β) → α → β → List (α × β)
  | [], n, v => [(n, v)]
  | (k, w) :: rest, n, v =>
    if n = k then (n, v) :: rest else (k, w) :: upsert rest n v

/-- `delete obj[k]`: remove the (unique) entry with the given key. -/
def eraseKey {α β : Type} [DecidableEq α] : List (α × β) → α → List (α × β)
  | [], _ => []
  | (k, w) :: rest, n =>
    if n = k then rest else (k, w) :: eraseKey rest n

structure ResolvedColorVariant where
  h : ℚ
  s : ℚ
  l : ℚ
deriving DecidableEq

structure ResolvedColor where
  name : String
  light : ResolvedColorVariant
  dark : ResolvedColorVariant
  lightContrast : ResolvedColorVariant
  darkContrast : ResolvedColorVariant
  mode : AdaptationMode
deriving DecidableEq

-- ============================================================================
-- External color math (abstracted collaborators)
-- ============================================================================

/-- The external color-math collaborators `okhslToLinearSrgb` and
`relativeLuminanceFromLinearRgb`, abstracted as opaque pure functions
(the spec places their formulas out of scope). -/
structure ColorMath where
  okhsl : ℚ → ℚ → ℚ → ℚ × ℚ × ℚ
  relLum : ℚ × ℚ × ℚ → ℚ

/-- The luminance of an OKHSL color at 4-decimal-rounded lightness:
the value `cachedLuminance` computes on a cache miss. -/
def lumAt (M : ColorMath) (h s l : ℚ) : ℚ :=
  M.relLum (M.okhsl h s (round4 l))

-- ============================================================================
-- Luminance memoization cache (contrast-solver.ts)
-- ============================================================================

/-- The module-level memoization table: `luminanceCache` plus the FIFO
`cacheOrder` list.  Keys are the triples `(h, s, round4 l)` (the string key
`h|s|lRounded` encodes exactly this triple). -/
structure LumCache where
  entries : List ((ℚ × ℚ × ℚ) × ℚ) := []
  insOrder : List (ℚ × ℚ × ℚ) := []

/-- `cachedLuminance`: look up the rounded key; on a miss compute the
luminance, evict the oldest entry when the table is full, and insert. -/
def cachedLuminance (M : ColorMath) (c : LumCache) (h s l : ℚ) : ℚ × LumCache :=
  let lR := round4 l
  let key := (h, s, lR)
  match alookup c.entries key with
  | some y => (y, c)
  | none =>
    let y := M.relLum (M.okhsl h s lR)
    let c1 :=
      if 512 ≤ c.entries.length then
        match c.insOrder with
        | [] => c
        | e :: rest => { entries := eraseKey c.entries e, insOrder := rest }
      else c
    (y, { entries := c1.entries ++ [(key, y)], insOrder := c1.insOrder ++ [key] })

/-- Every cache entry stores the luminance of its own key: the invariant
every reachable cache state satisfies. -/
def CacheConsistent (M : ColorMath) (c : LumCache) : Prop :=
  ∀ k y, (k, y) ∈ c.entries → y = M.relLum (M.okhsl k.1 k.2.1 k.2.2)

/-- The luminance oracle of the pure (cache-free) semantics. -/
def pureLumF (M : ColorMath) : Unit → ℚ → ℚ → ℚ → ℚ × Unit :=
  fun _ h s l => (lumAt M h s l, ())

-- ============================================================================
-- Contrast solver (contrast-solver.ts)
-- ============================================================================

def CONTRAST_PRESETS : ContrastPreset → ℚ
  | .AA => 9/2
  | .AAA => 7
  | .AALarge => 3
  | .AAALarge => 9/2

/-- `resolveMinContrast`: numbers are floored at 1, presets are mapped. -/
def resolveMinContrast : MinContrast → ℚ
  | .num q => jsMax 1 q
  | .preset p => CONTRAST_PRESETS p

inductive SolverBranch
  | darker
  | lighter
  | preferred
deriving DecidableEq

structure BranchResult where
  lightness : ℚ
  contrast : ℚ
  met : Bool
deriving DecidableEq

structure FLOptions where
  hue : ℚ
  saturation : ℚ
  preferredLightness : ℚ
  baseLinearRgb : ℚ × ℚ × ℚ
  contrast : MinContrast
  lightnessRange : ℚ × ℚ := (0, 1)
  epsilon : ℚ := 1/10000
  maxIterations : ℕ := 14
deriving DecidableEq

structure FLResult where
  lightness : ℚ
  contrast : ℚ
  met : Bool
  branch : SolverBranch
deriving DecidableEq

/-- One iteration of `searchBranch`'s bisection body (after the width
check): evaluate the midpoint and steer toward `preferred` on the passing
side. -/
def bisectStep {σ : Type} (lumF : σ → ℚ → ℚ → ℚ → ℚ × σ)
    (h s yBase target preferred : ℚ) (st : ℚ × ℚ × σ) : ℚ × ℚ × σ :=
  let low := st.1
  let high := st.2.1
  let mid := (low + high) / 2
  let (yMid, cs1) := lumF st.2.2 h s mid
  let crMid := contrastRatioFromLuminance yMid yBase
  if target ≤ crMid then
    if mid < preferred then (mid, high, cs1) else (low, mid, cs1)
  else
    if mid < preferred then (low, mid, cs1) else (mid, high, cs1)

/-- `searchBranch`'s bisection loop: up to `maxIter` rounds, stopping early
once the interval width drops below `epsilon`. -/
def bisectLoop {σ : Type} (lumF : σ → ℚ → ℚ → ℚ → ℚ × σ)
    (h s yBase target eps preferred : ℚ) : ℕ → ℚ × ℚ × σ → ℚ × ℚ × σ
  | 0, st => st
  | Nat.succ n, st =>
    if st.2.1 - st.1 < eps then st
    else bisectLoop lumF h s yBase target eps preferred n
      (bisectStep lumF h s yBase target preferred st)

/-- One sample step of `coarseScan`'s 64-step scan loop: track the latest
passing sample, or (absent any pass) the first highest-contrast sample. -/
def scanStep {σ : Type} (lumF : σ → ℚ → ℚ → ℚ → ℚ × σ)
    (h s yBase target : ℚ) (st : ℚ × ℚ × Bool × σ) (l : ℚ) : ℚ × ℚ × Bool × σ :=
  let bestL := st.1
  let bestCr := st.2.1
  let bestMet := st.2.2.1
  let (y, cs1) := lumF st.2.2.2 h s l
  let cr := contrastRatioFromLuminance y yBase
  if target ≤ cr ∧ bestMet = false then (l, cr, true, cs1)
  else if target ≤ cr ∧ bestMet = true then (l, cr, true, cs1)
  else if bestMet = false ∧ bestCr < cr then (l, cr, false, cs1)
  else (bestL, bestCr, bestMet, cs1)

/-- `coarseScan`'s refinement loop: bounded bisection of
`[bestL - step, bestL]`, keeping `bestL` on the passing side.
State: `(rLo, rHi, bestL, bestCr, cache)`. -/
def refineLoop {σ : Type} (lumF : σ → ℚ → ℚ → ℚ → ℚ × σ)
    (h s yBase target eps : ℚ) : ℕ → ℚ × ℚ × ℚ × ℚ × σ → ℚ × ℚ × ℚ × ℚ × σ
  | 0, st => st
  | Nat.succ n, st =>
    if st.2.1 - st.1 < eps then st
    else
      let mid := (st.1 + st.2.1) / 2
      let (y, cs1) := lumF st.2.2.2.2 h s mid
      let cr := contrastRatioFromLuminance y yBase
      if target ≤ cr then
        refineLoop lumF h s yBase target eps n (st.1, mid, mid, cr, cs1)
      else
        refineLoop lumF h s yBase target eps n (mid, st.2.1, st.2.2.1, st.2.2.2.1, cs1)

/-- `coarseScan`: sample the branch at 64 equal steps (65 samples), then
refine below the recorded passing sample when it lies beyond the first
step. -/
def coarseScan {σ : Type} (lumF : σ → ℚ → ℚ → ℚ → ℚ × σ)
    (h s lo hi yBase target eps : ℚ) (maxIter : ℕ) (cs : σ) : BranchResult × σ :=
  let step := (hi - lo) / 64
  let scanned := (List.range 65).foldl
    (fun st (i : ℕ) => scanStep lumF h s yBase target st (lo + step * (i : ℚ)))
    (lo, 0, false, cs)
  let bestL := scanned.1
  let bestCr := scanned.2.1
  let bestMet := scanned.2.2.1
  let cs1 := scanned.2.2.2
  if bestMet = true ∧ lo + step < bestL then
    let refined := refineLoop lumF h s yBase target eps maxIter
      (bestL - step, bestL, bestL, bestCr, cs1)
    (⟨refined.2.2.1, refined.2.2.2.1, true⟩, refined.2.2.2.2)
  else (⟨bestL, bestCr, bestMet⟩, cs1)

/-- `searchBranch`: binary search one branch `[lo, hi]` for the nearest
passing lightness to `preferred`, falling back to `coarseScan` when both
final bounds fail. -/
def searchBranch {σ : Type} (lumF : σ → ℚ → ℚ → ℚ → ℚ × σ)
    (h s lo hi yBase target eps : ℚ) (maxIter : ℕ) (preferred : ℚ) (cs : σ) :
    BranchResult × σ :=
  let (yLo, cs1) := lumF cs h s lo
  let (yHi, cs2) := lumF cs1 h s hi
  let crLo := contrastRatioFromLuminance yLo yBase
  let crHi := contrastRatioFromLuminance yHi yBase
  if crLo < target ∧ crHi < target then
    if crHi ≤ crLo then (⟨lo, crLo, false⟩, cs2) else (⟨hi, crHi, false⟩, cs2)
  else
    let bis := bisectLoop lumF h s yBase target eps preferred maxIter (lo, hi, cs2)
    let low := bis.1
    let high := bis.2.1
    let (yLow, cs4) := lumF bis.2.2 h s low
    let (yHigh, cs5) := lumF cs4 h s high
    let crLow := contrastRatioFromLuminance yLow yBase
    let crHigh := contrastRatioFromLuminance yHigh yBase
    if target ≤ crLow ∧ target ≤ crHigh then
      if jsAbs (low - preferred) ≤ jsAbs (high - preferred) then (⟨low, crLow, true⟩, cs5)
      else (⟨high, crHigh, true⟩, cs5)
    else if target ≤ crLow then (⟨low, crLow, true⟩, cs5)
    else if target ≤ crHigh then (⟨high, crHigh, true⟩, cs5)
    else coarseScan lumF h s lo hi yBase target eps maxIter cs5

/-- `findLightnessForContrast`: return `preferred` if it already passes,
otherwise search the darker and lighter branches independently and
combine. -/
def findLightnessForContrast {σ : Type} (M : ColorMath)
    (lumF : σ → ℚ → ℚ → ℚ → ℚ × σ) (opts : FLOptions) (cs : σ) : FLResult × σ :=
  let target := resolveMinContrast opts.contrast
  let yBase := M.relLum opts.baseLinearRgb
  let (yPref, cs1) := lumF cs opts.hue opts.saturation opts.preferredLightness
  let crPref := contrastRatioFromLuminance yPref yBase
  if target ≤ crPref then
    (⟨opts.preferredLightness, crPref, true, .preferred⟩, cs1)
  else
    let minL := opts.lightnessRange.1
    let maxL := opts.lightnessRange.2
    let dpair :=
      if minL < opts.preferredLightness then
        let r := searchBranch lumF opts.hue opts.saturation minL opts.preferredLightness
          yBase target opts.epsilon opts.maxIterations opts.preferredLightness cs1
        (some r.1, r.2)
      else (none, cs1)
    let lpair :=
      if opts.preferredLightness < maxL then
        let r := searchBranch lumF opts.hue opts.saturation opts.preferredLightness maxL
          yBase target opts.epsilon opts.maxIterations opts.preferredLightness dpair.2
        (some r.1, r.2)
      else (none, dpair.2)
    let cs3 := lpair.2
    match dpair.1, lpair.1 with
    | some d, some l =>
      if d.met = true ∧ l.met = true then
        if jsAbs (d.lightness - opts.preferredLightness) ≤
            jsAbs (l.lightness - opts.preferredLightness) then
          (⟨d.lightness, d.contrast, d.met, .darker⟩, cs3)
        else (⟨l.lightness, l.contrast, l.met, .lighter⟩, cs3)
      else if d.met = true then (⟨d.lightness, d.contrast, d.met, .darker⟩, cs3)
      else if l.met = true then (⟨l.lightness, l.contrast, l.met, .lighter⟩, cs3)
      else if l.contrast ≤ d.contrast then (⟨d.lightness, d.contrast, d.met, .darker⟩, cs3)
      else (⟨l.lightness, l.contrast, l.met, .lighter⟩, cs3)
    | some d, none => (⟨d.lightness, d.contrast, d.met, .darker⟩, cs3)
    | none, some l => (⟨l.lightness, l.contrast, l.met, .lighter⟩, cs3)
    | none, none => (⟨opts.preferredLightness, crPref, false, .preferred⟩, cs3)

/-- The pure (cache-free) semantics of `findLightnessForContrast`. -/
def findLightnessP (M : ColorMath) (opts : FLOptions) : FLResult :=
  (findLightnessForContrast M (pureLumF M) opts ()).1

/-- The pure semantics of `coarseScan`. -/
def coarseScanP (M : ColorMath) (h s lo hi yBase target eps : ℚ) (maxIter : ℕ) :
    BranchResult :=
  (coarseScan (pureLumF M) h s lo hi yBase target eps maxIter ()).1

/-- The contrast ratio the solver ascribes to a candidate lightness `l`
against a base luminance `yBase` (note the 4-decimal rounding performed by
`cachedLuminance`). -/
def solverCrAt (M : ColorMath) (h s yBase l : ℚ) : ℚ :=
  contrastRatioFromLuminance (lumAt M h s l) yBase

-- ============================================================================
-- Validation and ordering (glaze.ts)
-- ============================================================================

inductive GlazeError
  | contrastWithoutBase (name : String)
  | relativeWithoutBase (name : String)
  | unknownBase (name base : String)
  | missingPosition (name : String)
  | circular (name : String)
  | baseNotResolved (name base : String)
  | internalMissing (name : String)
  | fuelExhausted
deriving DecidableEq

/-- `isAbsoluteLightness`: the normal member of the pair is a plain
number. -/
def isAbsoluteLightness (l : Option (HCPair NumOrRel)) : Bool :=
  match l with
  | none => false
  | some p =>
    match pairNormal p with
    | .abs _ => true
    | .rel _ => false

/-- The per-definition checks of `validateColorDefs`'s first loop (the
ambiguous-definition warning is a non-fatal `console.warn` and has no
effect on the result). -/
def checkDef (names : List String) (name : String) (d : ColorDef) :
    Except GlazeError Unit :=
  if d.contrast.isSome ∧ d.base.isNone then .error (.contrastWithoutBase name)
  else if d.lightness.isSome ∧ isAbsoluteLightness d.lightness = false ∧ d.base.isNone then
    .error (.relativeWithoutBase name)
  else
    match d.base with
    | some b => if b ∈ names then .ok () else .error (.unknownBase name b)
    | none =>
      if isAbsoluteLightness d.lightness = false then .error (.missingPosition name)
      else .ok ()

def checkDefsFrom (names : List String) : List (String × ColorDef) → Except GlazeError Unit
  | [] => .ok ()
  | (n, d) :: rest =>
    match checkDef names n d with
    | .error e => .error e
    | .ok _ => checkDefsFrom names rest

/-- The base edge the validator and the topological sort follow: only when
the node lacks absolute lightness. -/
def followedBase (d : ColorDef) : Option String :=
  match d.base with
  | some b => if isAbsoluteLightness d.lightness = false then some b else none
  | none => none

/-- The `dfs` of `validateColorDefs`'s cycle check, with explicit recursion
fuel (the source recursion always terminates; fuel sufficiency is proved
below).  Returns the grown visited set. -/
def dfsCheck (defs : ColorMap) : ℕ → List String → List String → String →
    Except GlazeError (List String)
  | 0, _, _, _ => .error .fuelExhausted
  | Nat.succ fuel, inStack, visited, name =>
    if name ∈ inStack then .error (.circular name)
    else if name ∈ visited then .ok visited
    else
      match alookup defs name with
      | none => .ok (name :: visited)
      | some d =>
        match followedBase d with
        | some b =>
          match dfsCheck defs fuel (name :: inStack) visited b with
          | .error e => .error e
          | .ok v => .ok (name :: v)
        | none => .ok (name :: visited)

def checkCyclesFrom (defs : ColorMap) (fuel : ℕ) :
    List String → List String → Except GlazeError Unit
  | _, [] => .ok ()
  | visited, n :: ns =>
    match dfsCheck defs fuel [] visited n with
    | .error e => .error e
    | .ok v => checkCyclesFrom defs fuel v ns

/-- `validateColorDefs`: the per-definition checks, then depth-first cycle
detection over followed base edges. -/
def validateColorDefs (defs : ColorMap) : Except GlazeError Unit :=
  match checkDefsFrom (defs.map Prod.fst) defs with
  | .error e => .error e
  | .ok _ => checkCyclesFrom defs (defs.length + 1) [] (defs.map Prod.fst)

/-- The `visit` of `topoSort`, with explicit fuel.  State:
`(visited, result)`. -/
def topoVisit (defs : ColorMap) : ℕ → List String × List String → String →
    List String × List String
  | 0, st, _ => st
  | Nat.succ fuel, st, name =>
    if name ∈ st.1 then st
    else
      let visited1 := name :: st.1
      match alookup defs name with
      | none => (visited1, st.2 ++ [name])
      | some d =>
        match followedBase d with
        | some b =>
          let st2 := topoVisit defs fuel (visited1, st.2) b
          (st2.1, st2.2 ++ [name])
        | none => (visited1, st.2 ++ [name])

/-- `topoSort`: depth-first post-order over followed base edges. -/
def topoSort (defs : ColorMap) : List String :=
  ((defs.map Prod.fst).foldl (fun st n => topoVisit defs (defs.length + 1) st n) ([], [])).2

-- ============================================================================
-- Dark scheme mapping and evaluation helpers (glaze.ts)
-- ============================================================================

/-- The process-wide configuration (only the fields the resolution engine
reads). -/
structure GlazeConfigR where
  darkLightness : ℚ × ℚ := (10, 90)
  darkDesaturation : ℚ := 1/10
deriving DecidableEq

def defaultGlazeConfig : GlazeConfigR := {}

/-- `mapLightnessDark`: static is the identity, fixed maps into the dark
window, auto inverts into the dark window. -/
def mapLightnessDark (cfg : GlazeConfigR) (l : ℚ) (mode : AdaptationMode) : ℚ :=
  match mode with
  | .static => l
  | .fixed => (l * (cfg.darkLightness.2 - cfg.darkLightness.1)) / 100 + cfg.darkLightness.1
  | .auto => ((100 - l) * (cfg.darkLightness.2 - cfg.darkLightness.1)) / 100 + cfg.darkLightness.1

def mapSaturationDark (cfg : GlazeConfigR) (s : ℚ) (mode : AdaptationMode) : ℚ :=
  match mode with
  | .static => s
  | _ => s * (1 - cfg.darkDesaturation)

/-- `resolveEffectiveHue`: absolute override, or seed plus relative
override, normalized into `[0, 360)` by `((x % 360) + 360) % 360`. -/
def resolveEffectiveHue (seedHue : ℚ) (defHue : Option NumOrRel) : ℚ :=
  match defHue with
  | none => seedHue
  | some v =>
    let parsed := parseRA v
    if parsed.2 then jsMod (jsMod (seedHue + parsed.1) 360 + 360) 360
    else jsMod (jsMod parsed.1 360 + 360) 360

-- ============================================================================
-- Color resolution engine (glaze.ts)
-- ============================================================================

structure ResolveCtx where
  hue : ℚ
  saturation : ℚ
  defs : ColorMap
  resolved : List (String × ResolvedColor)

/-- Select the already-resolved variant for the current
`(isDark, isHighContrast)` pair. -/
def variantOf (rc : ResolvedColor) (isDark isHC : Bool) : ResolvedColorVariant :=
  match isDark, isHC with
  | true, true => rc.darkContrast
  | true, false => rc.dark
  | false, true => rc.lightContrast
  | false, false => rc.light

/-- `resolveRootColor`: clamp the picked absolute lightness into `[0,100]`
and the saturation factor into `[0,1]`.  (The `none` lightness case is
unreachable on the root path.) -/
def resolveRootColor (d : ColorDef) (isHC : Bool) : ℚ × ℚ :=
  let satFactor := clampQ (d.saturation.getD 1) 0 1
  match d.lightness with
  | none => (0, satFactor)
  | some p =>
    let raw := if isHC then pairHC p else pairNormal p
    let parsed := parseRA raw
    (clampQ parsed.1 0 100, satFactor)

/-- `resolveDependentColor`: read the base's already-resolved variant,
derive the preferred lightness (inherit / signed delta with dark-auto sign
flip / absolute with independent dark mapping), then optionally run the
contrast solver. -/
def resolveDependentColor {σ : Type} (M : ColorMath)
    (lumF : σ → ℚ → ℚ → ℚ → ℚ × σ) (cfg : GlazeConfigR) (ctx : ResolveCtx)
    (name : String) (d : ColorDef) (isHC isDark : Bool) (effectiveHue : ℚ)
    (cs : σ) : Except GlazeError (ℚ × ℚ) × σ :=
  match d.base with
  | none => (.error (.baseNotResolved name ""), cs)
  | some baseName =>
    match alookup ctx.resolved baseName with
    | none => (.error (.baseNotResolved name baseName), cs)
    | some baseResolved =>
      let mode := d.mode.getD .auto
      let satFactor := clampQ (d.saturation.getD 1) 0 1
      let baseL := (variantOf baseResolved isDark isHC).l * 100
      let preferredL :=
        match d.lightness with
        | none => baseL
        | some p =>
          let raw := if isHC then pairHC p else pairNormal p
          let parsed := parseRA raw
          if parsed.2 then
            let delta := if isDark ∧ mode = .auto then -parsed.1 else parsed.1
            clampQ (baseL + delta) 0 100
          else if isDark then mapLightnessDark cfg parsed.1 mode
          else clampQ parsed.1 0 100
      match d.contrast with
      | some cp =>
        let minCr := if isHC then pairHC cp else pairNormal cp
        let effectiveSat :=
          if isDark then mapSaturationDark cfg (satFactor * ctx.saturation / 100) mode
          else satFactor * ctx.saturation / 100
        let bv := variantOf baseResolved isDark isHC
        let res := findLightnessForContrast M lumF
          { hue := effectiveHue, saturation := effectiveSat,
            preferredLightness := preferredL / 100,
            baseLinearRgb := M.okhsl bv.h bv.s bv.l, contrast := minCr } cs
        (.ok (res.1.lightness * 100, satFactor), res.2)
      | none => (.ok (clampQ preferredL 0 100, satFactor), cs)

/-- `resolveColorForScheme`: root or dependent evaluation, then the final
variant mapping (dark-map roots, dark-desaturate everything in dark mode)
with clamping to the 0–1 scale. -/
def resolveColorForScheme {σ : Type} (M : ColorMath)
    (lumF : σ → ℚ → ℚ → ℚ → ℚ × σ) (cfg : GlazeConfigR) (ctx : ResolveCtx)
    (name : String) (d : ColorDef) (isDark isHC : Bool) (cs : σ) :
    Except GlazeError ResolvedColorVariant × σ :=
  let mode := d.mode.getD .auto
  let isRoot := isAbsoluteLightness d.lightness && d.base.isNone
  let effectiveHue := resolveEffectiveHue ctx.hue d.hue
  let lifted :=
    if isRoot then (.ok (resolveRootColor d isHC), cs)
    else resolveDependentColor M lumF cfg ctx name d isHC isDark effectiveHue cs
  match lifted with
  | (.error e, cs1) => (.error e, cs1)
  | (.ok lightSat, cs1) =>
    let lightL := lightSat.1
    let satFactor := lightSat.2
    let finalL := if isDark ∧ isRoot = true then mapLightnessDark cfg lightL mode else lightL
    let finalSat :=
      if isDark then mapSaturationDark cfg (satFactor * ctx.saturation / 100) mode
      else satFactor * ctx.saturation / 100
    (.ok ⟨effectiveHue, clampQ finalSat 0 1, clampQ (finalL / 100) 0 1⟩, cs1)

/-- Pass 1 (light normal): fold over the topological order, building the
light variant map and seeding every resolved entry with it. -/
def pass1 {σ : Type} (M : ColorMath) (lumF : σ → ℚ → ℚ → ℚ → ℚ × σ)
    (cfg : GlazeConfigR) (hue sat : ℚ) (defs : ColorMap) :
    List String →
    List (String × ResolvedColorVariant) × List (String × ResolvedColor) × σ →
    Except GlazeError (List (String × ResolvedColorVariant) × List (String × ResolvedColor)) × σ
  | [], st => (.ok (st.1, st.2.1), st.2.2)
  | n :: rest, st =>
    match alookup defs n with
    | none => (.error (.internalMissing n), st.2.2)
    | some d =>
      match resolveColorForScheme M lumF cfg ⟨hue, sat, defs, st.2.1⟩ n d false false st.2.2 with
      | (.error e, cs1) => (.error e, cs1)
      | (.ok v, cs1) =>
        pass1 M lumF cfg hue sat defs rest
          (upsert st.1 n v, upsert st.2.1 n ⟨n, v, v, v, v, d.mode.getD .auto⟩, cs1)

/-- The rewrite loop before pass 2: reset every entry's `lightContrast` to
its pass-1 value. -/
def prePass2 (lightMap : List (String × ResolvedColorVariant)) :
    List String → List (String × ResolvedColor) →
    Except GlazeError (List (String × ResolvedColor))
  | [], rm => .ok rm
  | n :: rest, rm =>
    match alookup rm n, alookup lightMap n with
    | some rc, some v => prePass2 lightMap rest (upsert rm n { rc with lightContrast := v })
    | _, _ => .error (.internalMissing n)

/-- Pass 2 (light high-contrast). -/
def pass2 {σ : Type} (M : ColorMath) (lumF : σ → ℚ → ℚ → ℚ → ℚ × σ)
    (cfg : GlazeConfigR) (hue sat : ℚ) (defs : ColorMap) :
    List String →
    List (String × ResolvedColorVariant) × List (String × ResolvedColor) × σ →
    Except GlazeError (List (String × ResolvedColorVariant) × List (String × ResolvedColor)) × σ
  | [], st => (.ok (st.1, st.2.1), st.2.2)
  | n :: rest, st =>
    match alookup defs n with
    | none => (.error (.internalMissing n), st.2.2)
    | some d =>
      match resolveColorForScheme M lumF cfg ⟨hue, sat, defs, st.2.1⟩ n d false true st.2.2 with
      | (.error e, cs1) => (.error e, cs1)
      | (.ok v, cs1) =>
        match alookup st.2.1 n with
        | none => (.error (.internalMissing n), cs1)
        | some rc =>
          pass2 M lumF cfg hue sat defs rest
            (upsert st.1 n v, upsert st.2.1 n { rc with lightContrast := v }, cs1)

/-- The rewrite loop before pass 3: rebuild every entry from the pass-1 and
pass-2 maps. -/
def prePass3 (lightMap lightHCMap : List (String × ResolvedColorVariant))
    (defs : ColorMap) :
    List String → List (String × ResolvedColor) →
    Except GlazeError (List (String × ResolvedColor))
  | [], rm => .ok rm
  | n :: rest, rm =>
    match alookup defs n, alookup lightMap n, alookup lightHCMap n with
    | some d, some vl, some vhc =>
      prePass3 lightMap lightHCMap defs rest
        (upsert rm n ⟨n, vl, vl, vhc, vhc, d.mode.getD .auto⟩)
    | _, _, _ => .error (.internalMissing n)

/-- Pass 3 (dark normal). -/
def pass3 {σ : Type} (M : ColorMath) (lumF : σ → ℚ → ℚ → ℚ → ℚ × σ)
    (cfg : GlazeConfigR) (hue sat : ℚ) (defs : ColorMap) :
    List String →
    List (String × ResolvedColorVariant) × List (String × ResolvedColor) × σ →
    Except GlazeError (List (String × ResolvedColorVariant) × List (String × ResolvedColor)) × σ
  | [], st => (.ok (st.1, st.2.1), st.2.2)
  | n :: rest, st =>
    match alookup defs n with
    | none => (.error (.internalMissing n), st.2.2)
    | some d =>
      match resolveColorForScheme M lumF cfg ⟨hue, sat, defs, st.2.1⟩ n d true false st.2.2 with
      | (.error e, cs1) => (.error e, cs1)
      | (.ok v, cs1) =>
        match alookup st.2.1 n with
        | none => (.error (.internalMissing n), cs1)
        | some rc =>
          pass3 M lumF cfg hue sat defs rest
            (upsert st.1 n v, upsert st.2.1 n { rc with dark := v }, cs1)

/-- The rewrite loop before pass 4: reset every entry's `darkContrast` to
its pass-3 value. -/
def prePass4 (darkMap : List (String × ResolvedColorVariant)) :
    List String → List (String × ResolvedColor) →
    Except GlazeError (List (String × ResolvedColor))
  | [], rm => .ok rm
  | n :: rest, rm =>
    match alookup rm n, alookup darkMap n with
    | some rc, some v => prePass4 darkMap rest (upsert rm n { rc with darkContrast := v })
    | _, _ => .error (.internalMissing n)

/-- Pass 4 (dark high-contrast). -/
def pass4 {σ : Type} (M : ColorMath) (lumF : σ → ℚ → ℚ → ℚ → ℚ × σ)
    (cfg : GlazeConfigR) (hue sat : ℚ) (defs : ColorMap) :
    List String →
    List (String × ResolvedColorVariant) × List (String × ResolvedColor) × σ →
    Except GlazeError (List (String × ResolvedColorVariant) × List (String × ResolvedColor)) × σ
  | [], st => (.ok (st.1, st.2.1), st.2.2)
  | n :: rest, st =>
    match alookup defs n with
    | none => (.error (.internalMissing n), st.2.2)
    | some d =>
      match resolveColorForScheme M lumF cfg ⟨hue, sat, defs, st.2.1⟩ n d true true st.2.2 with
      | (.error e, cs1) => (.error e, cs1)
      | (.ok v, cs1) =>
        match alookup st.2.1 n with
        | none => (.error (.internalMissing n), cs1)
        | some rc =>
          pass4 M lumF cfg hue sat defs rest
            (upsert st.1 n v, upsert st.2.1 n { rc with darkContrast := v }, cs1)

/-- The final result assembly from the four per-pass variant maps. -/
def buildResult (defs : ColorMap)
    (lm dm lhm dhm : List (String × ResolvedColorVariant)) :
    List String → Except GlazeError (List (String × ResolvedColor))
  | [] => .ok []
  | n :: rest =>
    match alookup defs n, alookup lm n, alookup dm n, alookup lhm n, alookup dhm n with
    | some d, some vl, some vd, some vlc, some vdc =>
      match buildResult defs lm dm lhm dhm rest with
      | .error e => .error e
      | .ok tail => .ok ((n, ⟨n, vl, vd, vlc, vdc, d.mode.getD .auto⟩) :: tail)
    | _, _, _, _, _ => .error (.internalMissing n)

/-- `resolveAllColors`: validate, order, evaluate the four scheme variants
in strict sequence, and assemble the result map. -/
def resolveAllColors {σ : Type} (M : ColorMath)
    (lumF : σ → ℚ → ℚ → ℚ → ℚ × σ) (cfg : GlazeConfigR) (hue sat : ℚ)
    (defs : ColorMap) (cs : σ) :
    Except GlazeError (List (String × ResolvedColor)) × σ :=
  match validateColorDefs defs with
  | .error e => (.error e, cs)
  | .ok _ =>
    let order := topoSort defs
    match pass1 M lumF cfg hue sat defs order ([], [], cs) with
    | (.error e, cs1) => (.error e, cs1)
    | (.ok lmrm, cs1) =>
      match prePass2 lmrm.1 order lmrm.2 with
      | .error e => (.error e, cs1)
      | .ok rm2 =>
        match pass2 M lumF cfg hue sat defs order ([], rm2, cs1) with
        | (.error e, cs2) => (.error e, cs2)
        | (.ok lhmrm, cs2) =>
          match prePass3 lmrm.1 lhmrm.1 defs order lhmrm.2 with
          | .error e => (.error e, cs2)
          | .ok rm4 =>
            match pass3 M lumF cfg hue sat defs order ([], rm4, cs2) with
            | (.error e, cs3) => (.error e, cs3)
            | (.ok dmrm, cs3) =>
              match prePass4 dmrm.1 order dmrm.2 with
              | .error e => (.error e, cs3)
              | .ok rm6 =>
                match pass4 M lumF cfg hue sat defs order ([], rm6, cs3) with
                | (.error e, cs4) => (.error e, cs4)
                | (.ok dhmrm, cs4) =>
                  (buildResult defs lmrm.1 dmrm.1 lhmrm.1 dhmrm.1 order, cs4)

/-- The pure (cache-free) semantics of `resolveAllColors`. -/
def resolveAllColorsP (M : ColorMath) (cfg : GlazeConfigR) (hue sat : ℚ)
    (defs : ColorMap) : Except GlazeError (List (String × ResolvedColor)) :=
  (resolveAllColors M (pureLumF M) cfg hue sat defs ()).1

-- ============================================================================
-- Theme object store (glaze.ts theme implementation)
-- ============================================================================

/-- A tiny object heap for the theme's `colorDefs` variable: JS objects are
references into a store, so in-place mutation (`colorDefs[name] = def`,
`delete colorDefs[name]`) is distinguished from reassignment
(`colorDefs = { ...colorDefs, ...defs }`) and from the copies made by
`export()`. -/
structure ThemeMem where
  store : ℕ → ColorMap
  next : ℕ

/-- The theme closure state: the captured immutable seed plus the address
of the current `colorDefs` object. -/
structure ThemeObj where
  hue : ℚ
  saturation : ℚ
  defsAddr : ℕ

/-- Allocate a fresh object holding `v`. -/
def memAlloc (m : ThemeMem) (v : ColorMap) : ℕ × ThemeMem :=
  (m.next, ⟨fun a => if a = m.next then v else m.store a, m.next + 1⟩)

/-- Mutate the object at address `a` in place. -/
def memWrite (m : ThemeMem) (a : ℕ) (v : ColorMap) : ThemeMem :=
  ⟨fun x => if x = a then v else m.store x, m.next⟩

/-- `{ ...old, ...upd }`: old keys in order (values overridden by `upd`),
then the new keys of `upd` in their order. -/
def spreadMerge (old upd : ColorMap) : ColorMap :=
  (old.map fun kv =>
    match alookup upd kv.1 with
    | some v => (kv.1, v)
    | none => kv) ++
  upd.filter fun kv => (alookup old kv.1).isNone

/-- The theme mutators named by the snapshot claim. -/
inductive ThemeOp
  | colorsOp (defs : ColorMap)
  | colorSet (name : String) (d : ColorDef)
  | removeOp (names : List String)
  | resetOp

/-- Apply a theme mutator: `colors` and `reset` reassign `colorDefs` to a
fresh object, `color(name, def)` and `remove` mutate the current object in
place. -/
def applyThemeOp (st : ThemeMem × ThemeObj) : ThemeOp → ThemeMem × ThemeObj
  | .colorsOp ds =>
    let cur := st.1.store st.2.defsAddr
    let am := memAlloc st.1 (spreadMerge cur ds)
    (am.2, { st.2 with defsAddr := am.1 })
  | .colorSet n d =>
    let cur := st.1.store st.2.defsAddr
    (memWrite st.1 st.2.defsAddr (upsert cur n d), st.2)
  | .removeOp ns =>
    let cur := st.1.store st.2.defsAddr
    (memWrite st.1 st.2.defsAddr (ns.foldl eraseKey cur), st.2)
  | .resetOp =>
    let am := memAlloc st.1 []
    (am.2, { st.2 with defsAddr := am.1 })

def applyThemeOps (st : ThemeMem × ThemeObj) (ops : List ThemeOp) : ThemeMem × ThemeObj :=
  ops.foldl applyThemeOp st

/-- The object `export()` returns: the captured seed values plus a fresh
shallow copy `{ ...colorDefs }` of the current definitions. -/
structure ThemeExportObj where
  hue : ℚ
  saturation : ℚ
  colorsAddr : ℕ

def exportTheme (st : ThemeMem × ThemeObj) : ThemeExportObj × ThemeMem :=
  let am := memAlloc st.1 (st.1.store st.2.defsAddr)
  (⟨st.2.hue, st.2.saturation, am.1⟩, am.2)

/-- Dereference an export object: its hue, saturation, and colors
entries as currently observable in memory. -/
def readExport (m : ThemeMem) (e : ThemeExportObj) : ℚ × ℚ × ColorMap :=
  (e.hue, e.saturation, m.store e.colorsAddr)

-- ============================================================================
-- Spec-side definitions used by the claims
-- ============================================================================

/-- `k`-fold iteration of the followed base edge. -/
def iterFollowed (defs : ColorMap) : ℕ → String → Option String
  | 0, n => some n
  | Nat.succ k, n =>
    match alookup defs n with
    | none => none
    | some d =>
      match followedBase d with
      | none => none
      | some b => iterFollowed defs k b

/-- The followed base graph (edges only out of nodes lacking absolute
lightness) has a cycle. -/
def HasFollowedCycle (defs : ColorMap) : Prop :=
  ∃ n k, 0 < k ∧ iterFollowed defs k n = some n

/-- The raw base graph: one edge per declared `base` field. -/
def rawBase (defs : ColorMap) (n : String) : Option String :=
  match alookup defs n with
  | none => none
  | some d => d.base

/-- The pure semantics of `searchBranch`. -/
def searchBranchP (M : ColorMath) (h s lo hi yBase target eps : ℚ)
    (maxIter : ℕ) (preferred : ℚ) : BranchResult :=
  (searchBranch (pureLumF M) h s lo hi yBase target eps maxIter preferred ()).1

/-- The `i`-th coarse-scan sample point of the branch `[lo, hi]`. -/
def scanSample (lo hi : ℚ) (i : ℕ) : ℚ :=
  lo + (hi - lo) / 64 * (i : ℚ)

/-- The scan indexes (in scan order) whose sample meets the target. -/
def passUpTo (M : ColorMath) (h s yBase target lo hi : ℚ) (n : ℕ) : List ℕ :=
  (List.range n).filter fun i =>
    decide (target ≤ solverCrAt M h s yBase (scanSample lo hi i))

/-- The scan state after the first `n` samples of `coarseScan`'s loop
(pure semantics). -/
def scanIter (M : ColorMath) (h s yBase target lo hi : ℚ) (n : ℕ) : ℚ × ℚ × Bool × Unit :=
  (List.range n).foldl
    (fun st (i : ℕ) => scanStep (pureLumF M) h s yBase target st
      (lo + (hi - lo) / 64 * (i : ℚ))) (lo, 0, false, ())

-- ============================================================================
-- Concrete instances used by counterexamples and witnesses
-- ============================================================================

/-- A color-math instance whose luminance has a single spike: lightness is
passed through as the red channel, and the relative luminance is `v` at
channel value `sp` and `0` elsewhere. -/
def spikeMath (v sp : ℚ) : ColorMath :=
  ⟨fun _ _ l => (l, 0, 0), fun t => if t.1 = sp then v else 0⟩

/-- A color-math instance with constant relative luminance `y`. -/
def constMath (y : ℚ) : ColorMath :=
  ⟨fun _ _ l => (l, 0, 0), fun _ => y⟩

/-- A color-math instance whose luminance passes at exactly two of the
coarse-scan sample points (rounded lightness `0` and `0.0156`). -/
def twoSpikeMath : ColorMath :=
  ⟨fun _ _ l => (l, 0, 0), fun t => if t.1 = 0 ∨ t.1 = 156/10000 then 1 else 0⟩

/-- Solver options: preferred lightness `1/2`, base `(0,0,0)`, target 5,
default range/epsilon/iterations. -/
def optsHalf : FLOptions :=
  { hue := 0, saturation := 0, preferredLightness := 1/2,
    baseLinearRgb := (0, 0, 0), contrast := .num 5 }

/-- Solver options with raw contrast target 1 (the floor). -/
def optsOne : FLOptions :=
  { hue := 0, saturation := 0, preferredLightness := 1/2,
    baseLinearRgb := (0, 0, 0), contrast := .num 1 }

/-- A validation-passing map in which color `n` has both absolute lightness
and a base that appears later in evaluation order. -/
def c4FailMap : ColorMap :=
  [("n", { lightness := some (.single (.abs 50)), base := some "m" }),
   ("m", { lightness := some (.single (.abs 30)) })]

/-- A map whose raw base references form a 2-cycle, where `a` also has
absolute lightness (so the cycle check does not follow `a`'s edge). -/
def c5CexMap : ColorMap :=
  [("a", { lightness := some (.single (.abs 50)), base := some "b" }),
   ("b", { base := some "a" })]

/-- A genuine followed-edge 2-cycle. -/
def c5CycleMap : ColorMap :=
  [("a", { base := some "b" }), ("b", { base := some "a" })]

/-- A single root color with absolute lightness 50. -/
def singleRootMap : ColorMap :=
  [("a", { lightness := some (.single (.abs 50)) })]

/-- The set of nodes reached along the followed cycle witnessed by
`iterFollowed defs k n = some n`. -/
def cycNodes (defs : ColorMap) (n : String) (k : ℕ) : Finset String :=
  ((List.range k).filterMap (fun j => iterFollowed defs j n)).toFinset

/-- The key set of a color map. -/
def keyset (defs : ColorMap) : Finset String :=
  (defs.map Prod.fst).toFinset

/-- The specified range invariant for one resolved variant: hue in
`[0, 360)`, saturation and lightness in `[0, 1]`. -/
def variantInRange (v : ResolvedColorVariant) : Prop :=
  (0 ≤ v.h ∧ v.h < 360) ∧ (0 ≤ v.s ∧ v.s ≤ 1) ∧ (0 ≤ v.l ∧ v.l ≤ 1)

-- ============================================================================
-- General helper lemmas
-- ============================================================================

theorem jsMax_eq_max (a b : ℚ) : jsMax a b = max a b := by
  rw [jsMax]
  rcases le_total a b with h | h
  · rw [if_pos h, max_eq_right h]
  · rcases eq_or_lt_of_le h with rfl | hlt
    · simp
    · rw [if_neg (not_le.mpr hlt), max_eq_left h]

theorem jsMin_eq_min (a b : ℚ) : jsMin a b = min a b := by
  rw [jsMin]
  rcases le_total a b with h | h
  · rw [if_pos h, min_eq_left h]
  · rcases eq_or_lt_of_le h with rfl | hlt
    · simp
    · rw [if_neg (not_le.mpr hlt), min_eq_right h]

theorem jsAbs_eq_abs (q : ℚ) : jsAbs q = |q| := by
  rw [jsAbs]
  rcases lt_or_le q 0 with h | h
  · rw [if_pos h, abs_of_neg h]
  · rw [if_neg (not_lt.mpr h), abs_of_nonneg h]

theorem clampQ_lower (v lo hi : ℚ) : lo ≤ clampQ v lo hi := by
  rw [clampQ, jsMax_eq_max]
  exact le_max_left lo (jsMin hi v)

theorem clampQ_upper (v lo hi : ℚ) (h : lo ≤ hi) : clampQ v lo hi ≤ hi := by
  rw [clampQ, jsMax_eq_max, jsMin_eq_min]
  exact max_le h (min_le_left hi v)

theorem jsMod_nonneg_bounds (a b : ℚ) (ha : 0 ≤ a) (hb : 0 < b) :
    0 ≤ jsMod a b ∧ jsMod a b < b := by
  have hdiv : (0 : ℚ) ≤ a / b := div_nonneg ha hb.le
  have htr : jsTrunc (a / b) = ⌊a / b⌋ := by
    simp [jsTrunc, hdiv]
  have h1 : ((⌊a / b⌋ : ℚ)) ≤ a / b := Int.floor_le _
  have h2 : a / b < (⌊a / b⌋ : ℚ) + 1 := Int.lt_floor_add_one _
  have hmul1 : b * (⌊a / b⌋ : ℚ) ≤ a := by
    have := mul_le_mul_of_nonneg_left h1 hb.le
    rwa [mul_div_cancel₀ a hb.ne.symm] at this
  have hmul2 : a < b * ((⌊a / b⌋ : ℚ) + 1) := by
    have := mul_lt_mul_of_pos_left h2 hb
    rwa [mul_div_cancel₀ a hb.ne.symm] at this
  constructor
  · simp only [jsMod, htr]
    linarith
  · simp only [jsMod, htr]
    nlinarith

theorem jsMod_neg_bounds (a b : ℚ) (ha : a < 0) (hb : 0 < b) :
    -b < jsMod a b ∧ jsMod a b ≤ 0 := by
  have hdiv : ¬ (0 : ℚ) ≤ a / b := by
    simp only [not_le]
    exact div_neg_of_neg_of_pos ha hb
  have htr : jsTrunc (a / b) = ⌈a / b⌉ := by
    simp [jsTrunc, hdiv]
  have h1 : a / b ≤ ((⌈a / b⌉ : ℚ)) := Int.le_ceil _
  have h2 : ((⌈a / b⌉ : ℚ)) - 1 < a / b := by
    have := Int.ceil_lt_add_one (a / b)
    linarith
  have hmul1 : a ≤ b * ((⌈a / b⌉ : ℚ)) := by
    have := mul_le_mul_of_nonneg_left h1 hb.le
    rwa [mul_div_cancel₀ a hb.ne.symm] at this
  have hmul2 : b * (((⌈a / b⌉ : ℚ)) - 1) < a := by
    have := mul_lt_mul_of_pos_left h2 hb
    rwa [mul_div_cancel₀ a hb.ne.symm] at this
  constructor
  · simp only [jsMod, htr]
    nlinarith
  · simp only [jsMod, htr]
    linarith

theorem normalizedHue_bounds (a : ℚ) :
    0 ≤ jsMod (jsMod a 360 + 360) 360 ∧ jsMod (jsMod a 360 + 360) 360 < 360 := by
  have hb : (0 : ℚ) < 360 := by norm_num
  have hinner : 0 ≤ jsMod a 360 + 360 := by
    rcases le_or_lt 0 a with h | h
    · have := jsMod_nonneg_bounds a 360 h hb
      linarith [this.1]
    · have := jsMod_neg_bounds a 360 h hb
      linarith [this.1]
  exact jsMod_nonneg_bounds (jsMod a 360 + 360) 360 hinner hb

theorem round4_eval (x : ℚ) (z : ℤ) (h1 : (z : ℚ) ≤ x * 10000 + 1/2)
    (h2 : x * 10000 + 1/2 < (z : ℚ) + 1) : round4 x = (z : ℚ) / 10000 := by
  have hf : ⌊x * 10000 + 1/2⌋ = z := Int.floor_eq_iff.mpr ⟨h1, h2⟩
  rw [round4, hf]

theorem round4_mono {x y : ℚ} (h : x ≤ y) : round4 x ≤ round4 y := by
  have hfloor : (⌊x * 10000 + 1/2⌋ : ℚ) ≤ (⌊y * 10000 + 1/2⌋ : ℚ) := by
    have : x * 10000 + 1/2 ≤ y * 10000 + 1/2 := by nlinarith
    exact_mod_cast Int.floor_le_floor this
  simp only [round4]
  linarith

theorem resolveEffectiveHue_range (seedHue : ℚ) (defHue : Option NumOrRel)
    (h0 : 0 ≤ seedHue) (h1 : seedHue < 360) :
    0 ≤ resolveEffectiveHue seedHue defHue ∧ resolveEffectiveHue seedHue defHue < 360 := by
  match defHue with
  | none => exact ⟨h0, h1⟩
  | some v =>
    simp only [resolveEffectiveHue]
    rcases v with q | q
    · simpa [parseRA] using normalizedHue_bounds q
    · simpa [parseRA] using normalizedHue_bounds (seedHue + q)

-- ============================================================================
-- C6: default dark-window mapping
-- ============================================================================

/-- C6: with the default dark window `[10, 90]`, `mapLightnessDark` is the
identity in static mode, `0.8·l + 10` in fixed mode, and `0.8·(100−l) + 10`
(inversion) in auto mode. -/
theorem c6_dark_map_default (l : ℚ) :
    mapLightnessDark defaultGlazeConfig l .static = l ∧
    mapLightnessDark defaultGlazeConfig l .fixed = (4/5) * l + 10 ∧
    mapLightnessDark defaultGlazeConfig l .auto = (4/5) * (100 - l) + 10 := by
  refine ⟨rfl, ?_, ?_⟩ <;>
    simp only [mapLightnessDark, defaultGlazeConfig] <;> ring

-- ============================================================================
-- C10: export() returns an isolated snapshot
-- ============================================================================

theorem applyThemeOp_preserves (op : ThemeOp) (m : ThemeMem) (t : ThemeObj)
    (a : ℕ) (v : ColorMap) (hlt : a < m.next) (hne : t.defsAddr ≠ a)
    (hst : m.store a = v) :
    a < (applyThemeOp (m, t) op).1.next ∧
    (applyThemeOp (m, t) op).2.defsAddr ≠ a ∧
    (applyThemeOp (m, t) op).1.store a = v := by
  cases op with
  | colorsOp ds =>
    refine ⟨by simp [applyThemeOp, memAlloc]; omega, ?_, ?_⟩
    · simp only [applyThemeOp, memAlloc]
      omega
    · simp only [applyThemeOp, memAlloc]
      rw [if_neg (by omega)]
      exact hst
  | colorSet n d =>
    refine ⟨hlt, hne, ?_⟩
    simp only [applyThemeOp, memWrite]
    rw [if_neg (by omega)]
    exact hst
  | removeOp ns =>
    refine ⟨hlt, hne, ?_⟩
    simp only [applyThemeOp, memWrite]
    rw [if_neg (by omega)]
    exact hst
  | resetOp =>
    refine ⟨by simp [applyThemeOp, memAlloc]; omega, ?_, ?_⟩
    · simp only [applyThemeOp, memAlloc]
      omega
    · simp only [applyThemeOp, memAlloc]
      rw [if_neg (by omega)]
      exact hst

theorem applyThemeOps_preserves (ops : List ThemeOp) :
    ∀ (m : ThemeMem) (t : ThemeObj) (a : ℕ) (v : ColorMap),
    a < m.next → t.defsAddr ≠ a → m.store a = v →
    a < (applyThemeOps (m, t) ops).1.next ∧
    (applyThemeOps (m, t) ops).2.defsAddr ≠ a ∧
    (applyThemeOps (m, t) ops).1.store a = v := by
  induction ops with
  | nil => exact fun m t a v hlt hne hst => ⟨hlt, hne, hst⟩
  | cons op rest ih =>
    intro m t a v hlt hne hst
    have step := applyThemeOp_preserves op m t a v hlt hne hst
    have : applyThemeOps (m, t) (op :: rest) =
        applyThemeOps ((applyThemeOp (m, t) op).1, (applyThemeOp (m, t) op).2) rest := by
      simp [applyThemeOps]
    rw [this]
    exact ih (applyThemeOp (m, t) op).1 (applyThemeOp (m, t) op).2 a v
      step.1 step.2.1 step.2.2

/-- C10: `export()` is a snapshot — after exporting, any sequence of
`colors`, `color(name, def)`, `remove`, or `reset` calls on the theme
leaves the export object's hue, saturation, and colors entries unchanged. -/
theorem c10_export_snapshot (m : ThemeMem) (t : ThemeObj) (ops : List ThemeOp)
    (haddr : t.defsAddr < m.next) :
    readExport (applyThemeOps ((exportTheme (m, t)).2, t) ops).1 (exportTheme (m, t)).1 =
    readExport (exportTheme (m, t)).2 (exportTheme (m, t)).1 := by
  have hlt : m.next < (exportTheme (m, t)).2.next := by
    simp [exportTheme, memAlloc]
  have hne : t.defsAddr ≠ m.next := Nat.ne_of_lt haddr
  have hst : (exportTheme (m, t)).2.store m.next = m.store t.defsAddr := by
    simp [exportTheme, memAlloc]
  have pres := applyThemeOps_preserves ops (exportTheme (m, t)).2 t m.next
    (m.store t.defsAddr) hlt hne hst
  simp only [readExport, exportTheme, memAlloc]
  simp only [exportTheme, memAlloc] at pres hst
  rw [pres.2.2, hst]

/-- Witness for C10 at a concrete theme state and operation sequence. -/
theorem c10_export_snapshot_witness :
    (⟨280, 80, 0⟩ : ThemeObj).defsAddr < (⟨fun _ => [], 1⟩ : ThemeMem).next ∧
    readExport (applyThemeOps
      ((exportTheme (⟨fun _ => [], 1⟩, ⟨280, 80, 0⟩)).2, ⟨280, 80, 0⟩)
      [.resetOp, .colorSet "surface" {}]).1
      (exportTheme (⟨fun _ => [], 1⟩, ⟨280, 80, 0⟩)).1 =
    readExport (exportTheme (⟨fun _ => [], 1⟩, ⟨280, 80, 0⟩)).2
      (exportTheme (⟨fun _ => [], 1⟩, ⟨280, 80, 0⟩)).1 :=
  ⟨by decide, c10_export_snapshot ⟨fun _ => [], 1⟩ ⟨280, 80, 0⟩
    [.resetOp, .colorSet "surface" {}] (by decide)⟩

-- ============================================================================
-- Solver path lemmas (pure semantics)
-- ============================================================================

theorem pureLumF_apply (M : ColorMath) (u : Unit) (h s l : ℚ) :
    pureLumF M u h s l = (lumAt M h s l, ()) := rfl

/-- `searchBranch` with both endpoints failing: the branch is infeasible
and the higher-contrast endpoint is returned with `met = false`. -/
theorem searchBranch_pure_infeasible (M : ColorMath) (h s lo hi yBase target eps : ℚ)
    (maxIter : ℕ) (preferred : ℚ)
    (hlo : solverCrAt M h s yBase lo < target)
    (hhi : solverCrAt M h s yBase hi < target) :
    (searchBranch (pureLumF M) h s lo hi yBase target eps maxIter preferred ()).1 =
      if solverCrAt M h s yBase hi ≤ solverCrAt M h s yBase lo then
        ⟨lo, solverCrAt M h s yBase lo, false⟩
      else ⟨hi, solverCrAt M h s yBase hi, false⟩ := by
  simp only [searchBranch, pureLumF, solverCrAt] at *
  rw [if_pos ⟨hlo, hhi⟩]
  split <;> rfl


/-- `searchBranchP` when both endpoints fail. -/
theorem searchBranchP_infeasible (M : ColorMath) (h s lo hi yBase target eps : ℚ)
    (maxIter : ℕ) (preferred : ℚ)
    (hlo : solverCrAt M h s yBase lo < target)
    (hhi : solverCrAt M h s yBase hi < target) :
    searchBranchP M h s lo hi yBase target eps maxIter preferred =
      if solverCrAt M h s yBase hi ≤ solverCrAt M h s yBase lo then
        ⟨lo, solverCrAt M h s yBase lo, false⟩
      else ⟨hi, solverCrAt M h s yBase hi, false⟩ := by
  rw [searchBranchP, searchBranch_pure_infeasible M h s lo hi yBase target eps maxIter preferred hlo hhi]

theorem searchBranch_state_unit (M : ColorMath) (h s lo hi yBase target eps : ℚ)
    (maxIter : ℕ) (preferred : ℚ) (u : Unit) :
    (searchBranch (pureLumF M) h s lo hi yBase target eps maxIter preferred u).2 = () := rfl

/-- Unfolding lemma: the pure solver in terms of `searchBranchP`, with the
cache plumbing discharged. -/
theorem findLightnessP_eq (M : ColorMath) (opts : FLOptions) :
    findLightnessP M opts =
      (if resolveMinContrast opts.contrast ≤
          solverCrAt M opts.hue opts.saturation (M.relLum opts.baseLinearRgb)
            opts.preferredLightness then
        (⟨opts.preferredLightness,
          solverCrAt M opts.hue opts.saturation (M.relLum opts.baseLinearRgb)
            opts.preferredLightness, true, .preferred⟩ : FLResult)
      else
        match
          (if opts.lightnessRange.1 < opts.preferredLightness then
            some (searchBranchP M opts.hue opts.saturation opts.lightnessRange.1
              opts.preferredLightness (M.relLum opts.baseLinearRgb)
              (resolveMinContrast opts.contrast) opts.epsilon opts.maxIterations
              opts.preferredLightness)
          else none),
          (if opts.preferredLightness < opts.lightnessRange.2 then
            some (searchBranchP M opts.hue opts.saturation opts.preferredLightness
              opts.lightnessRange.2 (M.relLum opts.baseLinearRgb)
              (resolveMinContrast opts.contrast) opts.epsilon opts.maxIterations
              opts.preferredLightness)
          else none) with
        | some d, some l =>
          if d.met = true ∧ l.met = true then
            if jsAbs (d.lightness - opts.preferredLightness) ≤
                jsAbs (l.lightness - opts.preferredLightness) then
              ⟨d.lightness, d.contrast, d.met, .darker⟩
            else ⟨l.lightness, l.contrast, l.met, .lighter⟩
          else if d.met = true then ⟨d.lightness, d.contrast, d.met, .darker⟩
          else if l.met = true then ⟨l.lightness, l.contrast, l.met, .lighter⟩
          else if l.contrast ≤ d.contrast then ⟨d.lightness, d.contrast, d.met, .darker⟩
          else ⟨l.lightness, l.contrast, l.met, .lighter⟩
        | some d, none => ⟨d.lightness, d.contrast, d.met, .darker⟩
        | none, some l => ⟨l.lightness, l.contrast, l.met, .lighter⟩
        | none, none =>
          ⟨opts.preferredLightness,
            solverCrAt M opts.hue opts.saturation (M.relLum opts.baseLinearRgb)
              opts.preferredLightness, false, .preferred⟩) := by
  simp only [findLightnessP, findLightnessForContrast, searchBranchP, pureLumF, solverCrAt]
  by_cases htp : resolveMinContrast opts.contrast ≤
      contrastRatioFromLuminance (lumAt M opts.hue opts.saturation opts.preferredLightness)
        (M.relLum opts.baseLinearRgb) <;>
    by_cases hd : opts.lightnessRange.1 < opts.preferredLightness <;>
    by_cases hl : opts.preferredLightness < opts.lightnessRange.2 <;>
    simp only [htp, hd, hl, if_true, if_false, ite_true, ite_false, searchBranch_state_unit,
      apply_ite (Prod.fst (α := FLResult) (β := Unit))] <;> rfl

/-- C2 (amended): when no lightness in the search range meets the target,
the result has `met = false`, its lightness is one of the three probed
points (range minimum, preferred lightness, range maximum), its contrast
field is the ratio achieved at that lightness, and that ratio dominates
the ratios of all three probed points. -/
theorem c2_no_pass_best_probe (M : ColorMath) (opts : FLOptions)
    (h1 : opts.lightnessRange.1 ≤ opts.preferredLightness)
    (h2 : opts.preferredLightness ≤ opts.lightnessRange.2)
    (hnopass : ∀ l, opts.lightnessRange.1 ≤ l → l ≤ opts.lightnessRange.2 →
      solverCrAt M opts.hue opts.saturation (M.relLum opts.baseLinearRgb) l <
        resolveMinContrast opts.contrast) :
    (findLightnessP M opts).met = false ∧
    ((findLightnessP M opts).lightness = opts.lightnessRange.1 ∨
      (findLightnessP M opts).lightness = opts.preferredLightness ∨
      (findLightnessP M opts).lightness = opts.lightnessRange.2) ∧
    (findLightnessP M opts).contrast =
      solverCrAt M opts.hue opts.saturation (M.relLum opts.baseLinearRgb)
        (findLightnessP M opts).lightness ∧
    solverCrAt M opts.hue opts.saturation (M.relLum opts.baseLinearRgb)
      opts.lightnessRange.1 ≤ (findLightnessP M opts).contrast ∧
    solverCrAt M opts.hue opts.saturation (M.relLum opts.baseLinearRgb)
      opts.preferredLightness ≤ (findLightnessP M opts).contrast ∧
    solverCrAt M opts.hue opts.saturation (M.relLum opts.baseLinearRgb)
      opts.lightnessRange.2 ≤ (findLightnessP M opts).contrast := by
  have hml : opts.lightnessRange.1 ≤ opts.lightnessRange.2 := h1.trans h2
  have hcPref := hnopass opts.preferredLightness h1 h2
  have hcLo := hnopass opts.lightnessRange.1 le_rfl hml
  have hcHi := hnopass opts.lightnessRange.2 hml le_rfl
  rw [findLightnessP_eq]
  rw [if_neg (not_le.mpr hcPref)]
  by_cases hd : opts.lightnessRange.1 < opts.preferredLightness
  · rw [if_pos hd]
    by_cases hl : opts.preferredLightness < opts.lightnessRange.2
    · rw [if_pos hl]
      rw [searchBranchP_infeasible M _ _ _ _ _ _ _ _ _ hcLo hcPref,
        searchBranchP_infeasible M _ _ _ _ _ _ _ _ _ hcPref hcHi]
      rcases le_or_lt (solverCrAt M opts.hue opts.saturation (M.relLum opts.baseLinearRgb)
          opts.preferredLightness)
        (solverCrAt M opts.hue opts.saturation (M.relLum opts.baseLinearRgb)
          opts.lightnessRange.1) with hA | hA
      · rw [if_pos hA]
        rcases le_or_lt (solverCrAt M opts.hue opts.saturation (M.relLum opts.baseLinearRgb)
            opts.lightnessRange.2)
          (solverCrAt M opts.hue opts.saturation (M.relLum opts.baseLinearRgb)
            opts.preferredLightness) with hB | hB
        · rw [if_pos hB]
          simp only [Bool.false_eq_true, false_and, if_false, ite_false]
          rw [if_pos hA]
          exact ⟨rfl, Or.inl rfl, rfl, le_rfl, hA, hB.trans hA⟩
        · rw [if_neg (not_le.mpr hB)]
          simp only [Bool.false_eq_true, false_and, if_false, ite_false]
          rcases le_or_lt (solverCrAt M opts.hue opts.saturation (M.relLum opts.baseLinearRgb)
              opts.lightnessRange.2)
            (solverCrAt M opts.hue opts.saturation (M.relLum opts.baseLinearRgb)
              opts.lightnessRange.1) with hC | hC
          · rw [if_pos hC]
            exact ⟨rfl, Or.inl rfl, rfl, le_rfl, hA, hC⟩
          · rw [if_neg (not_le.mpr hC)]
            exact ⟨rfl, Or.inr (Or.inr rfl), rfl, hC.le, hA.trans hC.le, le_rfl⟩
      · rw [if_neg (not_le.mpr hA)]
        rcases le_or_lt (solverCrAt M opts.hue opts.saturation (M.relLum opts.baseLinearRgb)
            opts.lightnessRange.2)
          (solverCrAt M opts.hue opts.saturation (M.relLum opts.baseLinearRgb)
            opts.preferredLightness) with hB | hB
        · rw [if_pos hB]
          simp only [Bool.false_eq_true, false_and, if_false, ite_false]
          rw [if_pos (le_refl (solverCrAt M opts.hue opts.saturation
            (M.relLum opts.baseLinearRgb) opts.preferredLightness))]
          exact ⟨rfl, Or.inr (Or.inl rfl), rfl, hA.le, le_rfl, hB⟩
        · rw [if_neg (not_le.mpr hB)]
          simp only [Bool.false_eq_true, false_and, if_false, ite_false]
          rw [if_neg (not_le.mpr hB)]
          exact ⟨rfl, Or.inr (Or.inr rfl), rfl, (hA.trans hB).le, hB.le, le_rfl⟩
    · have hpm : opts.preferredLightness = opts.lightnessRange.2 :=
        le_antisymm h2 (not_lt.mp hl)
      rw [if_neg hl]
      rw [searchBranchP_infeasible M _ _ _ _ _ _ _ _ _ hcLo hcPref]
      rcases le_or_lt (solverCrAt M opts.hue opts.saturation (M.relLum opts.baseLinearRgb)
          opts.preferredLightness)
        (solverCrAt M opts.hue opts.saturation (M.relLum opts.baseLinearRgb)
          opts.lightnessRange.1) with hA | hA
      · rw [if_pos hA]
        refine ⟨rfl, Or.inl rfl, rfl, le_rfl, hA, ?_⟩
        rw [← hpm]
        exact hA
      · rw [if_neg (not_le.mpr hA)]
        refine ⟨rfl, Or.inr (Or.inl rfl), rfl, hA.le, le_rfl, ?_⟩
        rw [← hpm]
  · have hpm : opts.lightnessRange.1 = opts.preferredLightness :=
      le_antisymm h1 (not_lt.mp hd)
    rw [if_neg hd]
    by_cases hl : opts.preferredLightness < opts.lightnessRange.2
    · rw [if_pos hl]
      rw [searchBranchP_infeasible M _ _ _ _ _ _ _ _ _ hcPref hcHi]
      rcases le_or_lt (solverCrAt M opts.hue opts.saturation (M.relLum opts.baseLinearRgb)
          opts.lightnessRange.2)
        (solverCrAt M opts.hue opts.saturation (M.relLum opts.baseLinearRgb)
          opts.preferredLightness) with hB | hB
      · rw [if_pos hB]
        refine ⟨rfl, Or.inr (Or.inl rfl), rfl, ?_, le_rfl, hB⟩
        rw [hpm]
      · rw [if_neg (not_le.mpr hB)]
        refine ⟨rfl, Or.inr (Or.inr rfl), rfl, ?_, hB.le, le_rfl⟩
        rw [hpm]
        exact hB.le
    · have hpm2 : opts.preferredLightness = opts.lightnessRange.2 :=
        le_antisymm h2 (not_lt.mp hl)
      rw [if_neg hl]
      refine ⟨rfl, Or.inr (Or.inl rfl), rfl, ?_, le_rfl, ?_⟩
      · rw [hpm]
      · rw [← hpm2]

/-- C2 counterexample: with a luminance bump at lightness `0.25` (below
target), no lightness in `[0,1]` meets the target, yet the returned
lightness achieves ratio 1 while ratio 3 is achievable inside the range —
the returned ratio is not the maximum achievable over the search range. -/
theorem c2_counterexample :
    (∀ l : ℚ, 0 ≤ l → l ≤ 1 →
      solverCrAt (spikeMath (1/10) (1/4)) 0 0
        ((spikeMath (1/10) (1/4)).relLum (0, 0, 0)) l <
        resolveMinContrast optsHalf.contrast) ∧
    (findLightnessP (spikeMath (1/10) (1/4)) optsHalf).met = false ∧
    (0 : ℚ) ≤ 1/4 ∧ (1/4 : ℚ) ≤ 1 ∧
    solverCrAt (spikeMath (1/10) (1/4)) 0 0
        ((spikeMath (1/10) (1/4)).relLum (0, 0, 0))
        (findLightnessP (spikeMath (1/10) (1/4)) optsHalf).lightness <
      solverCrAt (spikeMath (1/10) (1/4)) 0 0
        ((spikeMath (1/10) (1/4)).relLum (0, 0, 0)) (1/4) := by
  refine ⟨?_, by with_unfolding_all decide, by norm_num, by norm_num,
    by with_unfolding_all decide⟩
  intro l _ _
  by_cases hr : round4 l = 1/4 <;>
    norm_num [solverCrAt, lumAt, spikeMath, contrastRatioFromLuminance,
      resolveMinContrast, optsHalf, jsMax, jsMin, hr]

/-- Witness for the amended C2 at a concrete no-pass instance. -/
theorem c2_no_pass_best_probe_witness :
    optsHalf.lightnessRange.1 ≤ optsHalf.preferredLightness ∧
    (findLightnessP (constMath 0) optsHalf).met = false :=
  ⟨by norm_num [optsHalf],
    (c2_no_pass_best_probe (constMath 0) optsHalf
      (by norm_num [optsHalf]) (by norm_num [optsHalf])
      (fun l _ _ => by
        norm_num [optsHalf, solverCrAt, lumAt, constMath,
          contrastRatioFromLuminance, resolveMinContrast, jsMax, jsMin])).1⟩

/-- C1 counterexample: a narrow passing spike at lightness `0.25`
(contrast 21 ≥ target 5) lies inside the default range, yet both branch
endpoints fail, so both branches return infeasible immediately and the
solver reports `met = false`. -/
theorem c1_counterexample :
    (0 : ℚ) ≤ 1/4 ∧ (1/4 : ℚ) ≤ 1 ∧
    resolveMinContrast optsHalf.contrast ≤
      solverCrAt (spikeMath 1 (1/4)) 0 0
        ((spikeMath 1 (1/4)).relLum (0, 0, 0)) (1/4) ∧
    (findLightnessP (spikeMath 1 (1/4)) optsHalf).met = false :=
  ⟨by norm_num, by norm_num, by with_unfolding_all decide, by with_unfolding_all decide⟩

-- ============================================================================
-- Bisection lemmas for the amended C1
-- ============================================================================

theorem bisectStep_width {σ : Type} (lumF : σ → ℚ → ℚ → ℚ → ℚ × σ)
    (h s yBase target preferred : ℚ) (st : ℚ × ℚ × σ) :
    (bisectStep lumF h s yBase target preferred st).2.1 -
      (bisectStep lumF h s yBase target preferred st).1 = (st.2.1 - st.1) / 2 := by
  rcases hlm : lumF st.2.2 h s ((st.1 + st.2.1) / 2) with ⟨yMid, cs1⟩
  simp only [bisectStep, hlm]
  split_ifs <;> simp <;> ring

theorem bisectLoop_width {σ : Type} (lumF : σ → ℚ → ℚ → ℚ → ℚ × σ)
    (h s yBase target eps preferred : ℚ) :
    ∀ (n : ℕ) (st : ℚ × ℚ × σ),
      (bisectLoop lumF h s yBase target eps preferred n st).2.1 -
          (bisectLoop lumF h s yBase target eps preferred n st).1 < eps ∨
      (bisectLoop lumF h s yBase target eps preferred n st).2.1 -
          (bisectLoop lumF h s yBase target eps preferred n st).1 ≤
        (st.2.1 - st.1) / 2 ^ n := by
  intro n
  induction n with
  | zero =>
    intro st
    right
    simp [bisectLoop]
  | succ n ih =>
    intro st
    by_cases hw : st.2.1 - st.1 < eps
    · left
      simp only [bisectLoop, if_pos hw]
      exact hw
    · have hstep := bisectStep_width lumF h s yBase target preferred st
      rcases ih (bisectStep lumF h s yBase target preferred st) with hlt | hle
      · left
        simpa [bisectLoop, if_neg hw] using hlt
      · right
        simp only [bisectLoop, if_neg hw]
        rw [hstep] at hle
        calc (bisectLoop lumF h s yBase target eps preferred n
                (bisectStep lumF h s yBase target preferred st)).2.1 -
              (bisectLoop lumF h s yBase target eps preferred n
                (bisectStep lumF h s yBase target preferred st)).1 ≤
            (st.2.1 - st.1) / 2 / 2 ^ n := hle
          _ = (st.2.1 - st.1) / 2 ^ (n + 1) := by
            rw [div_div, pow_succ]
            ring_nf

/-- Darker-branch bisection invariant: the lower bound passes, the upper
bound fails, and the interval stays inside `[lo, hi]` with `hi` below the
preferred lightness. -/
theorem bisectLoop_inv_darker (M : ColorMath) (h s yBase target eps preferred lo hi : ℚ)
    (heps : 0 < eps) (hpref : hi ≤ preferred) :
    ∀ (n : ℕ) (st : ℚ × ℚ × Unit),
      lo ≤ st.1 → st.1 ≤ st.2.1 → st.2.1 ≤ hi →
      target ≤ solverCrAt M h s yBase st.1 →
      solverCrAt M h s yBase st.2.1 < target →
      lo ≤ (bisectLoop (pureLumF M) h s yBase target eps preferred n st).1 ∧
      (bisectLoop (pureLumF M) h s yBase target eps preferred n st).1 ≤
        (bisectLoop (pureLumF M) h s yBase target eps preferred n st).2.1 ∧
      (bisectLoop (pureLumF M) h s yBase target eps preferred n st).2.1 ≤ hi ∧
      target ≤ solverCrAt M h s yBase
        (bisectLoop (pureLumF M) h s yBase target eps preferred n st).1 ∧
      solverCrAt M h s yBase
        (bisectLoop (pureLumF M) h s yBase target eps preferred n st).2.1 < target := by
  intro n
  induction n with
  | zero =>
    intro st h1 h2 h3 h4 h5
    simp only [bisectLoop]
    exact ⟨h1, h2, h3, h4, h5⟩
  | succ n ih =>
    intro st h1 h2 h3 h4 h5
    by_cases hw : st.2.1 - st.1 < eps
    · simp only [bisectLoop, if_pos hw]
      exact ⟨h1, h2, h3, h4, h5⟩
    · simp only [bisectLoop, if_neg hw]
      have hlt : st.1 < st.2.1 := by
        by_contra hc
        push_neg at hc
        exact hw (by linarith)
      have hmid1 : st.1 < (st.1 + st.2.1) / 2 := by linarith
      have hmid2 : (st.1 + st.2.1) / 2 < st.2.1 := by linarith
      have hmidpref : (st.1 + st.2.1) / 2 < preferred := by linarith
      have hstep : bisectStep (pureLumF M) h s yBase target preferred st =
          if target ≤ solverCrAt M h s yBase ((st.1 + st.2.1) / 2) then
            ((st.1 + st.2.1) / 2, st.2.1, ())
          else (st.1, (st.1 + st.2.1) / 2, ()) := by
        simp only [bisectStep, pureLumF, solverCrAt]
        split_ifs with hc1 hc2 hc3 <;> first
          | rfl
          | exact absurd hmidpref (by simp_all)
      by_cases hcr : target ≤ solverCrAt M h s yBase ((st.1 + st.2.1) / 2)
      · rw [hstep, if_pos hcr]
        exact ih ((st.1 + st.2.1) / 2, st.2.1, ()) (by linarith) (by simp; linarith)
          (by simpa using h3) (by simpa using hcr) (by simpa using h5)
      · rw [hstep, if_neg hcr]
        exact ih (st.1, (st.1 + st.2.1) / 2, ()) (by simpa using h1) (by simp; linarith)
          (by simp; linarith) (by simpa using h4) (by simpa using not_le.mp hcr)

/-- Lighter-branch bisection invariant: the lower bound fails, the upper
bound passes, and the interval stays inside `[lo, hi]` with `lo` at or
above the preferred lightness. -/
theorem bisectLoop_inv_lighter (M : ColorMath) (h s yBase target eps preferred lo hi : ℚ)
    (heps : 0 < eps) (hpref : preferred ≤ lo) :
    ∀ (n : ℕ) (st : ℚ × ℚ × Unit),
      lo ≤ st.1 → st.1 ≤ st.2.1 → st.2.1 ≤ hi →
      solverCrAt M h s yBase st.1 < target →
      target ≤ solverCrAt M h s yBase st.2.1 →
      lo ≤ (bisectLoop (pureLumF M) h s yBase target eps preferred n st).1 ∧
      (bisectLoop (pureLumF M) h s yBase target eps preferred n st).1 ≤
        (bisectLoop (pureLumF M) h s yBase target eps preferred n st).2.1 ∧
      (bisectLoop (pureLumF M) h s yBase target eps preferred n st).2.1 ≤ hi ∧
      solverCrAt M h s yBase
        (bisectLoop (pureLumF M) h s yBase target eps preferred n st).1 < target ∧
      target ≤ solverCrAt M h s yBase
        (bisectLoop (pureLumF M) h s yBase target eps preferred n st).2.1 := by
  intro n
  induction n with
  | zero =>
    intro st h1 h2 h3 h4 h5
    simp only [bisectLoop]
    exact ⟨h1, h2, h3, h4, h5⟩
  | succ n ih =>
    intro st h1 h2 h3 h4 h5
    by_cases hw : st.2.1 - st.1 < eps
    · simp only [bisectLoop, if_pos hw]
      exact ⟨h1, h2, h3, h4, h5⟩
    · simp only [bisectLoop, if_neg hw]
      have hlt : st.1 < st.2.1 := by
        by_contra hc
        push_neg at hc
        exact hw (by linarith)
      have hmid1 : st.1 < (st.1 + st.2.1) / 2 := by linarith
      have hmid2 : (st.1 + st.2.1) / 2 < st.2.1 := by linarith
      have hmidpref : ¬ ((st.1 + st.2.1) / 2 < preferred) := by
        push_neg
        linarith
      have hstep : bisectStep (pureLumF M) h s yBase target preferred st =
          if target ≤ solverCrAt M h s yBase ((st.1 + st.2.1) / 2) then
            (st.1, (st.1 + st.2.1) / 2, ())
          else ((st.1 + st.2.1) / 2, st.2.1, ()) := by
        simp only [bisectStep, pureLumF, solverCrAt]
        split_ifs with hc1 hc2 hc3 <;> first
          | rfl
          | exact absurd ‹(st.1 + st.2.1) / 2 < preferred› hmidpref
      by_cases hcr : target ≤ solverCrAt M h s yBase ((st.1 + st.2.1) / 2)
      · rw [hstep, if_pos hcr]
        exact ih (st.1, (st.1 + st.2.1) / 2, ()) (by simpa using h1) (by simp; linarith)
          (by simp; linarith) (by simpa using h4) (by simpa using hcr)
      · rw [hstep, if_neg hcr]
        exact ih ((st.1 + st.2.1) / 2, st.2.1, ()) (by linarith) (by simp; linarith)
          (by simpa using h3) (by simpa using not_le.mp hcr) (by simpa using h5)

/-- `searchBranch` on the darker branch `[lo, hi]` with `hi ≤ preferred`,
nonincreasing contrast, a passing lower endpoint and a failing upper
endpoint: the search succeeds and comes within `eps` of every passing
point (from below the preferred side). -/
theorem searchBranchP_darker (M : ColorMath) (h s lo hi yBase target eps : ℚ)
    (maxIter : ℕ) (preferred : ℚ)
    (hle : lo ≤ hi) (hpref : hi ≤ preferred)
    (hmono : ∀ x y, lo ≤ x → x ≤ y → y ≤ hi →
      solverCrAt M h s yBase y ≤ solverCrAt M h s yBase x)
    (hlo : target ≤ solverCrAt M h s yBase lo)
    (hhi : solverCrAt M h s yBase hi < target)
    (hwidth : hi - lo < eps * 2 ^ maxIter) :
    (searchBranchP M h s lo hi yBase target eps maxIter preferred).met = true ∧
    target ≤ solverCrAt M h s yBase
      (searchBranchP M h s lo hi yBase target eps maxIter preferred).lightness ∧
    lo ≤ (searchBranchP M h s lo hi yBase target eps maxIter preferred).lightness ∧
    (searchBranchP M h s lo hi yBase target eps maxIter preferred).lightness ≤ hi ∧
    (∀ p, lo ≤ p → p ≤ hi → target ≤ solverCrAt M h s yBase p →
      p ≤ (searchBranchP M h s lo hi yBase target eps maxIter preferred).lightness + eps) := by
  have hpow : (0 : ℚ) < 2 ^ maxIter := by positivity
  have heps : 0 < eps := by nlinarith
  rcases hbis : bisectLoop (pureLumF M) h s yBase target eps preferred maxIter (lo, hi, ())
    with ⟨low, high, u⟩
  have inv := bisectLoop_inv_darker M h s yBase target eps preferred lo hi heps hpref
    maxIter (lo, hi, ()) le_rfl hle le_rfl hlo hhi
  rw [hbis] at inv
  simp only at inv
  obtain ⟨hlow1, hlowhigh, hhigh1, hcrlow, hcrhigh⟩ := inv
  have hwid := bisectLoop_width (pureLumF M) h s yBase target eps preferred maxIter (lo, hi, ())
  rw [hbis] at hwid
  simp only at hwid
  have hwfinal : high - low < eps := by
    rcases hwid with hw | hw
    · exact hw
    · calc high - low ≤ (hi - lo) / 2 ^ maxIter := hw
        _ < eps := by
          rw [div_lt_iff hpow]
          linarith [hwidth]
  have hshape : searchBranchP M h s lo hi yBase target eps maxIter preferred =
      ⟨low, solverCrAt M h s yBase low, true⟩ := by
    simp only [searchBranchP, searchBranch, pureLumF, solverCrAt]
    rw [if_neg (fun hc => absurd hc.1 (not_lt.mpr hlo))]
    rw [hbis]
    simp only
    rw [if_neg (fun hc => absurd hc.2 (not_le.mpr hcrhigh)),
      if_pos (show target ≤ contrastRatioFromLuminance (lumAt M h s low) yBase from hcrlow)]
  rw [hshape]
  refine ⟨rfl, hcrlow, hlow1, hlowhigh.trans hhigh1, ?_⟩
  intro p hp1 hp2 hp3
  have hple : p ≤ high := by
    by_contra hc
    push_neg at hc
    have := hmono high p (hlow1.trans hlowhigh) hc.le hp2
    linarith
  simp only
  linarith

/-- `searchBranch` on the lighter branch `[lo, hi]` with `preferred ≤ lo`,
nondecreasing contrast, a failing lower endpoint and a passing upper
endpoint: the search succeeds and comes within `eps` of every passing
point (from above the preferred side). -/
theorem searchBranchP_lighter (M : ColorMath) (h s lo hi yBase target eps : ℚ)
    (maxIter : ℕ) (preferred : ℚ)
    (hle : lo ≤ hi) (hpref : preferred ≤ lo)
    (hmono : ∀ x y, lo ≤ x → x ≤ y → y ≤ hi →
      solverCrAt M h s yBase x ≤ solverCrAt M h s yBase y)
    (hlo : solverCrAt M h s yBase lo < target)
    (hhi : target ≤ solverCrAt M h s yBase hi)
    (hwidth : hi - lo < eps * 2 ^ maxIter) :
    (searchBranchP M h s lo hi yBase target eps maxIter preferred).met = true ∧
    target ≤ solverCrAt M h s yBase
      (searchBranchP M h s lo hi yBase target eps maxIter preferred).lightness ∧
    lo ≤ (searchBranchP M h s lo hi yBase target eps maxIter preferred).lightness ∧
    (searchBranchP M h s lo hi yBase target eps maxIter preferred).lightness ≤ hi ∧
    (∀ p, lo ≤ p → p ≤ hi → target ≤ solverCrAt M h s yBase p →
      (searchBranchP M h s lo hi yBase target eps maxIter preferred).lightness ≤ p + eps) := by
  have hpow : (0 : ℚ) < 2 ^ maxIter := by positivity
  have heps : 0 < eps := by nlinarith
  rcases hbis : bisectLoop (pureLumF M) h s yBase target eps preferred maxIter (lo, hi, ())
    with ⟨low, high, u⟩
  have inv := bisectLoop_inv_lighter M h s yBase target eps preferred lo hi heps hpref
    maxIter (lo, hi, ()) le_rfl hle le_rfl hlo hhi
  rw [hbis] at inv
  simp only at inv
  obtain ⟨hlow1, hlowhigh, hhigh1, hcrlow, hcrhigh⟩ := inv
  have hwid := bisectLoop_width (pureLumF M) h s yBase target eps preferred maxIter (lo, hi, ())
  rw [hbis] at hwid
  simp only at hwid
  have hwfinal : high - low < eps := by
    rcases hwid with hw | hw
    · exact hw
    · calc high - low ≤ (hi - lo) / 2 ^ maxIter := hw
        _ < eps := by
          rw [div_lt_iff hpow]
          linarith [hwidth]
  have hshape : searchBranchP M h s lo hi yBase target eps maxIter preferred =
      ⟨high, solverCrAt M h s yBase high, true⟩ := by
    simp only [searchBranchP, searchBranch, pureLumF, solverCrAt]
    rw [if_neg (fun hc => absurd hc.2 (not_lt.mpr hhi))]
    rw [hbis]
    simp only
    rw [if_neg (fun hc => absurd hc.1 (not_le.mpr hcrlow)),
      if_neg (show ¬ target ≤ contrastRatioFromLuminance (lumAt M h s low) yBase from
        not_le.mpr hcrlow),
      if_pos (show target ≤ contrastRatioFromLuminance (lumAt M h s high) yBase from hcrhigh)]
  rw [hshape]
  refine ⟨rfl, hcrhigh, hlow1.trans hlowhigh, hhigh1, ?_⟩
  intro p hp1 hp2 hp3
  have hple : low ≤ p := by
    by_contra hc
    push_neg at hc
    have := hmono p low hp1 hc.le (hlowhigh.trans hhigh1)
    linarith
  simp only
  linarith

/-- C1 (amended): when the solver-evaluated contrast is monotone on each
side of `preferredLightness` (nonincreasing on the darker branch,
nondecreasing on the lighter one), the range contains the preferred
lightness, and the range width is below `epsilon · 2^maxIterations`, then
whenever some lightness in the range meets the target the result has
`met = true`, its lightness meets the target, and its distance to
`preferredLightness` exceeds that of any passing lightness by at most
`epsilon`. -/
theorem c1_monotone_nearest (M : ColorMath) (opts : FLOptions)
    (h1 : opts.lightnessRange.1 ≤ opts.preferredLightness)
    (h2 : opts.preferredLightness ≤ opts.lightnessRange.2)
    (hmono1 : ∀ x y, opts.lightnessRange.1 ≤ x → x ≤ y → y ≤ opts.preferredLightness →
      solverCrAt M opts.hue opts.saturation (M.relLum opts.baseLinearRgb) y ≤
        solverCrAt M opts.hue opts.saturation (M.relLum opts.baseLinearRgb) x)
    (hmono2 : ∀ x y, opts.preferredLightness ≤ x → x ≤ y → y ≤ opts.lightnessRange.2 →
      solverCrAt M opts.hue opts.saturation (M.relLum opts.baseLinearRgb) x ≤
        solverCrAt M opts.hue opts.saturation (M.relLum opts.baseLinearRgb) y)
    (hwidth : opts.lightnessRange.2 - opts.lightnessRange.1 <
      opts.epsilon * 2 ^ opts.maxIterations)
    (hex : ∃ p, opts.lightnessRange.1 ≤ p ∧ p ≤ opts.lightnessRange.2 ∧
      resolveMinContrast opts.contrast ≤
        solverCrAt M opts.hue opts.saturation (M.relLum opts.baseLinearRgb) p) :
    (findLightnessP M opts).met = true ∧
    resolveMinContrast opts.contrast ≤
      solverCrAt M opts.hue opts.saturation (M.relLum opts.baseLinearRgb)
        (findLightnessP M opts).lightness ∧
    (∀ p, opts.lightnessRange.1 ≤ p → p ≤ opts.lightnessRange.2 →
      resolveMinContrast opts.contrast ≤
        solverCrAt M opts.hue opts.saturation (M.relLum opts.baseLinearRgb) p →
      |(findLightnessP M opts).lightness - opts.preferredLightness| ≤
        |p - opts.preferredLightness| + opts.epsilon) := by
  have hpow : (0 : ℚ) < 2 ^ opts.maxIterations := by positivity
  have heps : 0 < opts.epsilon := by nlinarith
  by_cases hp : resolveMinContrast opts.contrast ≤
      solverCrAt M opts.hue opts.saturation (M.relLum opts.baseLinearRgb)
        opts.preferredLightness
  · rw [findLightnessP_eq, if_pos hp]
    refine ⟨rfl, hp, ?_⟩
    intro p _ _ _
    simp only [sub_self, abs_zero]
    have := abs_nonneg (p - opts.preferredLightness)
    linarith
  · have hpfail := not_le.mp hp
    obtain ⟨p0, hp01, hp02, hp03⟩ := hex
    by_cases hd : opts.lightnessRange.1 < opts.preferredLightness
    · by_cases hl : opts.preferredLightness < opts.lightnessRange.2
      · -- both branches searched
        by_cases hdf : resolveMinContrast opts.contrast ≤
            solverCrAt M opts.hue opts.saturation (M.relLum opts.baseLinearRgb)
              opts.lightnessRange.1
        · by_cases hlf : resolveMinContrast opts.contrast ≤
              solverCrAt M opts.hue opts.saturation (M.relLum opts.baseLinearRgb)
                opts.lightnessRange.2
          · -- both feasible
            obtain ⟨dmet, dcr, dlo, dhi, dnear⟩ := searchBranchP_darker M opts.hue
              opts.saturation opts.lightnessRange.1 opts.preferredLightness
              (M.relLum opts.baseLinearRgb) (resolveMinContrast opts.contrast)
              opts.epsilon opts.maxIterations opts.preferredLightness
              h1 le_rfl hmono1 hdf hpfail (by linarith)
            obtain ⟨lmet, lcr, llo, lhi, lnear⟩ := searchBranchP_lighter M opts.hue
              opts.saturation opts.preferredLightness opts.lightnessRange.2
              (M.relLum opts.baseLinearRgb) (resolveMinContrast opts.contrast)
              opts.epsilon opts.maxIterations opts.preferredLightness
              h2 le_rfl hmono2 hpfail hlf (by linarith)
            have hres : findLightnessP M opts =
                if jsAbs ((searchBranchP M opts.hue opts.saturation opts.lightnessRange.1
                      opts.preferredLightness (M.relLum opts.baseLinearRgb)
                      (resolveMinContrast opts.contrast) opts.epsilon opts.maxIterations
                      opts.preferredLightness).lightness - opts.preferredLightness) ≤
                    jsAbs ((searchBranchP M opts.hue opts.saturation opts.preferredLightness
                      opts.lightnessRange.2 (M.relLum opts.baseLinearRgb)
                      (resolveMinContrast opts.contrast) opts.epsilon opts.maxIterations
                      opts.preferredLightness).lightness - opts.preferredLightness) then
                  ⟨(searchBranchP M opts.hue opts.saturation opts.lightnessRange.1
                      opts.preferredLightness (M.relLum opts.baseLinearRgb)
                      (resolveMinContrast opts.contrast) opts.epsilon opts.maxIterations
                      opts.preferredLightness).lightness,
                    (searchBranchP M opts.hue opts.saturation opts.lightnessRange.1
                      opts.preferredLightness (M.relLum opts.baseLinearRgb)
                      (resolveMinContrast opts.contrast) opts.epsilon opts.maxIterations
                      opts.preferredLightness).contrast, true, .darker⟩
                else
                  ⟨(searchBranchP M opts.hue opts.saturation opts.preferredLightness
                      opts.lightnessRange.2 (M.relLum opts.baseLinearRgb)
                      (resolveMinContrast opts.contrast) opts.epsilon opts.maxIterations
                      opts.preferredLightness).lightness,
                    (searchBranchP M opts.hue opts.saturation opts.preferredLightness
                      opts.lightnessRange.2 (M.relLum opts.baseLinearRgb)
                      (resolveMinContrast opts.contrast) opts.epsilon opts.maxIterations
                      opts.preferredLightness).contrast, true, .lighter⟩ := by
              rw [findLightnessP_eq, if_neg hp, if_pos hd, if_pos hl]
              simp only [dmet, lmet, and_self, if_true, ite_true]
            rcases le_or_lt (jsAbs ((searchBranchP M opts.hue opts.saturation
                opts.lightnessRange.1 opts.preferredLightness (M.relLum opts.baseLinearRgb)
                (resolveMinContrast opts.contrast) opts.epsilon opts.maxIterations
                opts.preferredLightness).lightness - opts.preferredLightness))
              (jsAbs ((searchBranchP M opts.hue opts.saturation opts.preferredLightness
                opts.lightnessRange.2 (M.relLum opts.baseLinearRgb)
                (resolveMinContrast opts.contrast) opts.epsilon opts.maxIterations
                opts.preferredLightness).lightness - opts.preferredLightness)) with hcmp | hcmp
            · rw [hres, if_pos hcmp]
              refine ⟨rfl, dcr, ?_⟩
              intro p hpa hpb hpc
              simp only
              rcases le_total p opts.preferredLightness with hside | hside
              · have hnear := dnear p hpa hside hpc
                rw [abs_of_nonpos (by linarith), abs_sub_comm]
                rw [abs_of_nonneg (by linarith)]
                linarith
              · have hnear := lnear p hside hpb hpc
                rw [jsAbs_eq_abs, jsAbs_eq_abs] at hcmp
                have hlhs : |(searchBranchP M opts.hue opts.saturation opts.lightnessRange.1
                    opts.preferredLightness (M.relLum opts.baseLinearRgb)
                    (resolveMinContrast opts.contrast) opts.epsilon opts.maxIterations
                    opts.preferredLightness).lightness - opts.preferredLightness| ≤
                    |(searchBranchP M opts.hue opts.saturation opts.preferredLightness
                    opts.lightnessRange.2 (M.relLum opts.baseLinearRgb)
                    (resolveMinContrast opts.contrast) opts.epsilon opts.maxIterations
                    opts.preferredLightness).lightness - opts.preferredLightness| := hcmp
                have h3 : |(searchBranchP M opts.hue opts.saturation opts.preferredLightness
                    opts.lightnessRange.2 (M.relLum opts.baseLinearRgb)
                    (resolveMinContrast opts.contrast) opts.epsilon opts.maxIterations
                    opts.preferredLightness).lightness - opts.preferredLightness| ≤
                    |p - opts.preferredLightness| + opts.epsilon := by
                  rw [abs_of_nonneg (by linarith), abs_of_nonneg (by linarith)]
                  linarith
                linarith
            · rw [hres, if_neg (not_le.mpr hcmp)]
              refine ⟨rfl, lcr, ?_⟩
              intro p hpa hpb hpc
              simp only
              rcases le_total p opts.preferredLightness with hside | hside
              · have hnear := dnear p hpa hside hpc
                rw [jsAbs_eq_abs, jsAbs_eq_abs] at hcmp
                have h3 : |(searchBranchP M opts.hue opts.saturation opts.lightnessRange.1
                    opts.preferredLightness (M.relLum opts.baseLinearRgb)
                    (resolveMinContrast opts.contrast) opts.epsilon opts.maxIterations
                    opts.preferredLightness).lightness - opts.preferredLightness| ≤
                    |p - opts.preferredLightness| + opts.epsilon := by
                  rw [abs_of_nonpos (by linarith), abs_of_nonpos (by linarith)]
                  linarith
                linarith
              · have hnear := lnear p hside hpb hpc
                rw [abs_of_nonneg (by linarith), abs_of_nonneg (by linarith)]
                linarith
          · -- lighter infeasible: no passing point above preferred
            obtain ⟨dmet, dcr, dlo, dhi, dnear⟩ := searchBranchP_darker M opts.hue
              opts.saturation opts.lightnessRange.1 opts.preferredLightness
              (M.relLum opts.baseLinearRgb) (resolveMinContrast opts.contrast)
              opts.epsilon opts.maxIterations opts.preferredLightness
              h1 le_rfl hmono1 hdf hpfail (by linarith)
            have hlshape := searchBranchP_infeasible M opts.hue opts.saturation
              opts.preferredLightness opts.lightnessRange.2 (M.relLum opts.baseLinearRgb)
              (resolveMinContrast opts.contrast) opts.epsilon opts.maxIterations
              opts.preferredLightness hpfail (not_le.mp hlf)
            have hlmet : (searchBranchP M opts.hue opts.saturation opts.preferredLightness
                opts.lightnessRange.2 (M.relLum opts.baseLinearRgb)
                (resolveMinContrast opts.contrast) opts.epsilon opts.maxIterations
                opts.preferredLightness).met = false := by
              rw [hlshape]
              split <;> rfl
            have hres : findLightnessP M opts =
                ⟨(searchBranchP M opts.hue opts.saturation opts.lightnessRange.1
                    opts.preferredLightness (M.relLum opts.baseLinearRgb)
                    (resolveMinContrast opts.contrast) opts.epsilon opts.maxIterations
                    opts.preferredLightness).lightness,
                  (searchBranchP M opts.hue opts.saturation opts.lightnessRange.1
                    opts.preferredLightness (M.relLum opts.baseLinearRgb)
                    (resolveMinContrast opts.contrast) opts.epsilon opts.maxIterations
                    opts.preferredLightness).contrast,
                  (searchBranchP M opts.hue opts.saturation opts.lightnessRange.1
                    opts.preferredLightness (M.relLum opts.baseLinearRgb)
                    (resolveMinContrast opts.contrast) opts.epsilon opts.maxIterations
                    opts.preferredLightness).met, .darker⟩ := by
              rw [findLightnessP_eq, if_neg hp, if_pos hd, if_pos hl]
              simp only [hlmet, Bool.false_eq_true, and_false, if_false, ite_false, dmet,
                if_true, ite_true]
            rw [hres]
            refine ⟨dmet, dcr, ?_⟩
            intro p hpa hpb hpc
            simp only
            rcases le_total p opts.preferredLightness with hside | hside
            · have hnear := dnear p hpa hside hpc
              rw [abs_of_nonpos (by linarith), abs_sub_comm, abs_of_nonneg (by linarith)]
              linarith
            · exfalso
              have := hmono2 p opts.lightnessRange.2 hside hpb le_rfl
              exact absurd hpc (not_le.mpr (by linarith [not_le.mp hlf]))
        · -- darker infeasible: no passing point below preferred
          have hlf : resolveMinContrast opts.contrast ≤
              solverCrAt M opts.hue opts.saturation (M.relLum opts.baseLinearRgb)
                opts.lightnessRange.2 := by
            rcases le_total p0 opts.preferredLightness with hside | hside
            · exfalso
              have := hmono1 opts.lightnessRange.1 p0 le_rfl hp01 hside
              exact absurd (hp03.trans this) hdf
            · have := hmono2 p0 opts.lightnessRange.2 hside hp02 le_rfl
              exact hp03.trans this
          obtain ⟨lmet, lcr, llo, lhi, lnear⟩ := searchBranchP_lighter M opts.hue
            opts.saturation opts.preferredLightness opts.lightnessRange.2
            (M.relLum opts.baseLinearRgb) (resolveMinContrast opts.contrast)
            opts.epsilon opts.maxIterations opts.preferredLightness
            h2 le_rfl hmono2 hpfail hlf (by linarith)
          have hdshape := searchBranchP_infeasible M opts.hue opts.saturation
            opts.lightnessRange.1 opts.preferredLightness (M.relLum opts.baseLinearRgb)
            (resolveMinContrast opts.contrast) opts.epsilon opts.maxIterations
            opts.preferredLightness (not_le.mp hdf) hpfail
          have hdmet : (searchBranchP M opts.hue opts.saturation opts.lightnessRange.1
              opts.preferredLightness (M.relLum opts.baseLinearRgb)
              (resolveMinContrast opts.contrast) opts.epsilon opts.maxIterations
              opts.preferredLightness).met = false := by
            rw [hdshape]
            split <;> rfl
          have hres : findLightnessP M opts =
              ⟨(searchBranchP M opts.hue opts.saturation opts.preferredLightness
                  opts.lightnessRange.2 (M.relLum opts.baseLinearRgb)
                  (resolveMinContrast opts.contrast) opts.epsilon opts.maxIterations
                  opts.preferredLightness).lightness,
                (searchBranchP M opts.hue opts.saturation opts.preferredLightness
                  opts.lightnessRange.2 (M.relLum opts.baseLinearRgb)
                  (resolveMinContrast opts.contrast) opts.epsilon opts.maxIterations
                  opts.preferredLightness).contrast,
                (searchBranchP M opts.hue opts.saturation opts.preferredLightness
                  opts.lightnessRange.2 (M.relLum opts.baseLinearRgb)
                  (resolveMinContrast opts.contrast) opts.epsilon opts.maxIterations
                  opts.preferredLightness).met, .lighter⟩ := by
            rw [findLightnessP_eq, if_neg hp, if_pos hd, if_pos hl]
            simp only [hdmet, Bool.false_eq_true, false_and, if_false, ite_false, lmet,
              if_true, ite_true]
          rw [hres]
          refine ⟨lmet, lcr, ?_⟩
          intro p hpa hpb hpc
          simp only
          rcases le_total p opts.preferredLightness with hside | hside
          · exfalso
            have := hmono1 opts.lightnessRange.1 p le_rfl hpa hside
            exact absurd (hpc.trans this) hdf
          · have hnear := lnear p hside hpb hpc
            rw [abs_of_nonneg (by linarith), abs_of_nonneg (by linarith)]
            linarith
      · -- preferred at the top of the range: only darker branch
        have hpm : opts.preferredLightness = opts.lightnessRange.2 :=
          le_antisymm h2 (not_lt.mp hl)
        have hdf : resolveMinContrast opts.contrast ≤
            solverCrAt M opts.hue opts.saturation (M.relLum opts.baseLinearRgb)
              opts.lightnessRange.1 := by
          have hside : p0 ≤ opts.preferredLightness := hpm ▸ hp02
          have := hmono1 opts.lightnessRange.1 p0 le_rfl hp01 hside
          exact hp03.trans this
        obtain ⟨dmet, dcr, dlo, dhi, dnear⟩ := searchBranchP_darker M opts.hue
          opts.saturation opts.lightnessRange.1 opts.preferredLightness
          (M.relLum opts.baseLinearRgb) (resolveMinContrast opts.contrast)
          opts.epsilon opts.maxIterations opts.preferredLightness
          h1 le_rfl hmono1 hdf hpfail (by rw [hpm]; linarith)
        have hres : findLightnessP M opts =
            ⟨(searchBranchP M opts.hue opts.saturation opts.lightnessRange.1
                opts.preferredLightness (M.relLum opts.baseLinearRgb)
                (resolveMinContrast opts.contrast) opts.epsilon opts.maxIterations
                opts.preferredLightness).lightness,
              (searchBranchP M opts.hue opts.saturation opts.lightnessRange.1
                opts.preferredLightness (M.relLum opts.baseLinearRgb)
                (resolveMinContrast opts.contrast) opts.epsilon opts.maxIterations
                opts.preferredLightness).contrast,
              (searchBranchP M opts.hue opts.saturation opts.lightnessRange.1
                opts.preferredLightness (M.relLum opts.baseLinearRgb)
                (resolveMinContrast opts.contrast) opts.epsilon opts.maxIterations
                opts.preferredLightness).met, .darker⟩ := by
          rw [findLightnessP_eq, if_neg hp, if_pos hd, if_neg hl]
        rw [hres]
        refine ⟨dmet, dcr, ?_⟩
        intro p hpa hpb hpc
        simp only
        have hside : p ≤ opts.preferredLightness := hpm ▸ hpb
        have hnear := dnear p hpa hside hpc
        rw [abs_of_nonpos (by linarith), abs_sub_comm, abs_of_nonneg (by linarith)]
        linarith
    · by_cases hl : opts.preferredLightness < opts.lightnessRange.2
      · -- preferred at the bottom of the range: only lighter branch
        have hpm : opts.lightnessRange.1 = opts.preferredLightness :=
          le_antisymm h1 (not_lt.mp hd)
        have hlf : resolveMinContrast opts.contrast ≤
            solverCrAt M opts.hue opts.saturation (M.relLum opts.baseLinearRgb)
              opts.lightnessRange.2 := by
          have hside : opts.preferredLightness ≤ p0 := hpm ▸ hp01
          have := hmono2 p0 opts.lightnessRange.2 hside hp02 le_rfl
          exact hp03.trans this
        obtain ⟨lmet, lcr, llo, lhi, lnear⟩ := searchBranchP_lighter M opts.hue
          opts.saturation opts.preferredLightness opts.lightnessRange.2
          (M.relLum opts.baseLinearRgb) (resolveMinContrast opts.contrast)
          opts.epsilon opts.maxIterations opts.preferredLightness
          h2 le_rfl hmono2 hpfail hlf (by rw [← hpm]; linarith)
        have hres : findLightnessP M opts =
            ⟨(searchBranchP M opts.hue opts.saturation opts.preferredLightness
                opts.lightnessRange.2 (M.relLum opts.baseLinearRgb)
                (resolveMinContrast opts.contrast) opts.epsilon opts.maxIterations
                opts.preferredLightness).lightness,
              (searchBranchP M opts.hue opts.saturation opts.preferredLightness
                opts.lightnessRange.2 (M.relLum opts.baseLinearRgb)
                (resolveMinContrast opts.contrast) opts.epsilon opts.maxIterations
                opts.preferredLightness).contrast,
              (searchBranchP M opts.hue opts.saturation opts.preferredLightness
                opts.lightnessRange.2 (M.relLum opts.baseLinearRgb)
                (resolveMinContrast opts.contrast) opts.epsilon opts.maxIterations
                opts.preferredLightness).met, .lighter⟩ := by
          rw [findLightnessP_eq, if_neg hp, if_neg hd, if_pos hl]
        rw [hres]
        refine ⟨lmet, lcr, ?_⟩
        intro p hpa hpb hpc
        simp only
        have hside : opts.preferredLightness ≤ p := hpm ▸ hpa
        have hnear := lnear p hside hpb hpc
        rw [abs_of_nonneg (by linarith), abs_of_nonneg (by linarith)]
        linarith
      · -- fully degenerate range: the passing point is the preferred one
        exfalso
        have e1 : opts.lightnessRange.1 = opts.preferredLightness :=
          le_antisymm h1 (not_lt.mp hd)
        have e2 : opts.preferredLightness = opts.lightnessRange.2 :=
          le_antisymm h2 (not_lt.mp hl)
        have : p0 = opts.preferredLightness := by
          have := e1 ▸ hp01
          have := e2 ▸ hp02
          linarith
        rw [this] at hp03
        exact hp hp03

/-- Witness for the amended C1 at a concrete monotone instance. -/
theorem c1_monotone_nearest_witness :
    optsOne.lightnessRange.1 ≤ optsOne.preferredLightness ∧
    (findLightnessP (constMath 1) optsOne).met = true :=
  ⟨by norm_num [optsOne],
    (c1_monotone_nearest (constMath 1) optsOne
      (by norm_num [optsOne]) (by norm_num [optsOne])
      (fun _ _ _ _ _ => le_rfl) (fun _ _ _ _ _ => le_rfl)
      (by norm_num [optsOne])
      ⟨1/2, by norm_num [optsOne], by norm_num [optsOne],
        by with_unfolding_all decide⟩).1⟩

/-- Unfolding lemma: `searchBranchP` in terms of the pure bisection loop's
final bounds and `coarseScanP`. -/
theorem searchBranchP_eq (M : ColorMath) (h s lo hi yBase target eps : ℚ)
    (maxIter : ℕ) (preferred : ℚ) :
    searchBranchP M h s lo hi yBase target eps maxIter preferred =
      (if solverCrAt M h s yBase lo < target ∧ solverCrAt M h s yBase hi < target then
        if solverCrAt M h s yBase hi ≤ solverCrAt M h s yBase lo then
          (⟨lo, solverCrAt M h s yBase lo, false⟩ : BranchResult)
        else ⟨hi, solverCrAt M h s yBase hi, false⟩
      else
        if target ≤ solverCrAt M h s yBase
            (bisectLoop (pureLumF M) h s yBase target eps preferred maxIter (lo, hi, ())).1 ∧
            target ≤ solverCrAt M h s yBase
            (bisectLoop (pureLumF M) h s yBase target eps preferred maxIter (lo, hi, ())).2.1 then
          if jsAbs ((bisectLoop (pureLumF M) h s yBase target eps preferred maxIter
                (lo, hi, ())).1 - preferred) ≤
              jsAbs ((bisectLoop (pureLumF M) h s yBase target eps preferred maxIter
                (lo, hi, ())).2.1 - preferred) then
            ⟨(bisectLoop (pureLumF M) h s yBase target eps preferred maxIter (lo, hi, ())).1,
              solverCrAt M h s yBase
                (bisectLoop (pureLumF M) h s yBase target eps preferred maxIter (lo, hi, ())).1,
              true⟩
          else
            ⟨(bisectLoop (pureLumF M) h s yBase target eps preferred maxIter (lo, hi, ())).2.1,
              solverCrAt M h s yBase
                (bisectLoop (pureLumF M) h s yBase target eps preferred maxIter (lo, hi, ())).2.1,
              true⟩
        else if target ≤ solverCrAt M h s yBase
            (bisectLoop (pureLumF M) h s yBase target eps preferred maxIter (lo, hi, ())).1 then
          ⟨(bisectLoop (pureLumF M) h s yBase target eps preferred maxIter (lo, hi, ())).1,
            solverCrAt M h s yBase
              (bisectLoop (pureLumF M) h s yBase target eps preferred maxIter (lo, hi, ())).1,
            true⟩
        else if target ≤ solverCrAt M h s yBase
            (bisectLoop (pureLumF M) h s yBase target eps preferred maxIter (lo, hi, ())).2.1 then
          ⟨(bisectLoop (pureLumF M) h s yBase target eps preferred maxIter (lo, hi, ())).2.1,
            solverCrAt M h s yBase
              (bisectLoop (pureLumF M) h s yBase target eps preferred maxIter (lo, hi, ())).2.1,
            true⟩
        else coarseScanP M h s lo hi yBase target eps maxIter) := by
  rcases hbis : bisectLoop (pureLumF M) h s yBase target eps preferred maxIter (lo, hi, ())
    with ⟨low, high, u⟩
  simp only [searchBranchP, searchBranch, coarseScanP, pureLumF, solverCrAt, hbis]
  by_cases hc1 : contrastRatioFromLuminance (lumAt M h s lo) yBase < target ∧
      contrastRatioFromLuminance (lumAt M h s hi) yBase < target <;>
    by_cases hc2 : target ≤ contrastRatioFromLuminance (lumAt M h s low) yBase <;>
    by_cases hc3 : target ≤ contrastRatioFromLuminance (lumAt M h s high) yBase <;>
    simp only [hc1, hc2, hc3, if_true, if_false, ite_true, ite_false, true_and, false_and,
      and_true, and_false, if_true, if_false] <;>
    split_ifs <;> rfl

-- ============================================================================
-- Coarse-scan invariants (used by C3 and C9)
-- ============================================================================

/-- One scan step preserves: whenever `met` is set, the tracked contrast is
the ratio at the tracked lightness and meets the target. -/
theorem scanStep_met_inv (M : ColorMath) (h s yBase target l : ℚ)
    (st : ℚ × ℚ × Bool × Unit)
    (hst : st.2.2.1 = true → st.2.1 = solverCrAt M h s yBase st.1 ∧ target ≤ st.2.1) :
    (scanStep (pureLumF M) h s yBase target st l).2.2.1 = true →
      (scanStep (pureLumF M) h s yBase target st l).2.1 =
        solverCrAt M h s yBase (scanStep (pureLumF M) h s yBase target st l).1 ∧
      target ≤ (scanStep (pureLumF M) h s yBase target st l).2.1 := by
  simp only [scanStep, pureLumF, solverCrAt]
  split_ifs with h1 h2 h3 <;> intro hm
  · exact ⟨rfl, h1.1⟩
  · exact ⟨rfl, h2.1⟩
  · simp at hm
  · exact hst hm

theorem scanFold_met_inv (M : ColorMath) (h s yBase target lo step : ℚ) (xs : List ℕ) :
    ∀ st : ℚ × ℚ × Bool × Unit,
    (st.2.2.1 = true → st.2.1 = solverCrAt M h s yBase st.1 ∧ target ≤ st.2.1) →
    ((xs.foldl (fun st (i : ℕ) => scanStep (pureLumF M) h s yBase target st
        (lo + step * (i : ℚ))) st).2.2.1 = true →
      (xs.foldl (fun st (i : ℕ) => scanStep (pureLumF M) h s yBase target st
        (lo + step * (i : ℚ))) st).2.1 =
        solverCrAt M h s yBase
          (xs.foldl (fun st (i : ℕ) => scanStep (pureLumF M) h s yBase target st
            (lo + step * (i : ℚ))) st).1 ∧
      target ≤ (xs.foldl (fun st (i : ℕ) => scanStep (pureLumF M) h s yBase target st
        (lo + step * (i : ℚ))) st).2.1) := by
  induction xs with
  | nil => exact fun st hst => hst
  | cons x rest ih =>
    intro st hst
    simp only [List.foldl_cons]
    exact ih _ (scanStep_met_inv M h s yBase target (lo + step * (x : ℚ)) st hst)

/-- The refinement loop preserves: the tracked best lightness passes and
its contrast field is the ratio achieved there. -/
theorem refineLoop_met_inv (M : ColorMath) (h s yBase target eps : ℚ) :
    ∀ (n : ℕ) (st : ℚ × ℚ × ℚ × ℚ × Unit),
    st.2.2.2.1 = solverCrAt M h s yBase st.2.2.1 ∧ target ≤ st.2.2.2.1 →
    (refineLoop (pureLumF M) h s yBase target eps n st).2.2.2.1 =
      solverCrAt M h s yBase (refineLoop (pureLumF M) h s yBase target eps n st).2.2.1 ∧
    target ≤ (refineLoop (pureLumF M) h s yBase target eps n st).2.2.2.1 := by
  intro n
  induction n with
  | zero =>
    intro st hst
    simpa [refineLoop] using hst
  | succ n ih =>
    intro st hst
    by_cases hw : st.2.1 - st.1 < eps
    · simp only [refineLoop, if_pos hw]
      exact hst
    · simp only [refineLoop, if_neg hw, pureLumF]
      by_cases hcr : target ≤ contrastRatioFromLuminance
          (lumAt M h s ((st.1 + st.2.1) / 2)) yBase
      · rw [if_pos hcr]
        exact ih _ ⟨rfl, hcr⟩
      · rw [if_neg hcr]
        exact ih _ hst

/-- Whenever `coarseScan` reports `met = true`, the returned contrast is
the ratio at the returned lightness and meets the target. -/
theorem coarseScanP_met (M : ColorMath) (h s lo hi yBase target eps : ℚ) (maxIter : ℕ)
    (hmet : (coarseScanP M h s lo hi yBase target eps maxIter).met = true) :
    (coarseScanP M h s lo hi yBase target eps maxIter).contrast =
      solverCrAt M h s yBase (coarseScanP M h s lo hi yBase target eps maxIter).lightness ∧
    target ≤ (coarseScanP M h s lo hi yBase target eps maxIter).contrast := by
  rcases hscan : (List.range 65).foldl
      (fun st (i : ℕ) => scanStep (pureLumF M) h s yBase target st
        (lo + (hi - lo) / 64 * (i : ℚ))) (lo, 0, false, ())
    with ⟨bL, bCr, bM, u⟩
  have hinv := scanFold_met_inv M h s yBase target lo ((hi - lo) / 64) (List.range 65)
    (lo, 0, false, ()) (by intro hm; simp at hm)
  rw [hscan] at hinv
  simp only at hinv
  simp only [coarseScanP, coarseScan, hscan] at hmet ⊢
  by_cases hc : bM = true ∧ lo + (hi - lo) / 64 < bL
  · rw [if_pos hc] at hmet ⊢
    rcases href : refineLoop (pureLumF M) h s yBase target eps maxIter
        (bL - (hi - lo) / 64, bL, bL, bCr, ()) with ⟨a, b, bestL2, bestCr2, u2⟩
    have hrinv := refineLoop_met_inv M h s yBase target eps maxIter
      (bL - (hi - lo) / 64, bL, bL, bCr, ()) (by
        have := hinv hc.1
        simpa using this)
    rw [href] at hrinv
    simp only at hrinv
    simp only [href]
    exact hrinv
  · rw [if_neg hc] at hmet ⊢
    simp only at hmet
    exact hinv hmet

/-- Whenever `searchBranch` reports `met = true`, the returned contrast is
the ratio at the returned lightness and meets the target. -/
theorem searchBranchP_met (M : ColorMath) (h s lo hi yBase target eps : ℚ)
    (maxIter : ℕ) (preferred : ℚ)
    (hmet : (searchBranchP M h s lo hi yBase target eps maxIter preferred).met = true) :
    (searchBranchP M h s lo hi yBase target eps maxIter preferred).contrast =
      solverCrAt M h s yBase
        (searchBranchP M h s lo hi yBase target eps maxIter preferred).lightness ∧
    target ≤ (searchBranchP M h s lo hi yBase target eps maxIter preferred).contrast := by
  rw [searchBranchP_eq] at hmet ⊢
  by_cases hc1 : solverCrAt M h s yBase lo < target ∧ solverCrAt M h s yBase hi < target
  · rw [if_pos hc1] at hmet ⊢
    split at hmet <;> simp at hmet
  · rw [if_neg hc1] at hmet ⊢
    by_cases hc2 : target ≤ solverCrAt M h s yBase
        (bisectLoop (pureLumF M) h s yBase target eps preferred maxIter (lo, hi, ())).1 ∧
        target ≤ solverCrAt M h s yBase
        (bisectLoop (pureLumF M) h s yBase target eps preferred maxIter (lo, hi, ())).2.1
    · rw [if_pos hc2] at hmet ⊢
      split <;> exact ⟨rfl, by first | exact hc2.1 | exact hc2.2⟩
    · rw [if_neg hc2] at hmet ⊢
      by_cases hc3 : target ≤ solverCrAt M h s yBase
          (bisectLoop (pureLumF M) h s yBase target eps preferred maxIter (lo, hi, ())).1
      · rw [if_pos hc3] at hmet ⊢
        exact ⟨rfl, hc3⟩
      · rw [if_neg hc3] at hmet ⊢
        by_cases hc4 : target ≤ solverCrAt M h s yBase
            (bisectLoop (pureLumF M) h s yBase target eps preferred maxIter (lo, hi, ())).2.1
        · rw [if_pos hc4] at hmet ⊢
          exact ⟨rfl, hc4⟩
        · rw [if_neg hc4] at hmet ⊢
          exact coarseScanP_met M h s lo hi yBase target eps maxIter hmet

/-- C9: whenever `findLightnessForContrast` reports `met = true`, the
returned contrast field equals the solver-evaluated WCAG ratio of the
returned lightness against the base and is at least the resolved numeric
target; `met = true` is never reported for a failing lightness. -/
theorem c9_met_implies_target (M : ColorMath) (opts : FLOptions)
    (hmet : (findLightnessP M opts).met = true) :
    resolveMinContrast opts.contrast ≤ (findLightnessP M opts).contrast ∧
    (findLightnessP M opts).contrast =
      solverCrAt M opts.hue opts.saturation (M.relLum opts.baseLinearRgb)
        (findLightnessP M opts).lightness := by
  rw [findLightnessP_eq] at hmet ⊢
  by_cases hp : resolveMinContrast opts.contrast ≤
      solverCrAt M opts.hue opts.saturation (M.relLum opts.baseLinearRgb)
        opts.preferredLightness
  · rw [if_pos hp] at hmet ⊢
    exact ⟨hp, rfl⟩
  · rw [if_neg hp] at hmet ⊢
    by_cases hd : opts.lightnessRange.1 < opts.preferredLightness
    · by_cases hl : opts.preferredLightness < opts.lightnessRange.2
      · -- both branches present
        rw [if_pos hd, if_pos hl] at hmet ⊢
        dsimp only at hmet ⊢
        by_cases hdm : (searchBranchP M opts.hue opts.saturation opts.lightnessRange.1
            opts.preferredLightness (M.relLum opts.baseLinearRgb)
            (resolveMinContrast opts.contrast) opts.epsilon opts.maxIterations
            opts.preferredLightness).met = true
        · by_cases hlm : (searchBranchP M opts.hue opts.saturation opts.preferredLightness
              opts.lightnessRange.2 (M.relLum opts.baseLinearRgb)
              (resolveMinContrast opts.contrast) opts.epsilon opts.maxIterations
              opts.preferredLightness).met = true
          · rw [if_pos ⟨hdm, hlm⟩] at hmet ⊢
            have hds := searchBranchP_met M opts.hue opts.saturation opts.lightnessRange.1
              opts.preferredLightness (M.relLum opts.baseLinearRgb)
              (resolveMinContrast opts.contrast) opts.epsilon opts.maxIterations
              opts.preferredLightness hdm
            have hls := searchBranchP_met M opts.hue opts.saturation opts.preferredLightness
              opts.lightnessRange.2 (M.relLum opts.baseLinearRgb)
              (resolveMinContrast opts.contrast) opts.epsilon opts.maxIterations
              opts.preferredLightness hlm
            split <;> exact ⟨by tauto, by tauto⟩
          · rw [if_neg (fun hc => hlm hc.2), if_pos hdm] at hmet ⊢
            have hds := searchBranchP_met M opts.hue opts.saturation opts.lightnessRange.1
              opts.preferredLightness (M.relLum opts.baseLinearRgb)
              (resolveMinContrast opts.contrast) opts.epsilon opts.maxIterations
              opts.preferredLightness hdm
            exact ⟨hds.2, hds.1⟩
        · by_cases hlm : (searchBranchP M opts.hue opts.saturation opts.preferredLightness
              opts.lightnessRange.2 (M.relLum opts.baseLinearRgb)
              (resolveMinContrast opts.contrast) opts.epsilon opts.maxIterations
              opts.preferredLightness).met = true
          · rw [if_neg (fun hc => hdm hc.1), if_neg hdm, if_pos hlm] at hmet ⊢
            have hls := searchBranchP_met M opts.hue opts.saturation opts.preferredLightness
              opts.lightnessRange.2 (M.relLum opts.baseLinearRgb)
              (resolveMinContrast opts.contrast) opts.epsilon opts.maxIterations
              opts.preferredLightness hlm
            exact ⟨hls.2, hls.1⟩
          · exfalso
            rw [if_neg (fun hc => hdm hc.1), if_neg hdm, if_neg hlm] at hmet
            split at hmet
            · exact hdm hmet
            · exact hlm hmet
      · -- darker branch only
        rw [if_pos hd, if_neg hl] at hmet ⊢
        dsimp only at hmet ⊢
        have hds := searchBranchP_met M opts.hue opts.saturation opts.lightnessRange.1
          opts.preferredLightness (M.relLum opts.baseLinearRgb)
          (resolveMinContrast opts.contrast) opts.epsilon opts.maxIterations
          opts.preferredLightness hmet
        exact ⟨hds.2, hds.1⟩
    · by_cases hl : opts.preferredLightness < opts.lightnessRange.2
      · -- lighter branch only
        rw [if_neg hd, if_pos hl] at hmet ⊢
        dsimp only at hmet ⊢
        have hls := searchBranchP_met M opts.hue opts.saturation opts.preferredLightness
          opts.lightnessRange.2 (M.relLum opts.baseLinearRgb)
          (resolveMinContrast opts.contrast) opts.epsilon opts.maxIterations
          opts.preferredLightness hmet
        exact ⟨hls.2, hls.1⟩
      · -- no branch
        rw [if_neg hd, if_neg hl] at hmet
        exact absurd hmet (by simp)

/-- Witness for C9 at a concrete instance whose preferred lightness
already passes. -/
theorem c9_met_implies_target_witness :
    (findLightnessP (constMath 1) optsOne).met = true ∧
    resolveMinContrast optsOne.contrast ≤ (findLightnessP (constMath 1) optsOne).contrast :=
  ⟨by with_unfolding_all decide,
    (c9_met_implies_target (constMath 1) optsOne (by with_unfolding_all decide)).1⟩

theorem solverCrAt_fold (M : ColorMath) (h s yBase l : ℚ) :
    contrastRatioFromLuminance (lumAt M h s l) yBase = solverCrAt M h s yBase l := rfl

theorem contrastRatio_pos (y1 y2 : ℚ) (h1 : 0 ≤ y1) (h2 : 0 ≤ y2) :
    0 < contrastRatioFromLuminance y1 y2 := by
  rw [contrastRatioFromLuminance, jsMax, jsMin]
  split_ifs <;> exact div_pos (by linarith) (by linarith)

theorem scanIter_succ (M : ColorMath) (h s yBase target lo hi : ℚ) (n : ℕ) :
    scanIter M h s yBase target lo hi (n + 1) =
      scanStep (pureLumF M) h s yBase target (scanIter M h s yBase target lo hi n)
        (scanSample lo hi n) := by
  simp [scanIter, List.range_succ, scanSample]

theorem passUpTo_succ (M : ColorMath) (h s yBase target lo hi : ℚ) (n : ℕ) :
    passUpTo M h s yBase target lo hi (n + 1) =
      if target ≤ solverCrAt M h s yBase (scanSample lo hi n) then
        passUpTo M h s yBase target lo hi n ++ [n]
      else passUpTo M h s yBase target lo hi n := by
  simp only [passUpTo, List.range_succ, List.filter_append, List.filter_cons,
    List.filter_nil]
  split_ifs with hc hd hd <;> simp_all

/-- The core coarse-scan loop characterization: `met` is set exactly when
some processed sample passes; absent any pass the state tracks a sample of
maximum contrast; with passes it tracks the latest passing sample. -/
theorem scanIter_characterization (M : ColorMath) (h s yBase target lo hi : ℚ)
    (hyb : 0 ≤ yBase) (hlum : ∀ l : ℚ, 0 ≤ lumAt M h s l) :
    ∀ n : ℕ,
    ((scanIter M h s yBase target lo hi (n + 1)).2.2.1 = true ↔
      passUpTo M h s yBase target lo hi (n + 1) ≠ []) ∧
    ((scanIter M h s yBase target lo hi (n + 1)).2.2.1 = false →
      (∃ i, i ≤ n ∧ (scanIter M h s yBase target lo hi (n + 1)).1 = scanSample lo hi i ∧
        (scanIter M h s yBase target lo hi (n + 1)).2.1 =
          solverCrAt M h s yBase (scanSample lo hi i)) ∧
      ∀ j, j ≤ n → solverCrAt M h s yBase (scanSample lo hi j) ≤
        (scanIter M h s yBase target lo hi (n + 1)).2.1) ∧
    (∀ k, (passUpTo M h s yBase target lo hi (n + 1)).getLast? = some k →
      (scanIter M h s yBase target lo hi (n + 1)).1 = scanSample lo hi k ∧
      (scanIter M h s yBase target lo hi (n + 1)).2.1 =
        solverCrAt M h s yBase (scanSample lo hi k)) := by
  intro n
  induction n with
  | zero =>
    have hcr0 : 0 < solverCrAt M h s yBase (scanSample lo hi 0) :=
      contrastRatio_pos _ _ (hlum _) hyb
    rw [scanIter_succ, passUpTo_succ]
    have hbase : scanIter M h s yBase target lo hi 0 = (lo, 0, false, ()) := rfl
    rw [hbase]
    by_cases hp0 : target ≤ solverCrAt M h s yBase (scanSample lo hi 0)
    · rw [if_pos hp0]
      simp only [scanStep, pureLumF, solverCrAt_fold]
      rw [if_pos ⟨hp0, True.intro⟩]
      refine ⟨by simp [passUpTo], by simp, ?_⟩
      intro k hk
      simp only [passUpTo, List.range_zero, List.filter_nil, List.nil_append,
        List.getLast?_singleton] at hk
      rw [← Option.some_inj.mp hk]
      exact ⟨rfl, rfl⟩
    · rw [if_neg hp0]
      simp only [scanStep, pureLumF, solverCrAt_fold]
      rw [if_neg (fun hc => hp0 hc.1), if_neg (fun hc => hp0 hc.1),
        if_pos ⟨True.intro, hcr0⟩]
      refine ⟨by simp [passUpTo], ?_, ?_⟩
      · intro _
        refine ⟨⟨0, le_rfl, rfl, rfl⟩, ?_⟩
        intro j hj
        interval_cases j
        exact le_rfl
      · intro k hk
        simp [passUpTo] at hk
  | succ n ih =>
    obtain ⟨ihA, ihB, ihC⟩ := ih
    rw [scanIter_succ, passUpTo_succ]
    by_cases hpn : target ≤ solverCrAt M h s yBase (scanSample lo hi (n + 1)) <;>
      rcases hm : (scanIter M h s yBase target lo hi (n + 1)).2.2.1 with _ | _
    · -- passes, previous met = false
      rw [if_pos hpn]
      simp only [scanStep, pureLumF, solverCrAt_fold]
      rw [if_pos ⟨hpn, hm⟩]
      have hempty : passUpTo M h s yBase target lo hi (n + 1) = [] := by
        by_contra hc
        have h2 := ihA.mpr hc
        rw [hm] at h2
        exact absurd h2 (by simp)
      refine ⟨by simp [hempty], by simp, ?_⟩
      intro k hk
      rw [hempty] at hk
      simp only [List.nil_append, List.getLast?_singleton] at hk
      rw [← Option.some_inj.mp hk]
      exact ⟨rfl, rfl⟩
    · -- passes, previous met = true
      rw [if_pos hpn]
      simp only [scanStep, pureLumF, solverCrAt_fold]
      rw [if_neg (fun hc => by rw [hm] at hc; exact absurd hc.2 (by simp)),
        if_pos ⟨hpn, hm⟩]
      refine ⟨by simp, by simp, ?_⟩
      intro k hk
      rw [List.getLast?_concat] at hk
      rw [← Option.some_inj.mp hk]
      exact ⟨rfl, rfl⟩
    · -- fails, previous met = false
      rw [if_neg hpn]
      simp only [scanStep, pureLumF, solverCrAt_fold]
      rw [if_neg (fun hc => hpn hc.1), if_neg (fun hc => hpn hc.1)]
      by_cases hup : (scanIter M h s yBase target lo hi (n + 1)).2.1 <
          solverCrAt M h s yBase (scanSample lo hi (n + 1))
      · rw [if_pos ⟨hm, hup⟩]
        obtain ⟨⟨i, hi1, hi2, hi3⟩, hmax⟩ := ihB hm
        have hemp : passUpTo M h s yBase target lo hi (n + 1) = [] := by
          by_contra hc
          have h2 := ihA.mpr hc
          rw [hm] at h2
          exact absurd h2 (by simp)
        refine ⟨by simp [hemp], ?_, ?_⟩
        · intro _
          refine ⟨⟨n + 1, le_rfl, rfl, rfl⟩, ?_⟩
          intro j hj
          rcases Nat.le_succ_iff.mp hj with hj' | hj'
          · exact le_of_lt (lt_of_le_of_lt (hmax j hj') hup)
          · rw [hj']
        · intro k hk
          rw [hemp] at hk
          simp at hk
      · rw [if_neg (fun hc => hup hc.2)]
        obtain ⟨⟨i, hi1, hi2, hi3⟩, hmax⟩ := ihB hm
        refine ⟨ihA, ?_, ?_⟩
        · intro _
          refine ⟨⟨i, hi1.trans (Nat.le_succ n), hi2, hi3⟩, ?_⟩
          intro j hj
          rcases Nat.le_succ_iff.mp hj with hj' | hj'
          · exact hmax j hj'
          · rw [hj']
            exact not_lt.mp hup
        · intro k hk
          have := ihC k hk
          exact this
    · -- fails, previous met = true
      rw [if_neg hpn]
      simp only [scanStep, pureLumF, solverCrAt_fold]
      rw [if_neg (fun hc => hpn hc.1), if_neg (fun hc => hpn hc.1),
        if_neg (fun hc => by rw [hm] at hc; exact absurd hc.1 (by simp))]
      refine ⟨by simpa using ihA, by simp [hm], ?_⟩
      intro k hk
      exact ihC k hk

/-- The refinement loop keeps its interval — and the tracked best
lightness — inside the initial bounds. -/
theorem refineLoop_interval_inv (M : ColorMath) (h s yBase target eps L U : ℚ) :
    ∀ (n : ℕ) (st : ℚ × ℚ × ℚ × ℚ × Unit),
      L ≤ st.1 → st.1 ≤ st.2.1 → st.2.1 ≤ U →
      L ≤ st.2.2.1 → st.2.2.1 ≤ U →
      L ≤ (refineLoop (pureLumF M) h s yBase target eps n st).2.2.1 ∧
      (refineLoop (pureLumF M) h s yBase target eps n st).2.2.1 ≤ U := by
  intro n
  induction n with
  | zero =>
    intro st _ _ _ h4 h5
    simp only [refineLoop]
    exact ⟨h4, h5⟩
  | succ n ih =>
    intro st h1 h2 h3 h4 h5
    by_cases hw : st.2.1 - st.1 < eps
    · simp only [refineLoop, if_pos hw]
      exact ⟨h4, h5⟩
    · simp only [refineLoop, if_neg hw, pureLumF]
      by_cases hcr : target ≤ contrastRatioFromLuminance
          (lumAt M h s ((st.1 + st.2.1) / 2)) yBase
      · rw [if_pos hcr]
        exact ih _ h1 (by simp; linarith) (by simp; linarith) (by simp; linarith)
          (by simp; linarith)
      · rw [if_neg hcr]
        exact ih _ (by simp; linarith) (by simp; linarith) (by simpa using h3)
          (by simpa using h4) (by simpa using h5)

/-- C3 (amended): `coarseScan` samples the branch at 64 equal steps and
reports `met = true` exactly when some sample passes; absent any pass it
returns a sample of maximum contrast with `met = false`; with passes it
tracks the LATEST passing sample in scan order (not the earliest), returns
it exactly when it lies within the first step, and otherwise refines
within one step below it, returning a passing lightness in that window. -/
theorem c3_coarse_scan_latest (M : ColorMath) (h s lo hi yBase target eps : ℚ)
    (maxIter : ℕ) (hyb : 0 ≤ yBase) (hlum : ∀ l : ℚ, 0 ≤ lumAt M h s l)
    (hle : lo ≤ hi) :
    ((coarseScanP M h s lo hi yBase target eps maxIter).met = true ↔
      passUpTo M h s yBase target lo hi 65 ≠ []) ∧
    (passUpTo M h s yBase target lo hi 65 = [] →
      (coarseScanP M h s lo hi yBase target eps maxIter).met = false ∧
      (∃ i, i ≤ 64 ∧ (coarseScanP M h s lo hi yBase target eps maxIter).lightness =
        scanSample lo hi i) ∧
      ∀ j, j ≤ 64 → solverCrAt M h s yBase (scanSample lo hi j) ≤
        (coarseScanP M h s lo hi yBase target eps maxIter).contrast) ∧
    (∀ k, (passUpTo M h s yBase target lo hi 65).getLast? = some k →
      (coarseScanP M h s lo hi yBase target eps maxIter).met = true ∧
      target ≤ solverCrAt M h s yBase
        (coarseScanP M h s lo hi yBase target eps maxIter).lightness ∧
      scanSample lo hi k - (hi - lo) / 64 ≤
        (coarseScanP M h s lo hi yBase target eps maxIter).lightness ∧
      (coarseScanP M h s lo hi yBase target eps maxIter).lightness ≤ scanSample lo hi k ∧
      (¬ (lo + (hi - lo) / 64 < scanSample lo hi k) →
        (coarseScanP M h s lo hi yBase target eps maxIter).lightness =
          scanSample lo hi k)) := by
  have hstep : (0 : ℚ) ≤ (hi - lo) / 64 := by
    have : (0 : ℚ) ≤ hi - lo := by linarith
    positivity
  obtain ⟨chA, chB, chC⟩ := scanIter_characterization M h s yBase target lo hi hyb hlum 64
  rw [show (64 + 1 : ℕ) = 65 from rfl] at chA chB chC
  have hfold : (List.range 65).foldl
      (fun st (i : ℕ) => scanStep (pureLumF M) h s yBase target st
        (lo + (hi - lo) / 64 * (i : ℚ))) (lo, 0, false, ()) =
      scanIter M h s yBase target lo hi 65 := rfl
  rcases hscan : scanIter M h s yBase target lo hi 65 with ⟨bL, bCr, bM, u⟩
  rw [hscan] at chA chB chC
  simp only at chA chB chC
  have hcsp : coarseScanP M h s lo hi yBase target eps maxIter =
      (if bM = true ∧ lo + (hi - lo) / 64 < bL then
        let refined := refineLoop (pureLumF M) h s yBase target eps maxIter
          (bL - (hi - lo) / 64, bL, bL, bCr, ())
        (⟨refined.2.2.1, refined.2.2.2.1, true⟩ : BranchResult)
      else ⟨bL, bCr, bM⟩) := by
    simp only [coarseScanP, coarseScan, hfold, hscan]
    cases u
    split <;> rfl
  by_cases hc : bM = true ∧ lo + (hi - lo) / 64 < bL
  · rcases href : refineLoop (pureLumF M) h s yBase target eps maxIter
        (bL - (hi - lo) / 64, bL, bL, bCr, ()) with ⟨a, b, bestL2, bestCr2, u2⟩
    have hres : coarseScanP M h s lo hi yBase target eps maxIter =
        ⟨bestL2, bestCr2, true⟩ := by
      rw [hcsp, if_pos hc]
      simp only [href]
    rw [hres]
    have hne : passUpTo M h s yBase target lo hi 65 ≠ [] := chA.mp hc.1
    refine ⟨by simp [hne], fun hemp => absurd hemp hne, ?_⟩
    intro k hk
    obtain ⟨hbLk, hbCrk⟩ := chC k hk
    have hkmem : k ∈ passUpTo M h s yBase target lo hi 65 :=
      List.mem_of_mem_getLast? hk
    have hkpass : target ≤ solverCrAt M h s yBase (scanSample lo hi k) := by
      simp only [passUpTo, List.mem_filter, decide_eq_true_eq] at hkmem
      exact hkmem.2
    have hmetinv := refineLoop_met_inv M h s yBase target eps maxIter
      (bL - (hi - lo) / 64, bL, bL, bCr, ())
      (by simp only; rw [hbCrk, hbLk]; exact ⟨rfl, hkpass⟩)
    rw [href] at hmetinv
    simp only at hmetinv
    have hint := refineLoop_interval_inv M h s yBase target eps
      (bL - (hi - lo) / 64) bL maxIter (bL - (hi - lo) / 64, bL, bL, bCr, ())
      le_rfl (by simp; linarith) (by simp) (by simp; linarith) (by simp)
    rw [href] at hint
    simp only at hint
    refine ⟨rfl, ?_, ?_, ?_, ?_⟩
    · rw [← hmetinv.1]
      exact hmetinv.2
    · simp only
      rw [← hbLk]
      linarith [hint.1]
    · simp only
      rw [← hbLk]
      exact hint.2
    · intro hnb
      exfalso
      rw [← hbLk] at hnb
      exact hnb hc.2
  · have hres : coarseScanP M h s lo hi yBase target eps maxIter = ⟨bL, bCr, bM⟩ := by
      rw [hcsp, if_neg hc]
    rw [hres]
    refine ⟨chA, ?_, ?_⟩
    · intro hemp
      have hbm : bM = false := by
        rcases hbm : bM with _ | _
        · rfl
        · exact absurd (chA.mp hbm) (by simp [hemp])
      obtain ⟨⟨i, hi1, hi2, hi3⟩, hmax⟩ := chB hbm
      refine ⟨hbm, ⟨i, hi1, hi2⟩, ?_⟩
      intro j hj
      exact hmax j hj
    · intro k hk
      have hne : passUpTo M h s yBase target lo hi 65 ≠ [] := by
        intro hemp
        rw [hemp] at hk
        simp at hk
      have hbm : bM = true := by
        rcases hbm : bM with _ | _
        · exact absurd (chA.mpr hne) (by simp [hbm])
        · rfl
      obtain ⟨hbLk, hbCrk⟩ := chC k hk
      have hkmem : k ∈ passUpTo M h s yBase target lo hi 65 :=
        List.mem_of_mem_getLast? hk
      have hkpass : target ≤ solverCrAt M h s yBase (scanSample lo hi k) := by
        simp only [passUpTo, List.mem_filter, decide_eq_true_eq] at hkmem
        exact hkmem.2
      refine ⟨hbm, ?_, ?_, ?_, fun _ => hbLk⟩
      · simp only
        rw [hbLk]
        exact hkpass
      · simp only
        rw [hbLk]
        linarith
      · simp only
        rw [hbLk]

/-- C3 counterexample: with luminance spikes at rounded lightness `0` and
`0.0156`, the scan samples `0` and `1/64` both pass the target `5`, yet
`coarseScan` returns the second sample `1/64` — the latest passing sample
in scan order, not the earliest one. -/
theorem c3_counterexample :
    (5 : ℚ) ≤ solverCrAt twoSpikeMath 0 0 0 (scanSample 0 1 0) ∧
    (5 : ℚ) ≤ solverCrAt twoSpikeMath 0 0 0 (scanSample 0 1 1) ∧
    (coarseScanP twoSpikeMath 0 0 0 1 0 5 (1/10000) 14).met = true ∧
    (coarseScanP twoSpikeMath 0 0 0 1 0 5 (1/10000) 14).lightness = scanSample 0 1 1 ∧
    scanSample 0 1 1 ≠ scanSample 0 1 0 := by
  have hr0 : round4 (0 : ℚ) = 0 := by
    rw [round4_eval 0 0 (by norm_num) (by norm_num)]
    norm_num
  have hr1 : round4 (1/64 : ℚ) = 156/10000 := by
    rw [round4_eval (1/64) 156 (by norm_num) (by norm_num)]
    norm_num
  have hr2 : round4 (1/32 : ℚ) = 313/10000 := by
    rw [round4_eval (1/32) 313 (by norm_num) (by norm_num)]
    norm_num
  have hs0 : scanSample 0 1 0 = 0 := by
    norm_num [scanSample]
  have hs1 : scanSample 0 1 1 = 1/64 := by
    norm_num [scanSample]
  have hc0 : solverCrAt twoSpikeMath 0 0 0 (scanSample 0 1 0) = 21 := by
    rw [hs0]
    simp only [solverCrAt, lumAt, twoSpikeMath]
    rw [if_pos (Or.inl hr0)]
    norm_num [contrastRatioFromLuminance, jsMax, jsMin]
  have hc1 : solverCrAt twoSpikeMath 0 0 0 (scanSample 0 1 1) = 21 := by
    rw [hs1]
    simp only [solverCrAt, lumAt, twoSpikeMath]
    rw [if_pos (Or.inr hr1)]
    norm_num [contrastRatioFromLuminance, jsMax, jsMin]
  have hfail : ∀ i : ℕ, 2 ≤ i →
      solverCrAt twoSpikeMath 0 0 0 (scanSample 0 1 i) = 1 := by
    intro i h2
    have hge : (1/32 : ℚ) ≤ scanSample 0 1 i := by
      have hci : (2 : ℚ) ≤ (i : ℚ) := by exact_mod_cast h2
      rw [scanSample]
      linarith
    have hmono := round4_mono hge
    rw [hr2] at hmono
    have hne0 : ¬ round4 (scanSample 0 1 i) = 0 := by
      intro h
      rw [h] at hmono
      norm_num at hmono
    have hne1 : ¬ round4 (scanSample 0 1 i) = 156/10000 := by
      intro h
      rw [h] at hmono
      norm_num at hmono
    simp only [solverCrAt, lumAt, twoSpikeMath]
    rw [if_neg (not_or.mpr ⟨hne0, hne1⟩)]
    norm_num [contrastRatioFromLuminance, jsMax, jsMin]
  have hpass : ∀ n : ℕ, 2 ≤ n → passUpTo twoSpikeMath 0 0 0 5 0 1 n = [0, 1] := by
    intro n hn
    induction n, hn using Nat.le_induction with
    | base =>
      show passUpTo twoSpikeMath 0 0 0 5 0 1 (1 + 1) = [0, 1]
      rw [passUpTo_succ]
      rw [if_pos (by rw [hc1]; norm_num)]
      show passUpTo twoSpikeMath 0 0 0 5 0 1 (0 + 1) ++ [1] = [0, 1]
      rw [passUpTo_succ]
      rw [if_pos (by rw [hc0]; norm_num)]
      rfl
    | succ n hn ih =>
      rw [passUpTo_succ]
      rw [if_neg (by rw [hfail n hn]; norm_num)]
      exact ih
  have hlum : ∀ l : ℚ, 0 ≤ lumAt twoSpikeMath 0 0 l := by
    intro l
    simp only [lumAt, twoSpikeMath]
    split_ifs <;> norm_num
  obtain ⟨chA, -, chC⟩ :=
    scanIter_characterization twoSpikeMath 0 0 0 5 0 1 le_rfl hlum 64
  rw [show (64 + 1 : ℕ) = 65 from rfl] at chA chC
  have hp65 := hpass 65 (by norm_num)
  have hfold : (List.range 65).foldl
      (fun st (i : ℕ) => scanStep (pureLumF twoSpikeMath) 0 0 0 5 st
        (0 + (1 - 0) / 64 * (i : ℚ))) (0, 0, false, ()) =
      scanIter twoSpikeMath 0 0 0 5 0 1 65 := rfl
  rcases hscan : scanIter twoSpikeMath 0 0 0 5 0 1 65 with ⟨bL, bCr, bM, u⟩
  rw [hscan] at chA chC
  simp only at chA chC
  have hbM : bM = true := chA.mpr (by rw [hp65]; simp)
  obtain ⟨hbL, hbCr⟩ := chC 1 (by rw [hp65]; rfl)
  have hcsp : coarseScanP twoSpikeMath 0 0 0 1 0 5 (1/10000) 14 =
      (if bM = true ∧ 0 + (1 - 0) / 64 < bL then
        let refined := refineLoop (pureLumF twoSpikeMath) 0 0 0 5 (1/10000) 14
          (bL - (1 - 0) / 64, bL, bL, bCr, ())
        (⟨refined.2.2.1, refined.2.2.2.1, true⟩ : BranchResult)
      else ⟨bL, bCr, bM⟩) := by
    simp only [coarseScanP, coarseScan, hfold, hscan]
    cases u
    split <;> rfl
  have hnotlt : ¬ (bM = true ∧ 0 + (1 - 0) / 64 < bL) := by
    intro hcond
    rw [hbL, hs1] at hcond
    norm_num at hcond
  have hres : coarseScanP twoSpikeMath 0 0 0 1 0 5 (1/10000) 14 = ⟨bL, bCr, bM⟩ := by
    rw [hcsp, if_neg hnotlt]
  refine ⟨by rw [hc0]; norm_num, by rw [hc1]; norm_num, ?_, ?_, ?_⟩
  · rw [hres]
    exact hbM
  · rw [hres]
    exact hbL
  · rw [hs0, hs1]
    norm_num

/-- Witness for the amended C3 at a concrete instance with passing
samples. -/
theorem c3_coarse_scan_latest_witness :
    (0 : ℚ) ≤ 0 ∧ (0 : ℚ) ≤ 1 ∧
    ((coarseScanP twoSpikeMath 0 0 0 1 0 5 (1/10000) 14).met = true ↔
      passUpTo twoSpikeMath 0 0 0 5 0 1 65 ≠ []) :=
  ⟨le_rfl, by norm_num,
    (c3_coarse_scan_latest twoSpikeMath 0 0 0 1 0 5 (1/10000) 14 le_rfl
      (fun l => by
        simp only [lumAt, twoSpikeMath]
        split_ifs <;> norm_num)
      (by norm_num)).1⟩

/-- C4 (code bug): the map `c4FailMap` — color `n` with absolute lightness
AND a base `m` — passes validation, yet `resolve` fails for every seed and
configuration: `resolveColorForScheme` treats `n` as dependent (its root
test requires the absence of a base), while the topological order does not
follow the base edge of an absolute-lightness node, so `n` is evaluated
before `m` and the base lookup fails with `baseNotResolved`.  The claim
that every validated map resolves to one entry per name is false. -/
theorem c4_valid_map_fails_to_resolve :
    validateColorDefs c4FailMap = .ok () ∧
    ∀ (M : ColorMath) (cfg : GlazeConfigR) (hue sat : ℚ),
      resolveAllColorsP M cfg hue sat c4FailMap = .error (.baseNotResolved "n" "m") :=
  ⟨rfl, fun _ _ _ _ => rfl⟩

-- ============================================================================
-- Cycle-detection lemmas (C5)
-- ============================================================================

theorem alookup_mem {α β : Type} [DecidableEq α] :
    ∀ (l : List (α × β)) (x : α) (d : β), alookup l x = some d → x ∈ l.map Prod.fst := by
  intro l
  induction l with
  | nil => intro x d h; simp [alookup] at h
  | cons p rest ih =>
    intro x d h
    rcases p with ⟨k, v⟩
    rw [alookup] at h
    by_cases hx : x = k
    · simp [hx]
    · rw [if_neg hx] at h
      simp only [List.map_cons, List.mem_cons]
      exact Or.inr (ih x d h)

theorem iterFollowed_add (defs : ColorMap) :
    ∀ (a b : ℕ) (n : String), iterFollowed defs (a + b) n =
      (iterFollowed defs a n).bind (fun m => iterFollowed defs b m) := by
  intro a
  induction a with
  | zero => intro b n; simp [iterFollowed]
  | succ a ih =>
    intro b n
    rw [Nat.succ_add]
    cases halk : alookup defs n with
    | none => simp [iterFollowed, halk]
    | some d =>
      cases hfb : followedBase d with
      | none => simp [iterFollowed, halk, hfb]
      | some b0 => simp [iterFollowed, halk, hfb, ih]

theorem cycNodes_mem (defs : ColorMap) (n : String) (k : ℕ) (x : String) :
    x ∈ cycNodes defs n k ↔ ∃ j, j < k ∧ iterFollowed defs j n = some x := by
  simp [cycNodes, List.mem_filterMap, List.mem_range]

theorem cyc_step (defs : ColorMap) (n : String) (k : ℕ)
    (hk : 0 < k) (hcyc : iterFollowed defs k n = some n) (x : String)
    (hx : x ∈ cycNodes defs n k) :
    ∃ d b, alookup defs x = some d ∧ followedBase d = some b ∧
      b ∈ cycNodes defs n k := by
  obtain ⟨j, hj, hjx⟩ := (cycNodes_mem defs n k x).mp hx
  have hsplit : j + (k - j) = k := Nat.add_sub_cancel' hj.le
  have hrest : iterFollowed defs (k - j) x = some n := by
    have h1 := iterFollowed_add defs j (k - j) n
    rw [hsplit, hcyc, hjx] at h1
    simpa using h1.symm
  obtain ⟨m, hm⟩ : ∃ m, k - j = m + 1 := ⟨k - j - 1, by omega⟩
  rw [hm] at hrest
  cases halk : alookup defs x with
  | none => simp [iterFollowed, halk] at hrest
  | some d =>
    cases hfb : followedBase d with
    | none => simp [iterFollowed, halk, hfb] at hrest
    | some b =>
      have hrest2 : iterFollowed defs m b = some n := by
        simpa [iterFollowed, halk, hfb] using hrest
      refine ⟨d, b, rfl, hfb, ?_⟩
      rw [cycNodes_mem]
      by_cases hjk : j + 1 < k
      · refine ⟨j + 1, hjk, ?_⟩
        have h2 := iterFollowed_add defs j 1 n
        rw [hjx] at h2
        simpa [iterFollowed, halk, hfb] using h2
      · have hjk2 : j + 1 = k := by omega
        have hm0 : m = 0 := by omega
        rw [hm0] at hrest2
        have hbn : b = n := by simpa [iterFollowed] using hrest2
        exact ⟨0, hk, by simp [iterFollowed, hbn]⟩

theorem cycNodes_sub_keyset (defs : ColorMap) (n : String) (k : ℕ)
    (hk : 0 < k) (hcyc : iterFollowed defs k n = some n) :
    cycNodes defs n k ⊆ keyset defs := by
  intro x hx
  obtain ⟨d, b, halk, _, _⟩ := cyc_step defs n k hk hcyc x hx
  have := alookup_mem defs x d halk
  simpa [keyset] using this

/-- Started at a node of a followed cycle, with the cycle untouched by
`visited` and enough fuel, the validator's DFS reports a circular error. -/
theorem dfsCheck_circular (defs : ColorMap) (n : String) (k : ℕ)
    (hk : 0 < k) (hcyc : iterFollowed defs k n = some n) :
    ∀ (fuel : ℕ) (inStack visited : List String) (c : String),
      c ∈ cycNodes defs n k →
      (∀ x ∈ cycNodes defs n k, x ∉ visited) →
      (cycNodes defs n k \ inStack.toFinset).card < fuel →
      ∃ c', dfsCheck defs fuel inStack visited c = .error (.circular c') := by
  intro fuel
  induction fuel with
  | zero => intro inStack visited c _ _ hcard; exact absurd hcard (Nat.not_lt_zero _)
  | succ fuel ih =>
    intro inStack visited c hc hdisj hcard
    by_cases hin : c ∈ inStack
    · exact ⟨c, by simp [dfsCheck, hin]⟩
    · obtain ⟨d, b, halk, hfb, hb⟩ := cyc_step defs n k hk hcyc c hc
      have hnv : c ∉ visited := hdisj c hc
      have hmem : c ∈ cycNodes defs n k \ inStack.toFinset :=
        Finset.mem_sdiff.mpr ⟨hc, by simpa using hin⟩
      have hcard' : (cycNodes defs n k \ (c :: inStack).toFinset).card < fuel := by
        have h1 : cycNodes defs n k \ (c :: inStack).toFinset =
            (cycNodes defs n k \ inStack.toFinset).erase c := by
          ext y
          simp only [Finset.mem_sdiff, Finset.mem_erase, List.toFinset_cons,
            Finset.mem_insert, List.mem_toFinset]
          tauto
        rw [h1]
        have h2 := Finset.card_erase_lt_of_mem hmem
        omega
      obtain ⟨c', hrec⟩ := ih (c :: inStack) visited b hb hdisj hcard'
      exact ⟨c', by simp [dfsCheck, hin, hnv, halk, hfb, hrec]⟩

/-- The DFS only ever fails with a circular or a fuel error. -/
theorem dfsCheck_err_shape (defs : ColorMap) :
    ∀ (fuel : ℕ) (inStack visited : List String) (x : String) (e : GlazeError),
      dfsCheck defs fuel inStack visited x = .error e →
      (∃ c, e = .circular c) ∨ e = .fuelExhausted := by
  intro fuel
  induction fuel with
  | zero =>
    intro inStack visited x e h
    simp only [dfsCheck] at h
    cases h
    exact Or.inr rfl
  | succ fuel ih =>
    intro inStack visited x e h
    by_cases hin : x ∈ inStack
    · rw [show dfsCheck defs (fuel + 1) inStack visited x = .error (.circular x) from by
        simp [dfsCheck, hin]] at h
      cases h
      exact Or.inl ⟨x, rfl⟩
    · by_cases hv : x ∈ visited
      · rw [show dfsCheck defs (fuel + 1) inStack visited x = .ok visited from by
          simp [dfsCheck, hin, hv]] at h
        simp at h
      · cases halk : alookup defs x with
        | none =>
          rw [show dfsCheck defs (fuel + 1) inStack visited x = .ok (x :: visited) from by
            simp [dfsCheck, hin, hv, halk]] at h
          simp at h
        | some d =>
          cases hfb : followedBase d with
          | none =>
            rw [show dfsCheck defs (fuel + 1) inStack visited x = .ok (x :: visited) from by
              simp [dfsCheck, hin, hv, halk, hfb]] at h
            simp at h
          | some b =>
            cases hrec : dfsCheck defs fuel (x :: inStack) visited b with
            | error e2 =>
              rw [show dfsCheck defs (fuel + 1) inStack visited x = .error e2 from by
                simp [dfsCheck, hin, hv, halk, hfb, hrec]] at h
              injection h with h2
              exact h2 ▸ ih (x :: inStack) visited b e2 hrec
            | ok v2 =>
              rw [show dfsCheck defs (fuel + 1) inStack visited x = .ok (x :: v2) from by
                simp [dfsCheck, hin, hv, halk, hfb, hrec]] at h
              simp at h

/-- With fuel exceeding the number of keys outside the stack, the DFS never
exhausts its fuel. -/
theorem dfsCheck_fuel_ok (defs : ColorMap) :
    ∀ (fuel : ℕ) (inStack visited : List String) (x : String),
      (keyset defs \ inStack.toFinset).card < fuel →
      dfsCheck defs fuel inStack visited x ≠ .error .fuelExhausted := by
  intro fuel
  induction fuel with
  | zero => intro inStack visited x hcard; exact absurd hcard (Nat.not_lt_zero _)
  | succ fuel ih =>
    intro inStack visited x hcard
    by_cases hin : x ∈ inStack
    · rw [show dfsCheck defs (fuel + 1) inStack visited x = .error (.circular x) from by
        simp [dfsCheck, hin]]
      simp
    · by_cases hv : x ∈ visited
      · rw [show dfsCheck defs (fuel + 1) inStack visited x = .ok visited from by
          simp [dfsCheck, hin, hv]]
        simp
      · cases halk : alookup defs x with
        | none =>
          rw [show dfsCheck defs (fuel + 1) inStack visited x = .ok (x :: visited) from by
            simp [dfsCheck, hin, hv, halk]]
          simp
        | some d =>
          cases hfb : followedBase d with
          | none =>
            rw [show dfsCheck defs (fuel + 1) inStack visited x = .ok (x :: visited) from by
              simp [dfsCheck, hin, hv, halk, hfb]]
            simp
          | some b =>
            have hxkey : x ∈ keyset defs := by
              simpa [keyset] using alookup_mem defs x d halk
            have hmem : x ∈ keyset defs \ inStack.toFinset :=
              Finset.mem_sdiff.mpr ⟨hxkey, by simpa using hin⟩
            have hcard' : (keyset defs \ (x :: inStack).toFinset).card < fuel := by
              have h1 : keyset defs \ (x :: inStack).toFinset =
                  (keyset defs \ inStack.toFinset).erase x := by
                ext y
                simp only [Finset.mem_sdiff, Finset.mem_erase, List.toFinset_cons,
                  Finset.mem_insert, List.mem_toFinset]
                tauto
              rw [h1]
              have h2 := Finset.card_erase_lt_of_mem hmem
              omega
            have hrec := ih (x :: inStack) visited b hcard'
            cases hrec2 : dfsCheck defs fuel (x :: inStack) visited b with
            | error e2 =>
              have he2 : e2 ≠ .fuelExhausted := by
                intro he
                exact hrec (by rw [hrec2, he])
              rw [show dfsCheck defs (fuel + 1) inStack visited x = .error e2 from by
                simp [dfsCheck, hin, hv, halk, hfb, hrec2]]
              intro hcontra
              injection hcontra with h2
              exact he2 h2
            | ok v2 =>
              rw [show dfsCheck defs (fuel + 1) inStack visited x = .ok (x :: v2) from by
                simp [dfsCheck, hin, hv, halk, hfb, hrec2]]
              simp

/-- The DFS can never return `ok` when started on a cycle node whose cycle
is disjoint from `visited`. -/
theorem dfsCheck_cycle_no_ok (defs : ColorMap) (n : String) (k : ℕ)
    (hk : 0 < k) (hcyc : iterFollowed defs k n = some n) :
    ∀ (fuel : ℕ) (inStack visited : List String) (c : String),
      c ∈ cycNodes defs n k →
      (∀ x ∈ cycNodes defs n k, x ∉ visited) →
      ∀ v, dfsCheck defs fuel inStack visited c ≠ .ok v := by
  intro fuel
  induction fuel with
  | zero => intro inStack visited c _ _ v h; simp [dfsCheck] at h
  | succ fuel ih =>
    intro inStack visited c hc hdisj v h
    by_cases hin : c ∈ inStack
    · rw [show dfsCheck defs (fuel + 1) inStack visited c = .error (.circular c) from by
        simp [dfsCheck, hin]] at h
      simp at h
    · have hnv : c ∉ visited := hdisj c hc
      obtain ⟨d, b, halk, hfb, hb⟩ := cyc_step defs n k hk hcyc c hc
      cases hrec : dfsCheck defs fuel (c :: inStack) visited b with
      | error e2 =>
        rw [show dfsCheck defs (fuel + 1) inStack visited c = .error e2 from by
          simp [dfsCheck, hin, hnv, halk, hfb, hrec]] at h
        simp at h
      | ok v2 =>
        exact ih (c :: inStack) visited b hb hdisj v2 hrec

/-- A successful DFS run never adds a cycle node to the visited set. -/
theorem dfsCheck_ok_disjoint (defs : ColorMap) (n : String) (k : ℕ)
    (hk : 0 < k) (hcyc : iterFollowed defs k n = some n) :
    ∀ (fuel : ℕ) (inStack visited : List String) (x : String) (v : List String),
      (∀ y ∈ cycNodes defs n k, y ∉ visited) →
      dfsCheck defs fuel inStack visited x = .ok v →
      ∀ y ∈ cycNodes defs n k, y ∉ v := by
  intro fuel
  induction fuel with
  | zero => intro inStack visited x v _ h; simp [dfsCheck] at h
  | succ fuel ih =>
    intro inStack visited x v hdisj h
    by_cases hin : x ∈ inStack
    · rw [show dfsCheck defs (fuel + 1) inStack visited x = .error (.circular x) from by
        simp [dfsCheck, hin]] at h
      simp at h
    · by_cases hv : x ∈ visited
      · rw [show dfsCheck defs (fuel + 1) inStack visited x = .ok visited from by
          simp [dfsCheck, hin, hv]] at h
        injection h with h2
        intro y hy
        rw [← h2]
        exact hdisj y hy
      · have hxC : x ∉ cycNodes defs n k := by
          intro hxc
          exact dfsCheck_cycle_no_ok defs n k hk hcyc (fuel + 1) inStack visited x
            hxc hdisj v h
        cases halk : alookup defs x with
        | none =>
          rw [show dfsCheck defs (fuel + 1) inStack visited x = .ok (x :: visited) from by
            simp [dfsCheck, hin, hv, halk]] at h
          injection h with h2
          intro y hy
          rw [← h2]
          simp only [List.mem_cons, not_or]
          exact ⟨fun he => hxC (he ▸ hy), hdisj y hy⟩
        | some d =>
          cases hfb : followedBase d with
          | none =>
            rw [show dfsCheck defs (fuel + 1) inStack visited x = .ok (x :: visited) from by
              simp [dfsCheck, hin, hv, halk, hfb]] at h
            injection h with h2
            intro y hy
            rw [← h2]
            simp only [List.mem_cons, not_or]
            exact ⟨fun he => hxC (he ▸ hy), hdisj y hy⟩
          | some b =>
            cases hrec : dfsCheck defs fuel (x :: inStack) visited b with
            | error e2 =>
              rw [show dfsCheck defs (fuel + 1) inStack visited x = .error e2 from by
                simp [dfsCheck, hin, hv, halk, hfb, hrec]] at h
              simp at h
            | ok v2 =>
              rw [show dfsCheck defs (fuel + 1) inStack visited x = .ok (x :: v2) from by
                simp [dfsCheck, hin, hv, halk, hfb, hrec]] at h
              injection h with h2
              have hv2 := ih (x :: inStack) visited b v2 hdisj hrec
              intro y hy
              rw [← h2]
              simp only [List.mem_cons, not_or]
              exact ⟨fun he => hxC (he ▸ hy), hv2 y hy⟩

/-- Running the validator's DFS over all roots reports a circular error
whenever some root lies on a followed cycle untouched by `visited`. -/
theorem checkCyclesFrom_circular (defs : ColorMap) (n : String) (k : ℕ)
    (hk : 0 < k) (hcyc : iterFollowed defs k n = some n) :
    ∀ (roots visited : List String),
      (∀ y ∈ cycNodes defs n k, y ∉ visited) →
      (∃ r ∈ roots, r ∈ cycNodes defs n k) →
      ∃ c, checkCyclesFrom defs (defs.length + 1) visited roots =
        .error (.circular c) := by
  intro roots
  induction roots with
  | nil =>
    intro visited _ hex
    obtain ⟨r, hr, _⟩ := hex
    simp at hr
  | cons r rest ih =>
    intro visited hdisj hex
    have hkcard : (keyset defs \ ([] : List String).toFinset).card < defs.length + 1 := by
      simp only [List.toFinset_nil, Finset.sdiff_empty]
      calc (keyset defs).card ≤ (defs.map Prod.fst).length := List.toFinset_card_le _
        _ = defs.length := by simp
        _ < defs.length + 1 := Nat.lt_succ_self _
    by_cases hrC : r ∈ cycNodes defs n k
    · have hccard : (cycNodes defs n k \ ([] : List String).toFinset).card <
          defs.length + 1 := by
        simp only [List.toFinset_nil, Finset.sdiff_empty]
        calc (cycNodes defs n k).card ≤ (keyset defs).card :=
              Finset.card_le_card (cycNodes_sub_keyset defs n k hk hcyc)
          _ ≤ (defs.map Prod.fst).length := List.toFinset_card_le _
          _ = defs.length := by simp
          _ < defs.length + 1 := Nat.lt_succ_self _
      obtain ⟨c', hdfs⟩ := dfsCheck_circular defs n k hk hcyc (defs.length + 1) []
        visited r hrC hdisj hccard
      exact ⟨c', by simp [checkCyclesFrom, hdfs]⟩
    · cases hdfs : dfsCheck defs (defs.length + 1) [] visited r with
      | error e =>
        rcases dfsCheck_err_shape defs (defs.length + 1) [] visited r e hdfs with
          ⟨c', hc'⟩ | hfe
        · exact ⟨c', by simp [checkCyclesFrom, hdfs, hc']⟩
        · rw [hfe] at hdfs
          exact absurd hdfs (dfsCheck_fuel_ok defs (defs.length + 1) [] visited r hkcard)
      | ok v =>
        have hdisj' := dfsCheck_ok_disjoint defs n k hk hcyc (defs.length + 1) []
          visited r v hdisj hdfs
        have hex' : ∃ r' ∈ rest, r' ∈ cycNodes defs n k := by
          obtain ⟨r', hr1, hr2⟩ := hex
          rcases List.mem_cons.mp hr1 with rfl | hr3
          · exact absurd hr2 hrC
          · exact ⟨r', hr3, hr2⟩
        obtain ⟨c, hres⟩ := ih v hdisj' hex'
        exact ⟨c, by simp [checkCyclesFrom, hdfs, hres]⟩

/-- C5 (amended): when the per-definition checks pass and the FOLLOWED base
graph (an edge is followed only out of a node lacking absolute lightness)
contains a cycle, `resolve` aborts with the circular error for every seed
and configuration.  The original claim — any raw base cycle of length ≥ 2
triggers the circular error — is false: a cycle through a node with
absolute lightness is not followed (see the counterexample). -/
theorem c5_followed_cycle_circular (defs : ColorMap)
    (h1 : checkDefsFrom (defs.map Prod.fst) defs = .ok ())
    (h2 : HasFollowedCycle defs) :
    ∃ c, ∀ (M : ColorMath) (cfg : GlazeConfigR) (hue sat : ℚ),
      resolveAllColorsP M cfg hue sat defs = .error (.circular c) := by
  obtain ⟨n, k, hk, hcyc⟩ := h2
  have hnC : n ∈ cycNodes defs n k := (cycNodes_mem defs n k n).mpr ⟨0, hk, rfl⟩
  have hnkey : n ∈ defs.map Prod.fst := by
    have := cycNodes_sub_keyset defs n k hk hcyc hnC
    simpa [keyset] using this
  obtain ⟨c, hcc⟩ := checkCyclesFrom_circular defs n k hk hcyc (defs.map Prod.fst) []
    (by simp) ⟨n, hnkey, hnC⟩
  have hval : validateColorDefs defs = .error (.circular c) := by
    simp [validateColorDefs, h1, hcc]
  refine ⟨c, fun M cfg hue sat => ?_⟩
  simp [resolveAllColorsP, resolveAllColors, hval]

/-- C5 counterexample: `c5CexMap`'s raw base references form a 2-cycle
(`a → b → a`), yet because `a` carries absolute lightness its edge is not
followed, validation passes, and resolution fails with `baseNotResolved` —
not with the circular error the claim requires. -/
theorem c5_counterexample :
    rawBase c5CexMap "a" = some "b" ∧
    rawBase c5CexMap "b" = some "a" ∧
    "a" ≠ "b" ∧
    validateColorDefs c5CexMap = .ok () ∧
    resolveAllColorsP (constMath 0) defaultGlazeConfig 0 0 c5CexMap =
      .error (.baseNotResolved "a" "b") ∧
    ∀ c, resolveAllColorsP (constMath 0) defaultGlazeConfig 0 0 c5CexMap ≠
      .error (.circular c) := by
  refine ⟨rfl, rfl, by decide, rfl, rfl, ?_⟩
  intro c h
  rw [show resolveAllColorsP (constMath 0) defaultGlazeConfig 0 0 c5CexMap =
    .error (.baseNotResolved "a" "b") from rfl] at h
  injection h with h2
  exact GlazeError.noConfusion h2

/-- Witness for the amended C5 at a genuine followed 2-cycle. -/
theorem c5_followed_cycle_circular_witness :
    checkDefsFrom (c5CycleMap.map Prod.fst) c5CycleMap = .ok () ∧
    HasFollowedCycle c5CycleMap ∧
    ∃ c, ∀ (M : ColorMath) (cfg : GlazeConfigR) (hue sat : ℚ),
      resolveAllColorsP M cfg hue sat c5CycleMap = .error (.circular c) :=
  ⟨rfl, ⟨"a", 2, by norm_num, rfl⟩,
    c5_followed_cycle_circular c5CycleMap rfl ⟨"a", 2, by norm_num, rfl⟩⟩

-- ============================================================================
-- Range-invariant lemmas (C8)
-- ============================================================================

theorem upsert_forall {α β : Type} [DecidableEq α] (P : α × β → Prop) :
    ∀ (l : List (α × β)) (k : α) (v : β), (∀ q ∈ l, P q) → P (k, v) →
      ∀ q ∈ upsert l k v, P q := by
  intro l
  induction l with
  | nil =>
    intro k v _ hkv q hq
    simp only [upsert, List.mem_singleton] at hq
    rw [hq]
    exact hkv
  | cons p rest ih =>
    intro k v hl hkv q hq
    rcases p with ⟨a, b⟩
    rw [upsert] at hq
    by_cases hk : k = a
    · rw [if_pos hk] at hq
      rcases List.mem_cons.mp hq with rfl | hq'
      · exact hkv
      · exact hl q (List.mem_cons_of_mem _ hq')
    · rw [if_neg hk] at hq
      rcases List.mem_cons.mp hq with rfl | hq'
      · exact hl (a, b) (List.mem_cons_self _ _)
      · exact ih k v (fun r hr => hl r (List.mem_cons_of_mem _ hr)) hkv q hq'

theorem alookup_forall {α β : Type} [DecidableEq α] (P : α × β → Prop) :
    ∀ (l : List (α × β)) (x : α) (v : β), (∀ q ∈ l, P q) → alookup l x = some v →
      P (x, v) := by
  intro l
  induction l with
  | nil => intro x v _ h; simp [alookup] at h
  | cons p rest ih =>
    intro x v hl h
    rcases p with ⟨a, b⟩
    rw [alookup] at h
    by_cases hx : x = a
    · rw [if_pos hx] at h
      injection h with h2
      rw [hx, ← h2]
      exact hl (a, b) (List.mem_cons_self _ _)
    · rw [if_neg hx] at h
      exact ih x v (fun r hr => hl r (List.mem_cons_of_mem _ hr)) h

/-- Every successful scheme resolution produces a variant inside the
specified ranges, provided the seed hue is in `[0, 360)`. -/
theorem resolveColorForScheme_bounds {σ : Type} (M : ColorMath)
    (lumF : σ → ℚ → ℚ → ℚ → ℚ × σ) (cfg : GlazeConfigR) (ctx : ResolveCtx)
    (nm : String) (d : ColorDef) (isDark isHC : Bool) (cs : σ)
    (v : ResolvedColorVariant) (cs1 : σ)
    (hh0 : 0 ≤ ctx.hue) (hh1 : ctx.hue < 360)
    (hres : resolveColorForScheme M lumF cfg ctx nm d isDark isHC cs = (.ok v, cs1)) :
    variantInRange v := by
  have hshape : v = ⟨resolveEffectiveHue ctx.hue d.hue, v.s, v.l⟩ ∧
      (0 ≤ v.s ∧ v.s ≤ 1) ∧ (0 ≤ v.l ∧ v.l ≤ 1) := by
    by_cases hroot : (isAbsoluteLightness d.lightness && d.base.isNone) = true
    · simp only [resolveColorForScheme, hroot, if_true] at hres
      have hv := (Prod.mk.injEq _ _ _ _).mp hres
      have hv2 := hv.1
      injection hv2 with hv3
      refine ⟨?_, ?_, ?_⟩
      · rw [← hv3]
      · rw [← hv3]
        exact ⟨clampQ_lower _ _ _, clampQ_upper _ _ _ (by norm_num)⟩
      · rw [← hv3]
        exact ⟨clampQ_lower _ _ _, clampQ_upper _ _ _ (by norm_num)⟩
    · simp only [resolveColorForScheme, hroot, if_false] at hres
      rcases hdep : resolveDependentColor M lumF cfg ctx nm d isHC isDark
          (resolveEffectiveHue ctx.hue d.hue) cs with ⟨r0, cs0⟩
      rw [hdep] at hres
      cases r0 with
      | error e => simp at hres
      | ok ls =>
        have hv := (Prod.mk.injEq _ _ _ _).mp hres
        have hv2 := hv.1
        injection hv2 with hv3
        refine ⟨?_, ?_, ?_⟩
        · rw [← hv3]
        · rw [← hv3]
          exact ⟨clampQ_lower _ _ _, clampQ_upper _ _ _ (by norm_num)⟩
        · rw [← hv3]
          exact ⟨clampQ_lower _ _ _, clampQ_upper _ _ _ (by norm_num)⟩
  obtain ⟨hv3, hs, hl⟩ := hshape
  refine ⟨?_, hs, hl⟩
  have hh := resolveEffectiveHue_range ctx.hue d.hue hh0 hh1
  rw [hv3]
  exact hh

theorem pass1_bounded {σ : Type} (M : ColorMath) (lumF : σ → ℚ → ℚ → ℚ → ℚ × σ)
    (cfg : GlazeConfigR) (hue sat : ℚ) (defs : ColorMap)
    (hh0 : 0 ≤ hue) (hh1 : hue < 360) :
    ∀ (order : List String)
      (st : List (String × ResolvedColorVariant) × List (String × ResolvedColor) × σ)
      (vm' : List (String × ResolvedColorVariant)) (rm' : List (String × ResolvedColor))
      (cs' : σ),
      (∀ q ∈ st.1, variantInRange q.2) →
      pass1 M lumF cfg hue sat defs order st = (.ok (vm', rm'), cs') →
      ∀ q ∈ vm', variantInRange q.2 := by
  intro order
  induction order with
  | nil =>
    intro st vm' rm' cs' hst hres
    simp only [pass1] at hres
    have h1 := (Prod.mk.injEq _ _ _ _).mp hres
    injection h1.1 with h2
    have h3 := (Prod.mk.injEq _ _ _ _).mp h2
    rw [← h3.1]
    exact hst
  | cons n rest ih =>
    intro st vm' rm' cs' hst hres
    cases halk : alookup defs n with
    | none =>
      rw [show pass1 M lumF cfg hue sat defs (n :: rest) st =
          (.error (.internalMissing n), st.2.2) from by simp [pass1, halk]] at hres
      simp at hres
    | some d =>
      rcases hrs : resolveColorForScheme M lumF cfg ⟨hue, sat, defs, st.2.1⟩ n d
          false false st.2.2 with ⟨r0, cs0⟩
      cases r0 with
      | error e =>
        rw [show pass1 M lumF cfg hue sat defs (n :: rest) st = (.error e, cs0) from by
          simp [pass1, halk, hrs]] at hres
        simp at hres
      | ok v =>
        have hstep : pass1 M lumF cfg hue sat defs (n :: rest) st =
            pass1 M lumF cfg hue sat defs rest
              (upsert st.1 n v, upsert st.2.1 n ⟨n, v, v, v, v, d.mode.getD .auto⟩, cs0) := by
          simp [pass1, halk, hrs]
        rw [hstep] at hres
        have hv := resolveColorForScheme_bounds M lumF cfg ⟨hue, sat, defs, st.2.1⟩ n d
          false false st.2.2 v cs0 hh0 hh1 hrs
        exact ih _ vm' rm' cs' (upsert_forall _ st.1 n v hst hv) hres

theorem pass2_bounded {σ : Type} (M : ColorMath) (lumF : σ → ℚ → ℚ → ℚ → ℚ × σ)
    (cfg : GlazeConfigR) (hue sat : ℚ) (defs : ColorMap)
    (hh0 : 0 ≤ hue) (hh1 : hue < 360) :
    ∀ (order : List String)
      (st : List (String × ResolvedColorVariant) × List (String × ResolvedColor) × σ)
      (vm' : List (String × ResolvedColorVariant)) (rm' : List (String × ResolvedColor))
      (cs' : σ),
      (∀ q ∈ st.1, variantInRange q.2) →
      pass2 M lumF cfg hue sat defs order st = (.ok (vm', rm'), cs') →
      ∀ q ∈ vm', variantInRange q.2 := by
  intro order
  induction order with
  | nil =>
    intro st vm' rm' cs' hst hres
    simp only [pass2] at hres
    have h1 := (Prod.mk.injEq _ _ _ _).mp hres
    injection h1.1 with h2
    have h3 := (Prod.mk.injEq _ _ _ _).mp h2
    rw [← h3.1]
    exact hst
  | cons n rest ih =>
    intro st vm' rm' cs' hst hres
    cases halk : alookup defs n with
    | none =>
      rw [show pass2 M lumF cfg hue sat defs (n :: rest) st =
          (.error (.internalMissing n), st.2.2) from by simp [pass2, halk]] at hres
      simp at hres
    | some d =>
      rcases hrs : resolveColorForScheme M lumF cfg ⟨hue, sat, defs, st.2.1⟩ n d
          false true st.2.2 with ⟨r0, cs0⟩
      cases r0 with
      | error e =>
        rw [show pass2 M lumF cfg hue sat defs (n :: rest) st = (.error e, cs0) from by
          simp [pass2, halk, hrs]] at hres
        simp at hres
      | ok v =>
        cases hrc : alookup st.2.1 n with
        | none =>
          rw [show pass2 M lumF cfg hue sat defs (n :: rest) st =
              (.error (.internalMissing n), cs0) from by
            simp [pass2, halk, hrs, hrc]] at hres
          simp at hres
        | some rc =>
          have hstep : pass2 M lumF cfg hue sat defs (n :: rest) st =
              pass2 M lumF cfg hue sat defs rest
                (upsert st.1 n v, upsert st.2.1 n { rc with lightContrast := v }, cs0) := by
            simp [pass2, halk, hrs, hrc]
          rw [hstep] at hres
          have hv := resolveColorForScheme_bounds M lumF cfg ⟨hue, sat, defs, st.2.1⟩ n d
            false true st.2.2 v cs0 hh0 hh1 hrs
          exact ih _ vm' rm' cs' (upsert_forall _ st.1 n v hst hv) hres

theorem pass3_bounded {σ : Type} (M : ColorMath) (lumF : σ → ℚ → ℚ → ℚ → ℚ × σ)
    (cfg : GlazeConfigR) (hue sat : ℚ) (defs : ColorMap)
    (hh0 : 0 ≤ hue) (hh1 : hue < 360) :
    ∀ (order : List String)
      (st : List (String × ResolvedColorVariant) × List (String × ResolvedColor) × σ)
      (vm' : List (String × ResolvedColorVariant)) (rm' : List (String × ResolvedColor))
      (cs' : σ),
      (∀ q ∈ st.1, variantInRange q.2) →
      pass3 M lumF cfg hue sat defs order st = (.ok (vm', rm'), cs') →
      ∀ q ∈ vm', variantInRange q.2 := by
  intro order
  induction order with
  | nil =>
    intro st vm' rm' cs' hst hres
    simp only [pass3] at hres
    have h1 := (Prod.mk.injEq _ _ _ _).mp hres
    injection h1.1 with h2
    have h3 := (Prod.mk.injEq _ _ _ _).mp h2
    rw [← h3.1]
    exact hst
  | cons n rest ih =>
    intro st vm' rm' cs' hst hres
    cases halk : alookup defs n with
    | none =>
      rw [show pass3 M lumF cfg hue sat defs (n :: rest) st =
          (.error (.internalMissing n), st.2.2) from by simp [pass3, halk]] at hres
      simp at hres
    | some d =>
      rcases hrs : resolveColorForScheme M lumF cfg ⟨hue, sat, defs, st.2.1⟩ n d
          true false st.2.2 with ⟨r0, cs0⟩
      cases r0 with
      | error e =>
        rw [show pass3 M lumF cfg hue sat defs (n :: rest) st = (.error e, cs0) from by
          simp [pass3, halk, hrs]] at hres
        simp at hres
      | ok v =>
        cases hrc : alookup st.2.1 n with
        | none =>
          rw [show pass3 M lumF cfg hue sat defs (n :: rest) st =
              (.error (.internalMissing n), cs0) from by
            simp [pass3, halk, hrs, hrc]] at hres
          simp at hres
        | some rc =>
          have hstep : pass3 M lumF cfg hue sat defs (n :: rest) st =
              pass3 M lumF cfg hue sat defs rest
                (upsert st.1 n v, upsert st.2.1 n { rc with dark := v }, cs0) := by
            simp [pass3, halk, hrs, hrc]
          rw [hstep] at hres
          have hv := resolveColorForScheme_bounds M lumF cfg ⟨hue, sat, defs, st.2.1⟩ n d
            true false st.2.2 v cs0 hh0 hh1 hrs
          exact ih _ vm' rm' cs' (upsert_forall _ st.1 n v hst hv) hres

theorem pass4_bounded {σ : Type} (M : ColorMath) (lumF : σ → ℚ → ℚ → ℚ → ℚ × σ)
    (cfg : GlazeConfigR) (hue sat : ℚ) (defs : ColorMap)
    (hh0 : 0 ≤ hue) (hh1 : hue < 360) :
    ∀ (order : List String)
      (st : List (String × ResolvedColorVariant) × List (String × ResolvedColor) × σ)
      (vm' : List (String × ResolvedColorVariant)) (rm' : List (String × ResolvedColor))
      (cs' : σ),
      (∀ q ∈ st.1, variantInRange q.2) →
      pass4 M lumF cfg hue sat defs order st = (.ok (vm', rm'), cs') →
      ∀ q ∈ vm', variantInRange q.2 := by
  intro order
  induction order with
  | nil =>
    intro st vm' rm' cs' hst hres
    simp only [pass4] at hres
    have h1 := (Prod.mk.injEq _ _ _ _).mp hres
    injection h1.1 with h2
    have h3 := (Prod.mk.injEq _ _ _ _).mp h2
    rw [← h3.1]
    exact hst
  | cons n rest ih =>
    intro st vm' rm' cs' hst hres
    cases halk : alookup defs n with
    | none =>
      rw [show pass4 M lumF cfg hue sat defs (n :: rest) st =
          (.error (.internalMissing n), st.2.2) from by simp [pass4, halk]] at hres
      simp at hres
    | some d =>
      rcases hrs : resolveColorForScheme M lumF cfg ⟨hue, sat, defs, st.2.1⟩ n d
          true true st.2.2 with ⟨r0, cs0⟩
      cases r0 with
      | error e =>
        rw [show pass4 M lumF cfg hue sat defs (n :: rest) st = (.error e, cs0) from by
          simp [pass4, halk, hrs]] at hres
        simp at hres
      | ok v =>
        cases hrc : alookup st.2.1 n with
        | none =>
          rw [show pass4 M lumF cfg hue sat defs (n :: rest) st =
              (.error (.internalMissing n), cs0) from by
            simp [pass4, halk, hrs, hrc]] at hres
          simp at hres
        | some rc =>
          have hstep : pass4 M lumF cfg hue sat defs (n :: rest) st =
              pass4 M lumF cfg hue sat defs rest
                (upsert st.1 n v, upsert st.2.1 n { rc with darkContrast := v }, cs0) := by
            simp [pass4, halk, hrs, hrc]
          rw [hstep] at hres
          have hv := resolveColorForScheme_bounds M lumF cfg ⟨hue, sat, defs, st.2.1⟩ n d
            true true st.2.2 v cs0 hh0 hh1 hrs
          exact ih _ vm' rm' cs' (upsert_forall _ st.1 n v hst hv) hres

theorem buildResult_bounded (defs : ColorMap)
    (lm dm lhm dhm : List (String × ResolvedColorVariant))
    (hlm : ∀ q ∈ lm, variantInRange q.2) (hdm : ∀ q ∈ dm, variantInRange q.2)
    (hlhm : ∀ q ∈ lhm, variantInRange q.2) (hdhm : ∀ q ∈ dhm, variantInRange q.2) :
    ∀ (order : List String) (res : List (String × ResolvedColor)),
      buildResult defs lm dm lhm dhm order = .ok res →
      ∀ p ∈ res, variantInRange p.2.light ∧ variantInRange p.2.dark ∧
        variantInRange p.2.lightContrast ∧ variantInRange p.2.darkContrast := by
  intro order
  induction order with
  | nil =>
    intro res h p hp
    simp only [buildResult] at h
    injection h with h2
    rw [← h2] at hp
    simp at hp
  | cons n rest ih =>
    intro res h p hp
    simp only [buildResult] at h
    split at h
    · rename_i d vl vd vlc vdc h1 h2 h3 h4 h5
      cases hrec : buildResult defs lm dm lhm dhm rest with
      | error e =>
        rw [hrec] at h
        simp at h
      | ok tail =>
        rw [hrec] at h
        simp only at h
        injection h with h6
        rw [← h6] at hp
        rcases List.mem_cons.mp hp with rfl | hp'
        · exact ⟨alookup_forall _ lm n vl hlm h2, alookup_forall _ dm n vd hdm h3,
            alookup_forall _ lhm n vlc hlhm h4, alookup_forall _ dhm n vdc hdhm h5⟩
        · exact ih tail hrec p hp'
    · simp at h

/-- C8: for every seed with hue in `[0, 360)` and saturation in `[0, 100]`
and every map that resolves successfully, all four variants (light, dark,
light-contrast, dark-contrast) of every resolved color have hue in
`[0, 360)`, saturation in `[0, 1]`, and lightness in `[0, 1]`. -/
theorem c8_all_variants_in_range (M : ColorMath) (cfg : GlazeConfigR) (hue sat : ℚ)
    (defs : ColorMap) (res : List (String × ResolvedColor))
    (hh0 : 0 ≤ hue) (hh1 : hue < 360) (hs0 : 0 ≤ sat) (hs1 : sat ≤ 100)
    (hres : resolveAllColorsP M cfg hue sat defs = .ok res) :
    ∀ p ∈ res, variantInRange p.2.light ∧ variantInRange p.2.dark ∧
      variantInRange p.2.lightContrast ∧ variantInRange p.2.darkContrast := by
  simp only [resolveAllColorsP, resolveAllColors] at hres
  cases hval : validateColorDefs defs with
  | error e => rw [hval] at hres; simp at hres
  | ok u =>
    rw [hval] at hres
    dsimp only at hres
    rcases hp1 : pass1 M (pureLumF M) cfg hue sat defs (topoSort defs) ([], [], ())
      with ⟨r1, cs1⟩
    rw [hp1] at hres
    cases r1 with
    | error e => simp at hres
    | ok lmrm =>
      rcases lmrm with ⟨lm, rm1⟩
      dsimp only at hres
      cases hpp2 : prePass2 lm (topoSort defs) rm1 with
      | error e => rw [hpp2] at hres; simp at hres
      | ok rm2 =>
        rw [hpp2] at hres
        dsimp only at hres
        rcases hp2 : pass2 M (pureLumF M) cfg hue sat defs (topoSort defs) ([], rm2, cs1)
          with ⟨r2, cs2⟩
        rw [hp2] at hres
        cases r2 with
        | error e => simp at hres
        | ok lhmrm =>
          rcases lhmrm with ⟨lhm, rm3⟩
          dsimp only at hres
          cases hpp3 : prePass3 lm lhm defs (topoSort defs) rm3 with
          | error e => rw [hpp3] at hres; simp at hres
          | ok rm4 =>
            rw [hpp3] at hres
            dsimp only at hres
            rcases hp3 : pass3 M (pureLumF M) cfg hue sat defs (topoSort defs)
              ([], rm4, cs2) with ⟨r3, cs3⟩
            rw [hp3] at hres
            cases r3 with
            | error e => simp at hres
            | ok dmrm =>
              rcases dmrm with ⟨dm, rm5⟩
              dsimp only at hres
              cases hpp4 : prePass4 dm (topoSort defs) rm5 with
              | error e => rw [hpp4] at hres; simp at hres
              | ok rm6 =>
                rw [hpp4] at hres
                dsimp only at hres
                rcases hp4 : pass4 M (pureLumF M) cfg hue sat defs (topoSort defs)
                  ([], rm6, cs3) with ⟨r4, cs4⟩
                rw [hp4] at hres
                cases r4 with
                | error e => simp at hres
                | ok dhmrm =>
                  rcases dhmrm with ⟨dhm, rm7⟩
                  dsimp only at hres
                  have hlm := pass1_bounded M (pureLumF M) cfg hue sat defs hh0 hh1
                    (topoSort defs) ([], [], ()) lm rm1 cs1 (by simp) hp1
                  have hlhm := pass2_bounded M (pureLumF M) cfg hue sat defs hh0 hh1
                    (topoSort defs) ([], rm2, cs1) lhm rm3 cs2 (by simp) hp2
                  have hdm := pass3_bounded M (pureLumF M) cfg hue sat defs hh0 hh1
                    (topoSort defs) ([], rm4, cs2) dm rm5 cs3 (by simp) hp3
                  have hdhm := pass4_bounded M (pureLumF M) cfg hue sat defs hh0 hh1
                    (topoSort defs) ([], rm6, cs3) dhm rm7 cs4 (by simp) hp4
                  exact buildResult_bounded defs lm dm lhm dhm hlm hdm hlhm hdhm
                    (topoSort defs) res hres

set_option maxRecDepth 100000 in
/-- Witness for C8 at a concrete single-root map. -/
theorem c8_all_variants_in_range_witness :
    ((0 : ℚ) ≤ 0 ∧ (0 : ℚ) < 360 ∧ (0 : ℚ) ≤ 0 ∧ (0 : ℚ) ≤ 100 ∧
      resolveAllColorsP (constMath 0) defaultGlazeConfig 0 0 singleRootMap =
        .ok [("a", ⟨"a", ⟨0, 0, 1/2⟩, ⟨0, 0, 1/2⟩, ⟨0, 0, 1/2⟩, ⟨0, 0, 1/2⟩, .auto⟩)]) ∧
    ∀ p ∈ [("a", (⟨"a", ⟨0, 0, 1/2⟩, ⟨0, 0, 1/2⟩, ⟨0, 0, 1/2⟩, ⟨0, 0, 1/2⟩,
        .auto⟩ : ResolvedColor))],
      variantInRange p.2.light ∧ variantInRange p.2.dark ∧
      variantInRange p.2.lightContrast ∧ variantInRange p.2.darkContrast :=
  ⟨⟨le_rfl, by norm_num, le_rfl, by norm_num, by with_unfolding_all rfl⟩,
    c8_all_variants_in_range (constMath 0) defaultGlazeConfig 0 0 singleRootMap _
      le_rfl (by norm_num) le_rfl (by norm_num) (by with_unfolding_all rfl)⟩

-- ============================================================================
-- Cache-independence simulation lemmas (C7)
-- ============================================================================

theorem eraseKey_subset {α β : Type} [DecidableEq α] :
    ∀ (l : List (α × β)) (e : α) (q : α × β), q ∈ eraseKey l e → q ∈ l := by
  intro l
  induction l with
  | nil => intro e q h; simp [eraseKey] at h
  | cons p rest ih =>
    intro e q h
    rcases p with ⟨k, w⟩
    rw [eraseKey] at h
    by_cases he : e = k
    · rw [if_pos he] at h
      exact List.mem_cons_of_mem _ h
    · rw [if_neg he] at h
      rcases List.mem_cons.mp h with rfl | h'
      · exact List.mem_cons_self _ _
      · exact List.mem_cons_of_mem _ (ih e q h')

/-- On a consistent cache the memoized luminance equals the pure one. -/
theorem cachedLuminance_val (M : ColorMath) (c : LumCache) (h s l : ℚ)
    (hc : CacheConsistent M c) :
    (cachedLuminance M c h s l).1 = lumAt M h s l := by
  simp only [cachedLuminance]
  cases halk : alookup c.entries (h, s, round4 l) with
  | some y =>
    have := hc (h, s, round4 l) y (alookup_forall (fun q => q ∈ c.entries) c.entries
      (h, s, round4 l) y (fun q hq => hq) halk)
    simpa [lumAt] using this
  | none => simp [lumAt]

/-- The memoized luminance preserves cache consistency. -/
theorem cachedLuminance_inv (M : ColorMath) (c : LumCache) (h s l : ℚ)
    (hc : CacheConsistent M c) :
    CacheConsistent M (cachedLuminance M c h s l).2 := by
  simp only [cachedLuminance]
  cases halk : alookup c.entries (h, s, round4 l) with
  | some y => exact hc
  | none =>
    simp only
    intro k y hky
    by_cases hfull : 512 ≤ c.entries.length
    · rw [if_pos hfull] at hky
      cases hord : c.insOrder with
      | nil =>
        rw [hord] at hky
        simp only [List.mem_append, List.mem_singleton] at hky
        rcases hky with hold | hnew
        · exact hc k y hold
        · rw [Prod.mk.injEq] at hnew
          rw [hnew.2, hnew.1]
      | cons e rest =>
        rw [hord] at hky
        simp only [List.mem_append, List.mem_singleton] at hky
        rcases hky with hold | hnew
        · exact hc k y (eraseKey_subset c.entries e (k, y) hold)
        · rw [Prod.mk.injEq] at hnew
          rw [hnew.2, hnew.1]
    · rw [if_neg hfull] at hky
      simp only [List.mem_append, List.mem_singleton] at hky
      rcases hky with hold | hnew
      · exact hc k y hold
      · rw [Prod.mk.injEq] at hnew
        rw [hnew.2, hnew.1]

theorem bisectStep_sim {σ : Type} (M : ColorMath) (lumF : σ → ℚ → ℚ → ℚ → ℚ × σ)
    (Inv : σ → Prop)
    (hval : ∀ c h s l, Inv c → (lumF c h s l).1 = lumAt M h s l)
    (hinv : ∀ c h s l, Inv c → Inv (lumF c h s l).2)
    (h s yBase target preferred : ℚ) (st : ℚ × ℚ × σ) (hc : Inv st.2.2) :
    (bisectStep lumF h s yBase target preferred st).1 =
      (bisectStep (pureLumF M) h s yBase target preferred (st.1, st.2.1, ())).1 ∧
    (bisectStep lumF h s yBase target preferred st).2.1 =
      (bisectStep (pureLumF M) h s yBase target preferred (st.1, st.2.1, ())).2.1 ∧
    Inv (bisectStep lumF h s yBase target preferred st).2.2 := by
  rcases hl : lumF st.2.2 h s ((st.1 + st.2.1) / 2) with ⟨y, cs1⟩
  have hy : y = lumAt M h s ((st.1 + st.2.1) / 2) := by
    have h2 := hval st.2.2 h s ((st.1 + st.2.1) / 2) hc
    rw [hl] at h2
    exact h2
  have hcs : Inv cs1 := by
    have h2 := hinv st.2.2 h s ((st.1 + st.2.1) / 2) hc
    rw [hl] at h2
    exact h2
  simp only [bisectStep, pureLumF, hl]
  rw [hy]
  split_ifs <;> exact ⟨rfl, rfl, hcs⟩

theorem bisectLoop_sim {σ : Type} (M : ColorMath) (lumF : σ → ℚ → ℚ → ℚ → ℚ × σ)
    (Inv : σ → Prop)
    (hval : ∀ c h s l, Inv c → (lumF c h s l).1 = lumAt M h s l)
    (hinv : ∀ c h s l, Inv c → Inv (lumF c h s l).2)
    (h s yBase target eps preferred : ℚ) :
    ∀ (n : ℕ) (st : ℚ × ℚ × σ), Inv st.2.2 →
      (bisectLoop lumF h s yBase target eps preferred n st).1 =
        (bisectLoop (pureLumF M) h s yBase target eps preferred n (st.1, st.2.1, ())).1 ∧
      (bisectLoop lumF h s yBase target eps preferred n st).2.1 =
        (bisectLoop (pureLumF M) h s yBase target eps preferred n (st.1, st.2.1, ())).2.1 ∧
      Inv (bisectLoop lumF h s yBase target eps preferred n st).2.2 := by
  intro n
  induction n with
  | zero => intro st hc; exact ⟨rfl, rfl, hc⟩
  | succ n ih =>
    intro st hc
    by_cases hw : st.2.1 - st.1 < eps
    · simp only [bisectLoop, if_pos hw]
      exact ⟨by trivial, by trivial, hc⟩
    · obtain ⟨h1, h2, h3⟩ := bisectStep_sim M lumF Inv hval hinv h s yBase target
        preferred st hc
      have hps : bisectStep (pureLumF M) h s yBase target preferred (st.1, st.2.1, ()) =
          ((bisectStep lumF h s yBase target preferred st).1,
           (bisectStep lumF h s yBase target preferred st).2.1, ()) := by
        refine Prod.ext h1.symm (Prod.ext h2.symm rfl)
      simp only [bisectLoop, if_neg hw]
      rw [hps]
      exact ih (bisectStep lumF h s yBase target preferred st) h3

theorem scanStep_sim {σ : Type} (M : ColorMath) (lumF : σ → ℚ → ℚ → ℚ → ℚ × σ)
    (Inv : σ → Prop)
    (hval : ∀ c h s l, Inv c → (lumF c h s l).1 = lumAt M h s l)
    (hinv : ∀ c h s l, Inv c → Inv (lumF c h s l).2)
    (h s yBase target l : ℚ) (st : ℚ × ℚ × Bool × σ) (hc : Inv st.2.2.2) :
    (scanStep lumF h s yBase target st l).1 =
      (scanStep (pureLumF M) h s yBase target (st.1, st.2.1, st.2.2.1, ()) l).1 ∧
    (scanStep lumF h s yBase target st l).2.1 =
      (scanStep (pureLumF M) h s yBase target (st.1, st.2.1, st.2.2.1, ()) l).2.1 ∧
    (scanStep lumF h s yBase target st l).2.2.1 =
      (scanStep (pureLumF M) h s yBase target (st.1, st.2.1, st.2.2.1, ()) l).2.2.1 ∧
    Inv (scanStep lumF h s yBase target st l).2.2.2 := by
  rcases hl : lumF st.2.2.2 h s l with ⟨y, cs1⟩
  have hy : y = lumAt M h s l := by
    have h2 := hval st.2.2.2 h s l hc
    rw [hl] at h2
    exact h2
  have hcs : Inv cs1 := by
    have h2 := hinv st.2.2.2 h s l hc
    rw [hl] at h2
    exact h2
  simp only [scanStep, pureLumF, hl]
  rw [hy]
  split_ifs <;> exact ⟨rfl, rfl, rfl, hcs⟩

theorem refineLoop_sim {σ : Type} (M : ColorMath) (lumF : σ → ℚ → ℚ → ℚ → ℚ × σ)
    (Inv : σ → Prop)
    (hval : ∀ c h s l, Inv c → (lumF c h s l).1 = lumAt M h s l)
    (hinv : ∀ c h s l, Inv c → Inv (lumF c h s l).2)
    (h s yBase target eps : ℚ) :
    ∀ (n : ℕ) (st : ℚ × ℚ × ℚ × ℚ × σ), Inv st.2.2.2.2 →
      (refineLoop lumF h s yBase target eps n st).1 =
        (refineLoop (pureLumF M) h s yBase target eps n
          (st.1, st.2.1, st.2.2.1, st.2.2.2.1, ())).1 ∧
      (refineLoop lumF h s yBase target eps n st).2.1 =
        (refineLoop (pureLumF M) h s yBase target eps n
          (st.1, st.2.1, st.2.2.1, st.2.2.2.1, ())).2.1 ∧
      (refineLoop lumF h s yBase target eps n st).2.2.1 =
        (refineLoop (pureLumF M) h s yBase target eps n
          (st.1, st.2.1, st.2.2.1, st.2.2.2.1, ())).2.2.1 ∧
      (refineLoop lumF h s yBase target eps n st).2.2.2.1 =
        (refineLoop (pureLumF M) h s yBase target eps n
          (st.1, st.2.1, st.2.2.1, st.2.2.2.1, ())).2.2.2.1 ∧
      Inv (refineLoop lumF h s yBase target eps n st).2.2.2.2 := by
  intro n
  induction n with
  | zero => intro st hc; exact ⟨rfl, rfl, rfl, rfl, hc⟩
  | succ n ih =>
    intro st hc
    by_cases hw : st.2.1 - st.1 < eps
    · simp only [refineLoop, if_pos hw]
      exact ⟨by trivial, by trivial, by trivial, by trivial, hc⟩
    · rcases hl : lumF st.2.2.2.2 h s ((st.1 + st.2.1) / 2) with ⟨y, cs1⟩
      have hy : y = lumAt M h s ((st.1 + st.2.1) / 2) := by
        have h2 := hval st.2.2.2.2 h s ((st.1 + st.2.1) / 2) hc
        rw [hl] at h2
        exact h2
      have hcs : Inv cs1 := by
        have h2 := hinv st.2.2.2.2 h s ((st.1 + st.2.1) / 2) hc
        rw [hl] at h2
        exact h2
      simp only [refineLoop, if_neg hw, pureLumF, hl]
      rw [hy]
      by_cases hcr : target ≤ contrastRatioFromLuminance
          (lumAt M h s ((st.1 + st.2.1) / 2)) yBase
      · rw [if_pos hcr, if_pos hcr]
        exact ih (st.1, (st.1 + st.2.1) / 2, (st.1 + st.2.1) / 2,
          contrastRatioFromLuminance (lumAt M h s ((st.1 + st.2.1) / 2)) yBase, cs1) hcs
      · rw [if_neg hcr, if_neg hcr]
        exact ih ((st.1 + st.2.1) / 2, st.2.1, st.2.2.1, st.2.2.2.1, cs1) hcs

theorem scanFold_sim {σ : Type} (M : ColorMath) (lumF : σ → ℚ → ℚ → ℚ → ℚ × σ)
    (Inv : σ → Prop)
    (hval : ∀ c h s l, Inv c → (lumF c h s l).1 = lumAt M h s l)
    (hinv : ∀ c h s l, Inv c → Inv (lumF c h s l).2)
    (h s yBase target lo step : ℚ) :
    ∀ (xs : List ℕ) (st : ℚ × ℚ × Bool × σ), Inv st.2.2.2 →
      (xs.foldl (fun st (i : ℕ) => scanStep lumF h s yBase target st
        (lo + step * (i : ℚ))) st).1 =
        (xs.foldl (fun st (i : ℕ) => scanStep (pureLumF M) h s yBase target st
          (lo + step * (i : ℚ))) (st.1, st.2.1, st.2.2.1, ())).1 ∧
      (xs.foldl (fun st (i : ℕ) => scanStep lumF h s yBase target st
        (lo + step * (i : ℚ))) st).2.1 =
        (xs.foldl (fun st (i : ℕ) => scanStep (pureLumF M) h s yBase target st
          (lo + step * (i : ℚ))) (st.1, st.2.1, st.2.2.1, ())).2.1 ∧
      (xs.foldl (fun st (i : ℕ) => scanStep lumF h s yBase target st
        (lo + step * (i : ℚ))) st).2.2.1 =
        (xs.foldl (fun st (i : ℕ) => scanStep (pureLumF M) h s yBase target st
          (lo + step * (i : ℚ))) (st.1, st.2.1, st.2.2.1, ())).2.2.1 ∧
      Inv (xs.foldl (fun st (i : ℕ) => scanStep lumF h s yBase target st
        (lo + step * (i : ℚ))) st).2.2.2 := by
  intro xs
  induction xs with
  | nil => intro st hc; exact ⟨rfl, rfl, rfl, hc⟩
  | cons x rest ih =>
    intro st hc
    obtain ⟨h1, h2, h3, h4⟩ := scanStep_sim M lumF Inv hval hinv h s yBase target
      (lo + step * (x : ℚ)) st hc
    have hps : scanStep (pureLumF M) h s yBase target (st.1, st.2.1, st.2.2.1, ())
        (lo + step * (x : ℚ)) =
        ((scanStep lumF h s yBase target st (lo + step * (x : ℚ))).1,
         (scanStep lumF h s yBase target st (lo + step * (x : ℚ))).2.1,
         (scanStep lumF h s yBase target st (lo + step * (x : ℚ))).2.2.1, ()) :=
      Prod.ext h1.symm (Prod.ext h2.symm (Prod.ext h3.symm rfl))
    simp only [List.foldl_cons]
    rw [hps]
    exact ih (scanStep lumF h s yBase target st (lo + step * (x : ℚ))) h4

theorem coarseScan_sim {σ : Type} (M : ColorMath) (lumF : σ → ℚ → ℚ → ℚ → ℚ × σ)
    (Inv : σ → Prop)
    (hval : ∀ c h s l, Inv c → (lumF c h s l).1 = lumAt M h s l)
    (hinv : ∀ c h s l, Inv c → Inv (lumF c h s l).2)
    (h s lo hi yBase target eps : ℚ) (maxIter : ℕ) (cs : σ) (hc : Inv cs) :
    (coarseScan lumF h s lo hi yBase target eps maxIter cs).1 =
      (coarseScan (pureLumF M) h s lo hi yBase target eps maxIter ()).1 ∧
    Inv (coarseScan lumF h s lo hi yBase target eps maxIter cs).2 := by
  obtain ⟨h1, h2, h3, h4⟩ := scanFold_sim M lumF Inv hval hinv h s yBase target lo
    ((hi - lo) / 64) (List.range 65) (lo, 0, false, cs) hc
  rcases hsc : (List.range 65).foldl
      (fun st (i : ℕ) => scanStep lumF h s yBase target st
        (lo + (hi - lo) / 64 * (i : ℚ))) (lo, 0, false, cs) with ⟨bL, bCr, bM, cs1⟩
  rw [hsc] at h1 h2 h3 h4
  have hps : (List.range 65).foldl
      (fun st (i : ℕ) => scanStep (pureLumF M) h s yBase target st
        (lo + (hi - lo) / 64 * (i : ℚ))) (lo, 0, false, ()) = (bL, bCr, bM, ()) :=
    Prod.ext h1.symm (Prod.ext h2.symm (Prod.ext h3.symm rfl))
  simp only [coarseScan, hsc, hps]
  by_cases hcond : bM = true ∧ lo + (hi - lo) / 64 < bL
  · rw [if_pos hcond, if_pos hcond]
    obtain ⟨r1, r2, r3, r4, r5⟩ := refineLoop_sim M lumF Inv hval hinv h s yBase target
      eps maxIter (bL - (hi - lo) / 64, bL, bL, bCr, cs1) h4
    simp only at r1 r2 r3 r4 r5
    refine ⟨?_, r5⟩
    simp only [r3, r4]
  · rw [if_neg hcond, if_neg hcond]
    exact ⟨rfl, h4⟩

theorem searchBranch_sim {σ : Type} (M : ColorMath) (lumF : σ → ℚ → ℚ → ℚ → ℚ × σ)
    (Inv : σ → Prop)
    (hval : ∀ c h s l, Inv c → (lumF c h s l).1 = lumAt M h s l)
    (hinv : ∀ c h s l, Inv c → Inv (lumF c h s l).2)
    (h s lo hi yBase target eps : ℚ) (maxIter : ℕ) (preferred : ℚ) (cs : σ)
    (hc : Inv cs) :
    (searchBranch lumF h s lo hi yBase target eps maxIter preferred cs).1 =
      (searchBranch (pureLumF M) h s lo hi yBase target eps maxIter preferred ()).1 ∧
    Inv (searchBranch lumF h s lo hi yBase target eps maxIter preferred cs).2 := by
  rcases hl1 : lumF cs h s lo with ⟨yLo, cs1⟩
  have hy1 : yLo = lumAt M h s lo := by
    have h2 := hval cs h s lo hc
    rw [hl1] at h2
    exact h2
  have hc1 : Inv cs1 := by
    have h2 := hinv cs h s lo hc
    rw [hl1] at h2
    exact h2
  rcases hl2 : lumF cs1 h s hi with ⟨yHi, cs2⟩
  have hy2 : yHi = lumAt M h s hi := by
    have h2 := hval cs1 h s hi hc1
    rw [hl2] at h2
    exact h2
  have hc2 : Inv cs2 := by
    have h2 := hinv cs1 h s hi hc1
    rw [hl2] at h2
    exact h2
  simp only [searchBranch, pureLumF, hl1, hl2]
  rw [hy1, hy2]
  by_cases hinf : contrastRatioFromLuminance (lumAt M h s lo) yBase < target ∧
      contrastRatioFromLuminance (lumAt M h s hi) yBase < target
  · rw [if_pos hinf, if_pos hinf]
    split_ifs <;> exact ⟨rfl, hc2⟩
  · rw [if_neg hinf, if_neg hinf]
    obtain ⟨b1, b2, b3⟩ := bisectLoop_sim M lumF Inv hval hinv h s yBase target eps
      preferred maxIter (lo, hi, cs2) hc2
    simp only at b1 b2 b3
    rcases hbis : bisectLoop lumF h s yBase target eps preferred maxIter (lo, hi, cs2)
      with ⟨low, high, cs3⟩
    rw [hbis] at b1 b2 b3
    have hpb : bisectLoop (pureLumF M) h s yBase target eps preferred maxIter
        (lo, hi, ()) = (low, high, ()) :=
      Prod.ext b1.symm (Prod.ext b2.symm rfl)
    rw [hpb]
    simp only
    rcases hl3 : lumF cs3 h s low with ⟨yLow, cs4⟩
    have hy3 : yLow = lumAt M h s low := by
      have h2 := hval cs3 h s low b3
      rw [hl3] at h2
      exact h2
    have hc4 : Inv cs4 := by
      have h2 := hinv cs3 h s low b3
      rw [hl3] at h2
      exact h2
    rcases hl4 : lumF cs4 h s high with ⟨yHigh, cs5⟩
    have hy4 : yHigh = lumAt M h s high := by
      have h2 := hval cs4 h s high hc4
      rw [hl4] at h2
      exact h2
    have hc5 : Inv cs5 := by
      have h2 := hinv cs4 h s high hc4
      rw [hl4] at h2
      exact h2
    simp only [hl3, hl4, pureLumF]
    rw [hy3, hy4]
    split_ifs with hq1 hq2 hq3 hq4
    · exact ⟨rfl, hc5⟩
    · exact ⟨rfl, hc5⟩
    · exact ⟨rfl, hc5⟩
    · exact ⟨rfl, hc5⟩
    · exact coarseScan_sim M lumF Inv hval hinv h s lo hi yBase target eps maxIter
        cs5 hc5

theorem findLightness_sim {σ : Type} (M : ColorMath) (lumF : σ → ℚ → ℚ → ℚ → ℚ × σ)
    (Inv : σ → Prop)
    (hval : ∀ c h s l, Inv c → (lumF c h s l).1 = lumAt M h s l)
    (hinv : ∀ c h s l, Inv c → Inv (lumF c h s l).2)
    (opts : FLOptions) (cs : σ) (hc : Inv cs) :
    (findLightnessForContrast M lumF opts cs).1 =
      (findLightnessForContrast M (pureLumF M) opts ()).1 ∧
    Inv (findLightnessForContrast M lumF opts cs).2 := by
  rcases hl1 : lumF cs opts.hue opts.saturation opts.preferredLightness with ⟨yPref, cs1⟩
  have hy1 : yPref = lumAt M opts.hue opts.saturation opts.preferredLightness := by
    have h2 := hval cs opts.hue opts.saturation opts.preferredLightness hc
    rw [hl1] at h2
    exact h2
  have hc1 : Inv cs1 := by
    have h2 := hinv cs opts.hue opts.saturation opts.preferredLightness hc
    rw [hl1] at h2
    exact h2
  simp only [findLightnessForContrast, pureLumF, hl1]
  rw [hy1]
  by_cases hpref : resolveMinContrast opts.contrast ≤
      contrastRatioFromLuminance (lumAt M opts.hue opts.saturation opts.preferredLightness)
        (M.relLum opts.baseLinearRgb)
  · rw [if_pos hpref, if_pos hpref]
    exact ⟨rfl, hc1⟩
  · rw [if_neg hpref, if_neg hpref]
    by_cases hd : opts.lightnessRange.1 < opts.preferredLightness
    · rcases hrd : searchBranch lumF opts.hue opts.saturation opts.lightnessRange.1
          opts.preferredLightness (M.relLum opts.baseLinearRgb)
          (resolveMinContrast opts.contrast) opts.epsilon opts.maxIterations
          opts.preferredLightness cs1 with ⟨rd, csd⟩
      rcases hprd : searchBranch (pureLumF M) opts.hue opts.saturation
          opts.lightnessRange.1 opts.preferredLightness (M.relLum opts.baseLinearRgb)
          (resolveMinContrast opts.contrast) opts.epsilon opts.maxIterations
          opts.preferredLightness () with ⟨rdp, u1⟩
      cases u1
      obtain ⟨d1, d2⟩ := searchBranch_sim M lumF Inv hval hinv opts.hue opts.saturation
        opts.lightnessRange.1 opts.preferredLightness (M.relLum opts.baseLinearRgb)
        (resolveMinContrast opts.contrast) opts.epsilon opts.maxIterations
        opts.preferredLightness cs1 hc1
      rw [hrd, hprd] at d1
      rw [hrd] at d2
      dsimp only at d1 d2
      subst d1
      by_cases hlt : opts.preferredLightness < opts.lightnessRange.2
      · rw [if_pos hd, if_pos hd, if_pos hlt, if_pos hlt]
        dsimp only
        rcases hrl : searchBranch lumF opts.hue opts.saturation opts.preferredLightness
            opts.lightnessRange.2 (M.relLum opts.baseLinearRgb)
            (resolveMinContrast opts.contrast) opts.epsilon opts.maxIterations
            opts.preferredLightness csd with ⟨rl, csl⟩
        rcases hprl : searchBranch (pureLumF M) opts.hue opts.saturation
            opts.preferredLightness opts.lightnessRange.2 (M.relLum opts.baseLinearRgb)
            (resolveMinContrast opts.contrast) opts.epsilon opts.maxIterations
            opts.preferredLightness () with ⟨rl2, u2⟩
        cases u2
        obtain ⟨l1, l2⟩ := searchBranch_sim M lumF Inv hval hinv opts.hue opts.saturation
          opts.preferredLightness opts.lightnessRange.2 (M.relLum opts.baseLinearRgb)
          (resolveMinContrast opts.contrast) opts.epsilon opts.maxIterations
          opts.preferredLightness csd d2
        rw [hrl, hprl] at l1
        rw [hrl] at l2
        dsimp only at l1 l2
        subst l1
        dsimp only
        refine ⟨?_, ?_⟩
        · split_ifs <;> rfl
        · split_ifs <;> exact l2
      · rw [if_pos hd, if_pos hd, if_neg hlt, if_neg hlt]
        dsimp only
        exact ⟨rfl, d2⟩
    · by_cases hlt : opts.preferredLightness < opts.lightnessRange.2
      · rw [if_neg hd, if_neg hd, if_pos hlt, if_pos hlt]
        dsimp only
        rcases hrl : searchBranch lumF opts.hue opts.saturation opts.preferredLightness
            opts.lightnessRange.2 (M.relLum opts.baseLinearRgb)
            (resolveMinContrast opts.contrast) opts.epsilon opts.maxIterations
            opts.preferredLightness cs1 with ⟨rl, csl⟩
        rcases hprl : searchBranch (pureLumF M) opts.hue opts.saturation
            opts.preferredLightness opts.lightnessRange.2 (M.relLum opts.baseLinearRgb)
            (resolveMinContrast opts.contrast) opts.epsilon opts.maxIterations
            opts.preferredLightness () with ⟨rl2, u2⟩
        cases u2
        obtain ⟨l1, l2⟩ := searchBranch_sim M lumF Inv hval hinv opts.hue opts.saturation
          opts.preferredLightness opts.lightnessRange.2 (M.relLum opts.baseLinearRgb)
          (resolveMinContrast opts.contrast) opts.epsilon opts.maxIterations
          opts.preferredLightness cs1 hc1
        rw [hrl, hprl] at l1
        rw [hrl] at l2
        dsimp only at l1 l2
        subst l1
        dsimp only
        exact ⟨rfl, l2⟩
      · rw [if_neg hd, if_neg hd, if_neg hlt, if_neg hlt]
        exact ⟨by with_unfolding_all rfl, hc1⟩

theorem resolveDependentColor_sim {σ : Type} (M : ColorMath)
    (lumF : σ → ℚ → ℚ → ℚ → ℚ × σ) (Inv : σ → Prop)
    (hval : ∀ c h s l, Inv c → (lumF c h s l).1 = lumAt M h s l)
    (hinv : ∀ c h s l, Inv c → Inv (lumF c h s l).2)
    (cfg : GlazeConfigR) (ctx : ResolveCtx) (nm : String) (d : ColorDef)
    (isHC isDark : Bool) (effHue : ℚ) (cs : σ) (hc : Inv cs) :
    (resolveDependentColor M lumF cfg ctx nm d isHC isDark effHue cs).1 =
      (resolveDependentColor M (pureLumF M) cfg ctx nm d isHC isDark effHue ()).1 ∧
    Inv (resolveDependentColor M lumF cfg ctx nm d isHC isDark effHue cs).2 := by
  cases hb : d.base with
  | none =>
    simp only [resolveDependentColor, hb]
    exact ⟨by trivial, hc⟩
  | some bn =>
    cases hlk : alookup ctx.resolved bn with
    | none =>
      simp only [resolveDependentColor, hb, hlk]
      exact ⟨by trivial, hc⟩
    | some baseR =>
      cases hct : d.contrast with
      | none =>
        simp only [resolveDependentColor, hb, hlk, hct]
        exact ⟨by trivial, hc⟩
      | some cp =>
        simp only [resolveDependentColor, hb, hlk, hct]
        constructor
        · rw [(findLightness_sim M lumF Inv hval hinv _ cs hc).1]
        · exact (findLightness_sim M lumF Inv hval hinv _ cs hc).2

theorem resolveColorForScheme_sim {σ : Type} (M : ColorMath)
    (lumF : σ → ℚ → ℚ → ℚ → ℚ × σ) (Inv : σ → Prop)
    (hval : ∀ c h s l, Inv c → (lumF c h s l).1 = lumAt M h s l)
    (hinv : ∀ c h s l, Inv c → Inv (lumF c h s l).2)
    (cfg : GlazeConfigR) (ctx : ResolveCtx) (nm : String) (d : ColorDef)
    (isDark isHC : Bool) (cs : σ) (hc : Inv cs) :
    (resolveColorForScheme M lumF cfg ctx nm d isDark isHC cs).1 =
      (resolveColorForScheme M (pureLumF M) cfg ctx nm d isDark isHC ()).1 ∧
    Inv (resolveColorForScheme M lumF cfg ctx nm d isDark isHC cs).2 := by
  by_cases hroot : (isAbsoluteLightness d.lightness && d.base.isNone) = true
  · simp only [resolveColorForScheme, hroot, if_true]
    exact ⟨by trivial, hc⟩
  · simp only [resolveColorForScheme, hroot, if_false]
    obtain ⟨r1, r2⟩ := resolveDependentColor_sim M lumF Inv hval hinv cfg ctx nm d
      isHC isDark (resolveEffectiveHue ctx.hue d.hue) cs hc
    rcases hrd : resolveDependentColor M lumF cfg ctx nm d isHC isDark
        (resolveEffectiveHue ctx.hue d.hue) cs with ⟨r0, cs0⟩
    rcases hprd : resolveDependentColor M (pureLumF M) cfg ctx nm d isHC isDark
        (resolveEffectiveHue ctx.hue d.hue) () with ⟨r0p, u1⟩
    cases u1
    rw [hrd, hprd] at r1
    rw [hrd] at r2
    dsimp only at r1 r2
    subst r1
    cases r0 with
    | error e => exact ⟨rfl, r2⟩
    | ok ls => exact ⟨rfl, r2⟩

theorem pass1_sim {σ : Type} (M : ColorMath) (lumF : σ → ℚ → ℚ → ℚ → ℚ × σ)
    (Inv : σ → Prop)
    (hval : ∀ c h s l, Inv c → (lumF c h s l).1 = lumAt M h s l)
    (hinv : ∀ c h s l, Inv c → Inv (lumF c h s l).2)
    (cfg : GlazeConfigR) (hue sat : ℚ) (defs : ColorMap) :
    ∀ (order : List String) (vm : List (String × ResolvedColorVariant))
      (rm : List (String × ResolvedColor)) (cs : σ), Inv cs →
      (pass1 M lumF cfg hue sat defs order (vm, rm, cs)).1 =
        (pass1 M (pureLumF M) cfg hue sat defs order (vm, rm, ())).1 ∧
      Inv (pass1 M lumF cfg hue sat defs order (vm, rm, cs)).2 := by
  intro order
  induction order with
  | nil => intro vm rm cs hc; exact ⟨rfl, hc⟩
  | cons n rest ih =>
    intro vm rm cs hc
    cases halk : alookup defs n with
    | none =>
      rw [show pass1 M lumF cfg hue sat defs (n :: rest) (vm, rm, cs) =
          (.error (.internalMissing n), cs) from by simp [pass1, halk]]
      rw [show pass1 M (pureLumF M) cfg hue sat defs (n :: rest) (vm, rm, ()) =
          (.error (.internalMissing n), ()) from by simp [pass1, halk]]
      exact ⟨rfl, hc⟩
    | some d =>
      obtain ⟨s1, s2⟩ := resolveColorForScheme_sim M lumF Inv hval hinv cfg
        ⟨hue, sat, defs, rm⟩ n d false false cs hc
      rcases hrs : resolveColorForScheme M lumF cfg ⟨hue, sat, defs, rm⟩ n d false false cs
        with ⟨r0, cs0⟩
      rcases hprs : resolveColorForScheme M (pureLumF M) cfg ⟨hue, sat, defs, rm⟩ n d
        false false () with ⟨r0p, u1⟩
      cases u1
      rw [hrs, hprs] at s1
      rw [hrs] at s2
      dsimp only at s1 s2
      subst s1
      cases r0 with
      | error e =>
        rw [show pass1 M lumF cfg hue sat defs (n :: rest) (vm, rm, cs) = (.error e, cs0)
          from by simp [pass1, halk, hrs]]
        rw [show pass1 M (pureLumF M) cfg hue sat defs (n :: rest) (vm, rm, ()) =
          (.error e, ()) from by simp [pass1, halk, hprs]]
        exact ⟨rfl, s2⟩
      | ok v =>
        rw [show pass1 M lumF cfg hue sat defs (n :: rest) (vm, rm, cs) =
            pass1 M lumF cfg hue sat defs rest
              (upsert vm n v, upsert rm n ⟨n, v, v, v, v, d.mode.getD .auto⟩, cs0)
          from by simp [pass1, halk, hrs]]
        rw [show pass1 M (pureLumF M) cfg hue sat defs (n :: rest) (vm, rm, ()) =
            pass1 M (pureLumF M) cfg hue sat defs rest
              (upsert vm n v, upsert rm n ⟨n, v, v, v, v, d.mode.getD .auto⟩, ())
          from by simp [pass1, halk, hprs]]
        exact ih (upsert vm n v) (upsert rm n ⟨n, v, v, v, v, d.mode.getD .auto⟩) cs0 s2

theorem pass2_sim {σ : Type} (M : ColorMath) (lumF : σ → ℚ → ℚ → ℚ → ℚ × σ)
    (Inv : σ → Prop)
    (hval : ∀ c h s l, Inv c → (lumF c h s l).1 = lumAt M h s l)
    (hinv : ∀ c h s l, Inv c → Inv (lumF c h s l).2)
    (cfg : GlazeConfigR) (hue sat : ℚ) (defs : ColorMap) :
    ∀ (order : List String) (vm : List (String × ResolvedColorVariant))
      (rm : List (String × ResolvedColor)) (cs : σ), Inv cs →
      (pass2 M lumF cfg hue sat defs order (vm, rm, cs)).1 =
        (pass2 M (pureLumF M) cfg hue sat defs order (vm, rm, ())).1 ∧
      Inv (pass2 M lumF cfg hue sat defs order (vm, rm, cs)).2 := by
  intro order
  induction order with
  | nil => intro vm rm cs hc; exact ⟨rfl, hc⟩
  | cons n rest ih =>
    intro vm rm cs hc
    cases halk : alookup defs n with
    | none =>
      rw [show pass2 M lumF cfg hue sat defs (n :: rest) (vm, rm, cs) =
          (.error (.internalMissing n), cs) from by simp [pass2, halk]]
      rw [show pass2 M (pureLumF M) cfg hue sat defs (n :: rest) (vm, rm, ()) =
          (.error (.internalMissing n), ()) from by simp [pass2, halk]]
      exact ⟨rfl, hc⟩
    | some d =>
      obtain ⟨s1, s2⟩ := resolveColorForScheme_sim M lumF Inv hval hinv cfg
        ⟨hue, sat, defs, rm⟩ n d false true cs hc
      rcases hrs : resolveColorForScheme M lumF cfg ⟨hue, sat, defs, rm⟩ n d false true cs
        with ⟨r0, cs0⟩
      rcases hprs : resolveColorForScheme M (pureLumF M) cfg ⟨hue, sat, defs, rm⟩ n d
        false true () with ⟨r0p, u1⟩
      cases u1
      rw [hrs, hprs] at s1
      rw [hrs] at s2
      dsimp only at s1 s2
      subst s1
      cases r0 with
      | error e =>
        rw [show pass2 M lumF cfg hue sat defs (n :: rest) (vm, rm, cs) = (.error e, cs0)
          from by simp [pass2, halk, hrs]]
        rw [show pass2 M (pureLumF M) cfg hue sat defs (n :: rest) (vm, rm, ()) =
          (.error e, ()) from by simp [pass2, halk, hprs]]
        exact ⟨rfl, s2⟩
      | ok v =>
        cases hrc : alookup rm n with
        | none =>
          rw [show pass2 M lumF cfg hue sat defs (n :: rest) (vm, rm, cs) =
              (.error (.internalMissing n), cs0) from by simp [pass2, halk, hrs, hrc]]
          rw [show pass2 M (pureLumF M) cfg hue sat defs (n :: rest) (vm, rm, ()) =
              (.error (.internalMissing n), ()) from by simp [pass2, halk, hprs, hrc]]
          exact ⟨rfl, s2⟩
        | some rc =>
          rw [show pass2 M lumF cfg hue sat defs (n :: rest) (vm, rm, cs) =
              pass2 M lumF cfg hue sat defs rest
                (upsert vm n v, upsert rm n { rc with lightContrast := v }, cs0)
            from by simp [pass2, halk, hrs, hrc]]
          rw [show pass2 M (pureLumF M) cfg hue sat defs (n :: rest) (vm, rm, ()) =
              pass2 M (pureLumF M) cfg hue sat defs rest
                (upsert vm n v, upsert rm n { rc with lightContrast := v }, ())
            from by simp [pass2, halk, hprs, hrc]]
          exact ih (upsert vm n v) (upsert rm n { rc with lightContrast := v }) cs0 s2

theorem pass3_sim {σ : Type} (M : ColorMath) (lumF : σ → ℚ → ℚ → ℚ → ℚ × σ)
    (Inv : σ → Prop)
    (hval : ∀ c h s l, Inv c → (lumF c h s l).1 = lumAt M h s l)
    (hinv : ∀ c h s l, Inv c → Inv (lumF c h s l).2)
    (cfg : GlazeConfigR) (hue sat : ℚ) (defs : ColorMap) :
    ∀ (order : List String) (vm : List (String × ResolvedColorVariant))
      (rm : List (String × ResolvedColor)) (cs : σ), Inv cs →
      (pass3 M lumF cfg hue sat defs order (vm, rm, cs)).1 =
        (pass3 M (pureLumF M) cfg hue sat defs order (vm, rm, ())).1 ∧
      Inv (pass3 M lumF cfg hue sat defs order (vm, rm, cs)).2 := by
  intro order
  induction order with
  | nil => intro vm rm cs hc; exact ⟨rfl, hc⟩
  | cons n rest ih =>
    intro vm rm cs hc
    cases halk : alookup defs n with
    | none =>
      rw [show pass3 M lumF cfg hue sat defs (n :: rest) (vm, rm, cs) =
          (.error (.internalMissing n), cs) from by simp [pass3, halk]]
      rw [show pass3 M (pureLumF M) cfg hue sat defs (n :: rest) (vm, rm, ()) =
          (.error (.internalMissing n), ()) from by simp [pass3, halk]]
      exact ⟨rfl, hc⟩
    | some d =>
      obtain ⟨s1, s2⟩ := resolveColorForScheme_sim M lumF Inv hval hinv cfg
        ⟨hue, sat, defs, rm⟩ n d true false cs hc
      rcases hrs : resolveColorForScheme M lumF cfg ⟨hue, sat, defs, rm⟩ n d true false cs
        with ⟨r0, cs0⟩
      rcases hprs : resolveColorForScheme M (pureLumF M) cfg ⟨hue, sat, defs, rm⟩ n d
        true false () with ⟨r0p, u1⟩
      cases u1
      rw [hrs, hprs] at s1
      rw [hrs] at s2
      dsimp only at s1 s2
      subst s1
      cases r0 with
      | error e =>
        rw [show pass3 M lumF cfg hue sat defs (n :: rest) (vm, rm, cs) = (.error e, cs0)
          from by simp [pass3, halk, hrs]]
        rw [show pass3 M (pureLumF M) cfg hue sat defs (n :: rest) (vm, rm, ()) =
          (.error e, ()) from by simp [pass3, halk, hprs]]
        exact ⟨rfl, s2⟩
      | ok v =>
        cases hrc : alookup rm n with
        | none =>
          rw [show pass3 M lumF cfg hue sat defs (n :: rest) (vm, rm, cs) =
              (.error (.internalMissing n), cs0) from by simp [pass3, halk, hrs, hrc]]
          rw [show pass3 M (pureLumF M) cfg hue sat defs (n :: rest) (vm, rm, ()) =
              (.error (.internalMissing n), ()) from by simp [pass3, halk, hprs, hrc]]
          exact ⟨rfl, s2⟩
        | some rc =>
          rw [show pass3 M lumF cfg hue sat defs (n :: rest) (vm, rm, cs) =
              pass3 M lumF cfg hue sat defs rest
                (upsert vm n v, upsert rm n { rc with dark := v }, cs0)
            from by simp [pass3, halk, hrs, hrc]]
          rw [show pass3 M (pureLumF M) cfg hue sat defs (n :: rest) (vm, rm, ()) =
              pass3 M (pureLumF M) cfg hue sat defs rest
                (upsert vm n v, upsert rm n { rc with dark := v }, ())
            from by simp [pass3, halk, hprs, hrc]]
          exact ih (upsert vm n v) (upsert rm n { rc with dark := v }) cs0 s2

theorem pass4_sim {σ : Type} (M : ColorMath) (lumF : σ → ℚ → ℚ → ℚ → ℚ × σ)
    (Inv : σ → Prop)
    (hval : ∀ c h s l, Inv c → (lumF c h s l).1 = lumAt M h s l)
    (hinv : ∀ c h s l, Inv c → Inv (lumF c h s l).2)
    (cfg : GlazeConfigR) (hue sat : ℚ) (defs : ColorMap) :
    ∀ (order : List String) (vm : List (String × ResolvedColorVariant))
      (rm : List (String × ResolvedColor)) (cs : σ), Inv cs →
      (pass4 M lumF cfg hue sat defs order (vm, rm, cs)).1 =
        (pass4 M (pureLumF M) cfg hue sat defs order (vm, rm, ())).1 ∧
      Inv (pass4 M lumF cfg hue sat defs order (vm, rm, cs)).2 := by
  intro order
  induction order with
  | nil => intro vm rm cs hc; exact ⟨rfl, hc⟩
  | cons n rest ih =>
    intro vm rm cs hc
    cases halk : alookup defs n with
    | none =>
      rw [show pass4 M lumF cfg hue sat defs (n :: rest) (vm, rm, cs) =
          (.error (.internalMissing n), cs) from by simp [pass4, halk]]
      rw [show pass4 M (pureLumF M) cfg hue sat defs (n :: rest) (vm, rm, ()) =
          (.error (.internalMissing n), ()) from by simp [pass4, halk]]
      exact ⟨rfl, hc⟩
    | some d =>
      obtain ⟨s1, s2⟩ := resolveColorForScheme_sim M lumF Inv hval hinv cfg
        ⟨hue, sat, defs, rm⟩ n d true true cs hc
      rcases hrs : resolveColorForScheme M lumF cfg ⟨hue, sat, defs, rm⟩ n d true true cs
        with ⟨r0, cs0⟩
      rcases hprs : resolveColorForScheme M (pureLumF M) cfg ⟨hue, sat, defs, rm⟩ n d
        true true () with ⟨r0p, u1⟩
      cases u1
      rw [hrs, hprs] at s1
      rw [hrs] at s2
      dsimp only at s1 s2
      subst s1
      cases r0 with
      | error e =>
        rw [show pass4 M lumF cfg hue sat defs (n :: rest) (vm, rm, cs) = (.error e, cs0)
          from by simp [pass4, halk, hrs]]
        rw [show pass4 M (pureLumF M) cfg hue sat defs (n :: rest) (vm, rm, ()) =
          (.error e, ()) from by simp [pass4, halk, hprs]]
        exact ⟨rfl, s2⟩
      | ok v =>
        cases hrc : alookup rm n with
        | none =>
          rw [show pass4 M lumF cfg hue sat defs (n :: rest) (vm, rm, cs) =
              (.error (.internalMissing n), cs0) from by simp [pass4, halk, hrs, hrc]]
          rw [show pass4 M (pureLumF M) cfg hue sat defs (n :: rest) (vm, rm, ()) =
              (.error (.internalMissing n), ()) from by simp [pass4, halk, hprs, hrc]]
          exact ⟨rfl, s2⟩
        | some rc =>
          rw [show pass4 M lumF cfg hue sat defs (n :: rest) (vm, rm, cs) =
              pass4 M lumF cfg hue sat defs rest
                (upsert vm n v, upsert rm n { rc with darkContrast := v }, cs0)
            from by simp [pass4, halk, hrs, hrc]]
          rw [show pass4 M (pureLumF M) cfg hue sat defs (n :: rest) (vm, rm, ()) =
              pass4 M (pureLumF M) cfg hue sat defs rest
                (upsert vm n v, upsert rm n { rc with darkContrast := v }, ())
            from by simp [pass4, halk, hprs, hrc]]
          exact ih (upsert vm n v) (upsert rm n { rc with darkContrast := v }) cs0 s2

theorem resolveAllColors_sim {σ : Type} (M : ColorMath)
    (lumF : σ → ℚ → ℚ → ℚ → ℚ × σ) (Inv : σ → Prop)
    (hval : ∀ c h s l, Inv c → (lumF c h s l).1 = lumAt M h s l)
    (hinv : ∀ c h s l, Inv c → Inv (lumF c h s l).2)
    (cfg : GlazeConfigR) (hue sat : ℚ) (defs : ColorMap) (cs : σ) (hc : Inv cs) :
    (resolveAllColors M lumF cfg hue sat defs cs).1 =
      (resolveAllColors M (pureLumF M) cfg hue sat defs ()).1 := by
  cases hv : validateColorDefs defs with
  | error e => simp [resolveAllColors, hv]
  | ok u =>
    simp only [resolveAllColors, hv]
    obtain ⟨p1, q1⟩ := pass1_sim M lumF Inv hval hinv cfg hue sat defs
      (topoSort defs) [] [] cs hc
    rcases h1 : pass1 M lumF cfg hue sat defs (topoSort defs) ([], [], cs) with ⟨r1, cs1⟩
    rcases h1p : pass1 M (pureLumF M) cfg hue sat defs (topoSort defs) ([], [], ())
      with ⟨r1p, u1⟩
    cases u1
    rw [h1, h1p] at p1
    rw [h1] at q1
    dsimp only at p1 q1
    subst p1
    cases r1 with
    | error e => rfl
    | ok lmrm =>
      rcases lmrm with ⟨lm, rm1⟩
      dsimp only
      cases hpp2 : prePass2 lm (topoSort defs) rm1 with
      | error e => rfl
      | ok rm2 =>
        dsimp only
        obtain ⟨p2, q2⟩ := pass2_sim M lumF Inv hval hinv cfg hue sat defs
          (topoSort defs) [] rm2 cs1 q1
        rcases h2 : pass2 M lumF cfg hue sat defs (topoSort defs) ([], rm2, cs1)
          with ⟨r2, cs2⟩
        rcases h2p : pass2 M (pureLumF M) cfg hue sat defs (topoSort defs) ([], rm2, ())
          with ⟨r2p, u2⟩
        cases u2
        rw [h2, h2p] at p2
        rw [h2] at q2
        dsimp only at p2 q2
        subst p2
        cases r2 with
        | error e => rfl
        | ok lhmrm =>
          rcases lhmrm with ⟨lhm, rm3⟩
          dsimp only
          cases hpp3 : prePass3 lm lhm defs (topoSort defs) rm3 with
          | error e => rfl
          | ok rm4 =>
            dsimp only
            obtain ⟨p3, q3⟩ := pass3_sim M lumF Inv hval hinv cfg hue sat defs
              (topoSort defs) [] rm4 cs2 q2
            rcases h3 : pass3 M lumF cfg hue sat defs (topoSort defs) ([], rm4, cs2)
              with ⟨r3, cs3⟩
            rcases h3p : pass3 M (pureLumF M) cfg hue sat defs (topoSort defs)
              ([], rm4, ()) with ⟨r3p, u3⟩
            cases u3
            rw [h3, h3p] at p3
            rw [h3] at q3
            dsimp only at p3 q3
            subst p3
            cases r3 with
            | error e => rfl
            | ok dmrm =>
              rcases dmrm with ⟨dm, rm5⟩
              dsimp only
              cases hpp4 : prePass4 dm (topoSort defs) rm5 with
              | error e => rfl
              | ok rm6 =>
                dsimp only
                obtain ⟨p4, q4⟩ := pass4_sim M lumF Inv hval hinv cfg hue sat defs
                  (topoSort defs) [] rm6 cs3 q3
                rcases h4 : pass4 M lumF cfg hue sat defs (topoSort defs) ([], rm6, cs3)
                  with ⟨r4, cs4⟩
                rcases h4p : pass4 M (pureLumF M) cfg hue sat defs (topoSort defs)
                  ([], rm6, ()) with ⟨r4p, u4⟩
                cases u4
                rw [h4, h4p] at p4
                dsimp only at p4
                subst p4
                cases r4 with
                | error e => rfl
                | ok dhmrm => rfl

/-- C7: resolution output is independent of the shared luminance cache
state: for any two consistent caches, `resolveAllColors` (run on the
memoized luminance) returns identical results, each equal to the pure
cache-free semantics. The cache affects only performance, never any
returned hue, saturation, or lightness. -/
theorem c7_cache_independent (M : ColorMath) (cfg : GlazeConfigR) (hue sat : ℚ)
    (defs : ColorMap) (c₁ c₂ : LumCache)
    (h1 : CacheConsistent M c₁) (h2 : CacheConsistent M c₂) :
    (resolveAllColors M (cachedLuminance M) cfg hue sat defs c₁).1 =
      (resolveAllColors M (cachedLuminance M) cfg hue sat defs c₂).1 ∧
    (resolveAllColors M (cachedLuminance M) cfg hue sat defs c₁).1 =
      resolveAllColorsP M cfg hue sat defs := by
  have e1 := resolveAllColors_sim M (cachedLuminance M) (CacheConsistent M)
    (fun c h s l hc => cachedLuminance_val M c h s l hc)
    (fun c h s l hc => cachedLuminance_inv M c h s l hc) cfg hue sat defs c₁ h1
  have e2 := resolveAllColors_sim M (cachedLuminance M) (CacheConsistent M)
    (fun c h s l hc => cachedLuminance_val M c h s l hc)
    (fun c h s l hc => cachedLuminance_inv M c h s l hc) cfg hue sat defs c₂ h2
  exact ⟨e1.trans e2.symm, e1⟩

/-- Witness for C7 at an empty and a one-entry consistent cache. -/
theorem c7_cache_independent_witness :
    CacheConsistent (constMath 1) ⟨[], []⟩ ∧
    CacheConsistent (constMath 1)
      ⟨[(((0 : ℚ), (0 : ℚ), (0 : ℚ)), 1)], [((0 : ℚ), (0 : ℚ), (0 : ℚ))]⟩ ∧
    (resolveAllColors (constMath 1) (cachedLuminance (constMath 1)) defaultGlazeConfig
        0 0 singleRootMap ⟨[], []⟩).1 =
      (resolveAllColors (constMath 1) (cachedLuminance (constMath 1)) defaultGlazeConfig
        0 0 singleRootMap
        ⟨[(((0 : ℚ), (0 : ℚ), (0 : ℚ)), 1)], [((0 : ℚ), (0 : ℚ), (0 : ℚ))]⟩).1 :=
  ⟨fun k y hm => by simp at hm,
    fun k y hm => by
      simp only [List.mem_singleton] at hm
      rw [Prod.mk.injEq] at hm
      rw [hm.2]
      rfl,
    (c7_cache_independent (constMath 1) defaultGlazeConfig 0 0 singleRootMap
      ⟨[], []⟩ ⟨[(((0 : ℚ), (0 : ℚ), (0 : ℚ)), 1)], [((0 : ℚ), (0 : ℚ), (0 : ℚ))]⟩
      (fun k y hm => by simp at hm)
      (fun k y hm => by
        simp only [List.mem_singleton] at hm
        rw [Prod.mk.injEq] at hm
        rw [hm.2]
        rfl)).1⟩
